import Mathlib

/-!
# EZBL trap handler: capture sequence, register decoder, interrupt table

A shallow embedding of `ezbl_lib/weak_defaults/EZBL_TrapHandler.c`:

* the pre-prologue assembly sequence that snapshots W0..W15, RCOUNT, the page
  registers and SR into `contextRegs`, as a state transformer on the 16-bit
  data space (the working registers are memory mapped at addresses 0..30);
* `printReg`, as a function from the data space to the list of `EZBL_printf`
  calls it makes;
* the interrupt table loop of `EZBL_TrapHandler`, as a function to the trace of
  volatile reads and `EZBL_printf` calls.

Machine words are natural numbers reduced modulo `2^16` where the hardware
truncates.
-/

namespace EZBL

/-! ## The output channel -/

/-- One variadic argument of an `EZBL_printf` call: a C string, a 16-bit
`int`/`unsigned int` (by bit pattern) or a 32-bit `unsigned long`. -/
inductive Arg where
  | str (s : String)
  | int (n : Nat)
  | long (n : Nat)
deriving DecidableEq, Repr

/-- One `EZBL_printf(fmt, args...)` call as it is written in the source. -/
structure Printf where
  fmt : String
  args : List Arg
deriving DecidableEq, Repr

/-- Flags, field width and length modifier of a conversion directive. -/
structure Conv where
  left : Bool
  space : Bool
  zero : Bool
  width : Nat
  long : Bool
deriving DecidableEq, Repr

def Conv.init : Conv := ⟨false, false, false, 0, false⟩

def digitChar (d : Nat) : Char :=
  ['0', '1', '2', '3', '4', '5', '6', '7', '8', '9', 'A', 'B', 'C', 'D', 'E', 'F'].getD d '?'

def digitsAux (base : Nat) : Nat → Nat → List Char → List Char
  | 0, _, acc => acc
  | fuel + 1, n, acc =>
    if n / base = 0 then digitChar (n % base) :: acc
    else digitsAux base fuel (n / base) (digitChar (n % base) :: acc)

/-- The numeral of `n` in the given base, most significant digit first (at
most 32 digits, which covers every 32-bit value). -/
def digits (base n : Nat) : List Char := digitsAux base 32 n []

def Arg.value : Arg → Nat
  | .str _ => 0
  | .int n => n
  | .long n => n

/-- The characters a conversion produces before padding. -/
def convert (c : Char) (sp : Conv) (a : Arg) : List Char :=
  let m := if sp.long then 4294967296 else 65536
  let v := a.value % m
  if c = 's' then
    match a with
    | .str s => s.data
    | _ => []
  else if c = 'X' then digits 16 v
  else if c = 'u' then digits 10 v
  else if c = 'd' then
    if v < m / 2 then (if sp.space then ' ' :: digits 10 v else digits 10 v)
    else '-' :: digits 10 (m - v)
  else []

/-- Pad a converted field to the directive's minimum width. -/
def pad (sp : Conv) (body : List Char) : List Char :=
  let fill := List.replicate (sp.width - body.length)
  if sp.left then body ++ fill ' '
  else if sp.zero then
    match body with
    | '-' :: rest => '-' :: (fill '0' ++ rest)
    | _ => fill '0' ++ body
  else fill ' ' ++ body

/-- Interpret a format string: `st = none` outside a directive, `some sp`
after a `%` with the flags, width and length read so far. -/
def formatChars : List Char → Option Conv → List Arg → List Char
  | [], _, _ => []
  | c :: cs, none, args =>
    if c = '%' then formatChars cs (some Conv.init) args
    else c :: formatChars cs none args
  | c :: cs, some sp, args =>
    if c = '%' then '%' :: formatChars cs none args
    else if c = '-' then formatChars cs (some { sp with left := true }) args
    else if c = ' ' then formatChars cs (some { sp with space := true }) args
    else if c = '0' ∧ sp.width = 0 then formatChars cs (some { sp with zero := true }) args
    else if c.isDigit then
      formatChars cs (some { sp with width := sp.width * 10 + (c.toNat - 48) }) args
    else if c = 'l' then formatChars cs (some { sp with long := true }) args
    else
      match args with
      | [] => formatChars cs none []
      | a :: rest => pad sp (convert c sp a) ++ formatChars cs none rest

/-- Modelled from the spec: `EZBL_printf` (declared in `../ezbl.h`, its body is
not among the sources), the formatted-text sink of the output channel
contract, "accepting a subset of standard format-string conventions (string,
unsigned/signed integer, hex in 16/24/32-bit widths)". Directives are
`%[-][ ][0][width][l]` followed by `s`, `X`, `u` or `d`; an argument without
`l` is a 16-bit value, `%d` reads it as two's complement. -/
def EZBL_printf (fmt : String) (args : List Arg) : String :=
  ⟨formatChars fmt.data none args⟩

/-- The text a call puts on the output channel. -/
def Printf.text (p : Printf) : String := EZBL_printf p.fmt p.args

/-- The text a sequence of calls puts on the output channel. -/
def render : List Printf → String
  | [] => ""
  | p :: ps => p.text ++ render ps

/-! ## Link-time symbols -/

/-- Addresses the linker assigns. A weak symbol that the device does not
define resolves to address 0. -/
structure Symbols where
  SR : Nat
  CORCON : Nat
  RCON : Nat
  INTCON1 : Nat
  SPLIM : Nat
  TBLPAG : Nat
  DISICNT : Nat
  RCOUNT : Nat
  IFS0 : Nat
  IEC0 : Nat
  IPC0 : Nat
  /-- Weak: 0 when the device has no DSRPAG. -/
  DSRPAG : Nat
  /-- Weak: 0 when the device has no DSWPAG. -/
  DSWPAG : Nat
  /-- Weak: 0 when the device has no PSVPAG. -/
  PSVPAG : Nat
  /-- Address of the static `contextRegs` structure. -/
  contextRegs : Nat
deriving Repr

/-- A PIC24F-style assignment of the symbols (EDS device: DSRPAG and DSWPAG
present, PSVPAG absent), used for the concrete instances. -/
def exampleSymbols : Symbols :=
  { SR := 0x0042, CORCON := 0x0044, RCON := 0x0740, INTCON1 := 0x0080, SPLIM := 0x0020,
    TBLPAG := 0x0054, DISICNT := 0x0052, RCOUNT := 0x0036, IFS0 := 0x0084, IEC0 := 0x0094,
    IPC0 := 0x00A4, DSRPAG := 0x0032, DSWPAG := 0x0034, PSVPAG := 0, contextRegs := 0x1000 }

/-! ## `printReg` -/

def BINARY : Nat := 0x0002
def DECIMAL : Nat := 0x0004
def UNSIGNED : Nat := 0x0008

/-- A 16-bit read of the data space. -/
def readWord (mem : Nat → Nat) (a : Nat) : Nat := mem a % 65536

/-- The test `(int)readData < 0` on a 16-bit pattern. -/
def isNeg16 (x : Nat) : Prop := 32768 ≤ x % 65536

instance (x : Nat) : Decidable (isNeg16 x) := by unfold isNeg16; infer_instance

/-- The operator `~` on a 16-bit `int`, by bit pattern. -/
def not16 (x : Nat) : Nat := x ^^^ 0xFFFF

def INTCON1BitNames : List String :=
  ["", "OSCFAIL", "STKERR", "ADDRERR", "MATHERR", "DMACERR", "DIV0ERR", "SFTACERR",
   "COVTE", "OVBTE", "OVATE", "COVBERR", "COVAERR", "OVBERR", "OVAERR", "NSTDIS"]

def RCONBitNames : List String :=
  ["POR", "BOR", "IDLE", "SLEEP", "WDTO", "SWDTEN", "SWR", "EXTR",
   "PMSLP/VREGS", "CM", "DPSLP", "VREGSF", "RETEN", "SBOREN", "IOPUWR", "TRAPR"]

def SRBitNames : List String :=
  ["C", "Z", "OV", "N", "RA", "IPL[0]", "IPL[1]", "IPL[2]",
   "DC", "DA", "SAB", "OAB", "SB", "SA", "OB", "OA"]

/-- The `do { ... i >>= 1; } while(i);` loop of the BINARY branch, entered
with `i = 0x8000u`; the first argument bounds the number of iterations. -/
def binaryLoop (readData : Nat) : Nat → Nat → List Printf
  | 0, _ => []
  | fuel + 1, i =>
    [⟨"%X", [.int (if readData &&& i ≠ 0 then 1 else 0)]⟩]
      ++ (if i = 0x0100 then [⟨" ", []⟩] else [])
      ++ (if i >>> 1 ≠ 0 then binaryLoop readData fuel (i >>> 1) else [])

/-- The `for(i = 0; i < 16u; i++)` loop over the bit-name table; the first
argument bounds the number of iterations, `readData` is the local copy that
the loop clears bit by bit. -/
def bitNamesLoop (regBitNames : List String) : Nat → Nat → Nat → List Printf
  | 0, _, _ => []
  | fuel + 1, i, readData =>
    if i < 16 then
      if readData &&& (1 <<< (15 - i)) ≠ 0 then
        let readData1 := readData ^^^ (1 <<< (15 - i))
        ⟨"%s%s", [.str (regBitNames.getD (15 - i) ""),
                  .str (if readData1 ≠ 0 then ", " else "")]⟩
          :: bitNamesLoop regBitNames fuel (i + 1) readData1
      else bitNamesLoop regBitNames fuel (i + 1) readData
    else []

/-- The table `regBitNames` is pointed at: chosen by the address `reg`. -/
def regBitNames (S : Symbols) (reg : Nat) : Option (List String) :=
  if reg = S.INTCON1 then some INTCON1BitNames
  else if reg = S.RCON then some RCONBitNames
  else if reg = S.SR then some SRBitNames
  else none

/-- The first `EZBL_printf` of `printReg`: name (or address) and hex value. -/
def headCall (regName : Option String) (reg readData : Nat) : Printf :=
  match regName with
  | none => ⟨"\n  %04X     0x%04X", [.int reg, .int readData]⟩
  | some nm => ⟨"\n  %- 9s0x%04X", [.str nm, .int readData]⟩

/-- The calls of the block guarded by `formatFlags && (readData != 0u)`. -/
def formatCalls (readData formatFlags : Nat) : List Printf :=
  if formatFlags ≠ 0 ∧ readData ≠ 0 then
    let binPart : List Printf :=
      if formatFlags &&& BINARY ≠ 0 then ⟨"   ", []⟩ :: binaryLoop readData 16 0x8000 else []
    let ff1 := if formatFlags &&& DECIMAL ≠ 0 then formatFlags ^^^ DECIMAL else formatFlags
    let decPart : List Printf :=
      if formatFlags &&& DECIMAL ≠ 0 then
        if isNeg16 readData ∨ not16 ff1 &&& UNSIGNED ≠ 0 then [⟨"   %6d", [.int readData]⟩]
        else []
      else []
    let unsPart : List Printf :=
      if ff1 &&& UNSIGNED ≠ 0 then [⟨"   %5u", [.int readData]⟩] else []
    binPart ++ decPart ++ unsPart
  else []

/-- The calls of the block guarded by `regBitNames`. -/
def bitNameCalls (S : Symbols) (reg readData : Nat) : List Printf :=
  match regBitNames S reg with
  | none => []
  | some tbl =>
    if readData ≠ 0 then
      [⟨" \x7b", []⟩] ++ bitNamesLoop tbl 16 0 readData ++ [⟨"\x7d", []⟩]
    else [⟨" \x7bnone\x7d", []⟩]

/-- The function `printReg(regName, reg, formatFlags)` run on data space `mem`:
the `EZBL_printf` calls it makes, in order. `regName = none` is the null
pointer. -/
def printReg (S : Symbols) (mem : Nat → Nat) (regName : Option String) (reg formatFlags : Nat) :
    List Printf :=
  let readData := readWord mem reg
  headCall regName reg readData :: (formatCalls readData formatFlags ++ bitNameCalls S reg readData)

/-! ## The pre-prologue capture sequence -/

/-- A 16-bit store into the data space. -/
def writeWord (mem : Nat → Nat) (a v : Nat) : Nat → Nat :=
  fun x => if x = a then v % 65536 else mem x

/-- The machine state the capture sequence works on: the data space, in which
a working register `Wn` is the word at address `2 * n` and the special
function registers (RCOUNT, SR, the page registers) sit at their addresses. -/
structure Machine where
  mem : Nat → Nat

def Machine.read (m : Machine) (a : Nat) : Nat := readWord m.mem a

def Machine.write (m : Machine) (a v : Nat) : Machine := ⟨writeWord m.mem a v⟩

/-- The instructions of the `preprologue("...")` assembly text. -/
inductive Instr where
  /-- `mov Wn, f`: store `Wn` at file address `f`. -/
  | movWF (n f : Nat)
  /-- `mov f, Wn`: load `Wn` from file address `f`. -/
  | movFW (f n : Nat)
  /-- `mov #lit, Wn`. -/
  | movLW (lit n : Nat)
  /-- `mov [Ws--], [Wd--]`: copy the word `Ws` points at to where `Wd` points,
  then decrement both pointers by 2. -/
  | movPostDec (s d : Nat)
  /-- `repeat #lit`: execute the next instruction `lit + 1` times. -/
  | REPEAT (lit : Nat)
deriving DecidableEq, Repr

/-- One instruction executed once. -/
def step (S : Symbols) : Instr → Machine → Machine
  | .movWF n f, m => m.write f (m.read (2 * n))
  | .movFW f n, m => m.write (2 * n) (m.read f)
  | .movLW lit n, m => m.write (2 * n) lit
  | .movPostDec s d, m =>
    let src := m.read (2 * s)
    let dst := m.read (2 * d)
    ((m.write dst (m.read src)).write (2 * s) (src + 65536 - 2)).write (2 * d) (dst + 65536 - 2)
  | .REPEAT lit, m => m.write S.RCOUNT lit

/-- The hardware loop of `repeat`: RCOUNT holds the number of executions still
to come after the current one, counting down to 0. -/
def repeatNext (S : Symbols) (body : Machine → Machine) : Nat → Machine → Machine
  | 0, m => body (m.write S.RCOUNT 0)
  | k + 1, m => repeatNext S body k (body (m.write S.RCOUNT (k + 1)))

/-- Run a straight-line instruction sequence. -/
def exec (S : Symbols) : List Instr → Machine → Machine
  | [], m => m
  | [i], m => step S i m
  | .REPEAT lit :: i :: rest, m => exec S rest (repeatNext S (step S i) lit m)
  | i :: j :: rest, m => exec S (j :: rest) (step S i m)

/-- The capture sequence, instruction by instruction. `contextRegs` holds
`w[16]` at offsets 0..30, `rcount` at 32, `psvpag`/`dsrpag` at 34, `dswpag` at
36 and `sr` at 38. -/
def preprologue (S : Symbols) : List Instr :=
  [ .movWF 0 (S.contextRegs + 0),
    .movWF 1 (S.contextRegs + 2),
    .movFW S.RCOUNT 1,
    .movWF 1 (S.contextRegs + 32),
    .movLW 30 1,
    .movLW (S.contextRegs + 30) 0,
    .REPEAT 13,
    .movPostDec 1 0,
    .movFW S.PSVPAG 0,
    .movFW S.DSRPAG 0,
    .movWF 0 (S.contextRegs + 34),
    .movFW S.DSWPAG 0,
    .movWF 0 (S.contextRegs + 36),
    .movFW S.SR 0,
    .movWF 0 (S.contextRegs + 38),
    .movFW (S.contextRegs + 32) 1,
    .movWF 1 S.RCOUNT,
    .movFW (S.contextRegs + 2) 1,
    .movFW (S.contextRegs + 0) 0 ]

/-- The machine after the capture sequence has run from `m`. -/
def capture (S : Symbols) (m : Machine) : Machine := exec S (preprologue S) m

/-- The six instructions before `repeat`. -/
def captureHead (S : Symbols) (m : Machine) : Machine :=
  step S (.movLW (S.contextRegs + 30) 0) (step S (.movLW 30 1)
    (step S (.movWF 1 (S.contextRegs + 32)) (step S (.movFW S.RCOUNT 1)
      (step S (.movWF 1 (S.contextRegs + 2)) (step S (.movWF 0 (S.contextRegs + 0)) m)))))

/-- The eleven instructions after the repeated `mov`. -/
def captureTail (S : Symbols) (m : Machine) : Machine :=
  step S (.movFW (S.contextRegs + 0) 0) (step S (.movFW (S.contextRegs + 2) 1)
    (step S (.movWF 1 S.RCOUNT) (step S (.movFW (S.contextRegs + 32) 1)
      (step S (.movWF 0 (S.contextRegs + 38)) (step S (.movFW S.SR 0)
        (step S (.movWF 0 (S.contextRegs + 36)) (step S (.movFW S.DSWPAG 0)
          (step S (.movWF 0 (S.contextRegs + 34)) (step S (.movFW S.DSRPAG 0)
            (step S (.movFW S.PSVPAG 0) m))))))))))

/-- A weak symbol is either absent (address 0) or a special function register
outside the working registers and outside `contextRegs`, distinct from RCOUNT. -/
def weakOk (S : Symbols) (a : Nat) : Prop :=
  a = 0 ∨ (32 ≤ a ∧ a ≠ S.RCOUNT ∧ (a < S.contextRegs ∨ S.contextRegs + 40 ≤ a))

instance (S : Symbols) (a : Nat) : Decidable (weakOk S a) := by unfold weakOk; infer_instance

/-- Layout the linker guarantees: `contextRegs` is 40 bytes of RAM above the
working registers, RCOUNT and SR are distinct special function registers
outside it. -/
def Symbols.wellFormed (S : Symbols) : Prop :=
  32 ≤ S.contextRegs ∧ S.contextRegs + 40 ≤ 65536
    ∧ 32 ≤ S.RCOUNT ∧ (S.RCOUNT < S.contextRegs ∨ S.contextRegs + 40 ≤ S.RCOUNT)
    ∧ 32 ≤ S.SR ∧ (S.SR < S.contextRegs ∨ S.contextRegs + 40 ≤ S.SR)
    ∧ S.SR ≠ S.RCOUNT
    ∧ weakOk S S.PSVPAG ∧ weakOk S S.DSRPAG ∧ weakOk S S.DSWPAG

instance (S : Symbols) : Decidable S.wellFormed := by unfold Symbols.wellFormed; infer_instance

/-! ## The register lines of `EZBL_TrapHandler` -/

/-- The statement `contextRegs.w[15] -= 0x4u;`. -/
def adjustW15 (S : Symbols) (mem : Nat → Nat) : Nat → Nat :=
  writeWord mem (S.contextRegs + 30) (readWord mem (S.contextRegs + 30) + 65536 - 4)

/-- The C string held in a `char` array: the characters before the first NUL. -/
def cString (buf : List Char) : String := ⟨buf.takeWhile (fun c => c ≠ Char.ofNat 0)⟩

/-- The loop `for(i = 0; i < 16; i++)` that prints w0..w15; the first argument
bounds the number of iterations, `regName` is the `char regName[4]` array. -/
def wLoop (S : Symbols) (mem : Nat → Nat) : Nat → Nat → List Char → List Printf
  | 0, _, _ => []
  | fuel + 1, i, regName =>
    if i < 16 then
      let regName1 := regName.set 1 (Char.ofNat (48 + i))
      let regName2 :=
        if 10 ≤ i then (regName1.set 2 (Char.ofNat (48 + (i - 10)))).set 1 '1' else regName1
      printReg S mem (some (cString regName2)) (S.contextRegs + 2 * i) (DECIMAL ||| UNSIGNED)
        ++ wLoop S mem fuel (i + 1) regName2
    else []

/-- The calls of the handler body from `contextRegs.w[15] -= 0x4u` to the end
of the w0..w15 loop that print register lines, run on the data space `mem` the
body finds. -/
def registerLines (S : Symbols) (mem : Nat → Nat) : List Printf :=
  wLoop S (adjustW15 S mem) 16 0 ['w', Char.ofNat 0, Char.ofNat 0, Char.ofNat 0]

/-- The name the loop builds for register `i`: `w` and the decimal numeral. -/
def wName (i : Nat) : String := ⟨'w' :: digits 10 i⟩

/-- A machine at fault entry: W0..W14 hold 0x1110..0x111E, the stack pointer W15
holds 0x0900, RCOUNT 5, DSRPAG 1, SR 0x0044. -/
def exampleMachine : Machine :=
  ⟨fun a => if a = 30 then 0x0900 else if a < 30 then 0x1110 + a / 2
    else if a = 0x0036 then 5 else if a = 0x0032 then 1 else if a = 0x0042 then 0x0044 else 0⟩

/-- The value on register line `i` of the report: the entry value of `Wi`, for
the stack pointer W15 less the four bytes of the exception frame. -/
def shownValue (m : Machine) (i : Nat) : Nat :=
  if i = 15 then (m.read 30 + 65536 - 4) % 65536 else m.read (2 * i)

/-! ## The interrupt table of `EZBL_TrapHandler` -/

def ANSI_CLR : String := "\x1b[0m"
def ANSI_RED : String := "\x1b[31m"

/-- What the table loop does that is visible from outside: a read through one
of the `volatile` pointers, or an `EZBL_printf` call. -/
inductive Event where
  | read (addr : Nat)
  | out (p : Printf)
deriving DecidableEq, Repr

/-- The `EZBL_printf` calls of a trace, in order. -/
def prints : List Event → List Printf
  | [] => []
  | .read _ :: es => prints es
  | .out p :: es => p :: prints es

/-- The addresses read in a trace, in order. -/
def reads : List Event → List Nat
  | [] => []
  | .read a :: es => a :: reads es
  | .out _ :: es => reads es

/-- Pointer arithmetic on a 16-bit `unsigned int *`: `p + n` elements. -/
def ptrAdd (p n : Nat) : Nat := (p + 2 * n) % 65536

/-- The pre-decrement `--p` of a 16-bit `unsigned int *`. -/
def ptrDec (p : Nat) : Nat := (p + 65536 - 2) % 65536

/-- The loop bound `(unsigned int)(&IEC0 - &IFS0)`. -/
def bankDistance (S : Symbols) : Nat :=
  ((((S.IEC0 : Int) - (S.IFS0 : Int)) / 2) % 65536).toNat

/-- The header row of the group starting at bank `i`: the loop
`for(k = 3; ((int)k) >= 0; k--)`, by recursion on `k`. -/
def headerCols (i : Nat) : Nat → List Event
  | 0 => [.out ⟨"IFS%u/IEC%u/IPC%u", [.int i, .int i, .int (i * 4)]⟩]
  | k + 1 =>
    let p : Printf := ⟨"IFS%u/IEC%u/IPC%u", [.int (i + (k + 1)), .int (i + (k + 1)),
      .int ((i + (k + 1)) * 4)]⟩
    let j := p.text.length
    .out p :: (List.replicate (19 - j) (.out ⟨" ", []⟩) ++ headerCols i k)

/-- The `do { ... j >>= 1; } while(j != 0x0000u);` loop of the IFS row. -/
def flagBitsLoop (readFlag readEnable : Nat) : Nat → Nat → List Event
  | 0, _ => []
  | fuel + 1, j =>
    .out (if readFlag &&& j ≠ 0 then
            (if readEnable &&& j ≠ 0 then ⟨ANSI_RED ++ "1" ++ ANSI_CLR, []⟩ else ⟨"1", []⟩)
          else ⟨"0", []⟩)
      :: (if j >>> 1 ≠ 0 then flagBitsLoop readFlag readEnable fuel (j >>> 1) else [])

/-- The `for(k = 0; k < 4u; k++)` loop of the IFS row: the trace and the two
pointers it leaves. -/
def ifsBanks (mem : Nat → Nat) : Nat → Nat → Nat → Nat → List Event × Nat × Nat
  | 0, _, intFlagBits, intEnableBits => ([], intFlagBits, intEnableBits)
  | fuel + 1, k, intFlagBits, intEnableBits =>
    if k < 4 then
      let intFlagBits1 := ptrDec intFlagBits
      let readFlag := readWord mem intFlagBits1
      let intEnableBits1 := ptrDec intEnableBits
      let readEnable := readWord mem intEnableBits1
      let ev := [.read intFlagBits1, .read intEnableBits1]
        ++ flagBitsLoop readFlag readEnable 16 0x8000
        ++ (if k < 3 then [.out ⟨"   ", []⟩] else [])
      let r := ifsBanks mem fuel (k + 1) intFlagBits1 intEnableBits1
      (ev ++ r.1, r.2)
    else ([], intFlagBits, intEnableBits)

/-- The IFS row: from `EZBL_printf("\n  IFS  ")` to `intFlagBits += 4u;`. -/
def ifsRow (mem : Nat → Nat) (intFlagBits intEnableBits : Nat) : List Event × Nat × Nat :=
  let r := ifsBanks mem 4 0 (ptrAdd intFlagBits 4) (ptrAdd intEnableBits 4)
  (.out ⟨"\n  IFS  ", []⟩ :: r.1, ptrAdd r.2.1 4, r.2.2)

/-- The `do ... while` loop of the IEC row. -/
def enableBitsLoop (readEnable : Nat) : Nat → Nat → List Event
  | 0, _ => []
  | fuel + 1, j =>
    .out ⟨"%X", [.int (if readEnable &&& j ≠ 0 then 1 else 0)]⟩
      :: (if j >>> 1 ≠ 0 then enableBitsLoop readEnable fuel (j >>> 1) else [])

/-- The `for(k = 0; k < 4u; k++)` loop of the IEC row. -/
def iecBanks (mem : Nat → Nat) : Nat → Nat → Nat → List Event × Nat
  | 0, _, intEnableBits => ([], intEnableBits)
  | fuel + 1, k, intEnableBits =>
    if k < 4 then
      let intEnableBits1 := ptrDec intEnableBits
      let readEnable := readWord mem intEnableBits1
      let ev := [.read intEnableBits1] ++ enableBitsLoop readEnable 16 0x8000
        ++ (if k < 3 then [.out ⟨"   ", []⟩] else [])
      let r := iecBanks mem fuel (k + 1) intEnableBits1
      (ev ++ r.1, r.2)
    else ([], intEnableBits)

/-- The IEC row: from `EZBL_printf("\n  IEC  ")` to the second
`intEnableBits += 4u;`. -/
def iecRow (mem : Nat → Nat) (intEnableBits : Nat) : List Event × Nat :=
  let r := iecBanks mem 4 0 (ptrAdd intEnableBits 4)
  (.out ⟨"\n  IEC  ", []⟩ :: r.1, ptrAdd r.2 4)

/-- One `EZBL_printf("%04X", *--intPriBits);`. -/
def ipcRead (mem : Nat → Nat) (intPriBits : Nat) : List Event × Nat :=
  let p := ptrDec intPriBits
  ([.read p, .out ⟨"%04X", [.int (readWord mem p)]⟩], p)

/-- The `for(k = 0; k < 4u; k++)` loop of the IPC row. -/
def ipcBanks (mem : Nat → Nat) : Nat → Nat → Nat → List Event × Nat
  | 0, _, intPriBits => ([], intPriBits)
  | fuel + 1, k, intPriBits =>
    if k < 4 then
      let r1 := ipcRead mem intPriBits
      let r2 := ipcRead mem r1.2
      let r3 := ipcRead mem r2.2
      let r4 := ipcRead mem r3.2
      let ev := r1.1 ++ r2.1 ++ r3.1 ++ r4.1 ++ (if k < 3 then [.out ⟨"   ", []⟩] else [])
      let r := ipcBanks mem fuel (k + 1) r4.2
      (ev ++ r.1, r.2)
    else ([], intPriBits)

/-- The IPC row: from `EZBL_printf("\n  IPC  ")` to `intPriBits += 16u;`. -/
def ipcRow (mem : Nat → Nat) (intPriBits : Nat) : List Event × Nat :=
  let r := ipcBanks mem 4 0 (ptrAdd intPriBits 16)
  (.out ⟨"\n  IPC  ", []⟩ :: r.1, ptrAdd r.2 16)

/-- The loop `for(i = 0; i < ((unsigned int)(&IEC0 - &IFS0)); i += 4u)`; the
first argument bounds the number of iterations. -/
def tableLoop (S : Symbols) (mem : Nat → Nat) : Nat → Nat → Nat → Nat → Nat → List Event
  | 0, _, _, _, _ => []
  | fuel + 1, i, intFlagBits, intEnableBits, intPriBits =>
    if i < bankDistance S then
      let r1 := ifsRow mem intFlagBits intEnableBits
      let r2 := iecRow mem r1.2.2
      let r3 := ipcRow mem intPriBits
      [.out ⟨"\n\n       ", []⟩] ++ headerCols i 3 ++ r1.1 ++ r2.1 ++ r3.1 ++ [.out ⟨"\n", []⟩]
        ++ tableLoop S mem fuel ((i + 4) % 65536) r1.2.1 r2.2 r3.2
    else []

/-- The interrupt table: the pointers start at `&IFS0`, `&IEC0`, `&IPC0`; the
loop makes at most `bankDistance S` iterations when `i` does not wrap. -/
def interruptTable (S : Symbols) (mem : Nat → Nat) : List Event :=
  .out ⟨"\n\nInterrupt SFRs (red indicates flag and enable set):", []⟩
    :: tableLoop S mem (bankDistance S) 0 S.IFS0 S.IEC0 S.IPC0

/-! ## Reference renderings used to state the properties of `printReg` -/

/-- A value as four upper-case hex digits (`%04X`). -/
def hex4 (v : Nat) : List Char := pad ⟨false, false, true, 4, false⟩ (digits 16 (v % 65536))

/-- The name column: newline, two blanks, then the name left-justified in nine
columns, or the register address as four hex digits and five blanks. -/
def nameField (regName : Option String) (reg : Nat) : List Char :=
  match regName with
  | none => '\n' :: ' ' :: ' ' :: (hex4 reg ++ [' ', ' ', ' ', ' ', ' '])
  | some nm => '\n' :: ' ' :: ' ' :: (nm.data ++ List.replicate (9 - nm.data.length) ' ')

/-- The address is one of the three that `printReg` has a bit-name table for. -/
def hasBitNames (S : Symbols) (reg : Nat) : Prop :=
  reg = S.INTCON1 ∨ reg = S.RCON ∨ reg = S.SR

instance (S : Symbols) (reg : Nat) : Decidable (hasBitNames S reg) := by
  unfold hasBitNames; infer_instance

/-- Format strings of the two decimal renderings. -/
def isSignedFmt (s : String) : Bool := s == "   %6d"

def isUnsignedFmt (s : String) : Bool := s == "   %5u"

def isDecimalFmt (s : String) : Bool := isSignedFmt s || isUnsignedFmt s

/-- The decimal renderings among a sequence of calls. -/
def decimalCalls (ps : List Printf) : List Printf := ps.filter (fun p => isDecimalFmt p.fmt)

/-- A 16-bit pattern read as a two's-complement integer. -/
def toInt16 (v : Nat) : Int := if v % 65536 < 32768 then (v % 65536 : Nat) else (v % 65536 : Nat) - 65536

/-- Decimal numeral of an integer, with a minus sign when negative. -/
def intDigits (z : Int) : List Char :=
  if z < 0 then '-' :: digits 10 z.natAbs else digits 10 z.natAbs

/-- Right-justify in a field of the given width. -/
def rightJustify (w : Nat) (body : List Char) : List Char :=
  List.replicate (w - body.length) ' ' ++ body

/-- The call `EZBL_printf("%X", (readData & i) != 0u)`. -/
def bitCall (readData i : Nat) : Printf := ⟨"%X", [.int (if readData &&& i ≠ 0 then 1 else 0)]⟩

/-- The character for bit `k` of `v`. -/
def bitChar (v k : Nat) : Char := if v.testBit k then '1' else '0'

/-- The sixteen bits of `v`, bit 15 first. -/
def binaryDigits (v : Nat) : List Char := (List.range 16).map (fun k => bitChar v (15 - k))

/-- The value of a base-2 numeral, most significant digit first. -/
def binaryValue (cs : List Char) : Nat := cs.foldl (fun acc c => 2 * acc + (if c = '1' then 1 else 0)) 0

/-- The call the IFS row makes for the bit selected by mask `j`. -/
def flagCall (readFlag readEnable j : Nat) : Printf :=
  if readFlag &&& j ≠ 0 then
    (if readEnable &&& j ≠ 0 then ⟨ANSI_RED ++ "1" ++ ANSI_CLR, []⟩ else ⟨"1", []⟩)
  else ⟨"0", []⟩

/-- Interrupt flag and enable registers for the table instances: IFS0 has bits
15 and 0 set, IEC0 bit 15. -/
def exampleFlags : Nat → Nat :=
  fun a => if a = 0x0084 then 0x8001 else if a = 0x0094 then 0x8000 else 0

/-! ## The body of `EZBL_TrapHandler` -/

/-- The symbols the handler body uses beyond those of `Symbols`. A weak symbol
that the device does not define resolves to address 0. -/
structure HandlerSymbols extends Symbols where
  /-- Weak: 0 when the device has no DSP accumulators. -/
  ACCAL : Nat
  /-- Weak. -/
  ACCBL : Nat
  /-- Weak. -/
  DCOUNT : Nat
  /-- Weak. -/
  DOSTARTL : Nat
  /-- Weak. -/
  DOENDL : Nat
  /-- Weak. -/
  CTXTSTAT : Nat
  /-- Address of the linker symbol `_SP_init`. -/
  _SP_init : Nat
  /-- Address of the linker symbol `_DATA_BASE`. -/
  _DATA_BASE : Nat
  /-- Value of the debug-mode indicator `_DEBUG`, `none` when it is not linked. -/
  _DEBUG : Option Nat
  /-- Value of `EZBL_SYM32(EZBL_ADDRESSES_PER_SECTOR)`. -/
  EZBL_ADDRESSES_PER_SECTOR : Nat
deriving Repr

/-- Modelled from the spec: the macro `EZBL_WeakSYM` of `../ezbl.h` (not among
the sources), the "probe to test whether a debug mode indicator is active":
the value of the symbol when it is linked, 0 when it is absent. -/
def EZBL_WeakSYM (sym : Option Nat) : Nat := sym.getD 0

/-- The byte of the data space at byte address `a` (little endian words). -/
def readByte (mem : Nat → Nat) (a : Nat) : Nat :=
  if a % 2 = 0 then readWord mem a % 256 else readWord mem (a - 1) / 256

/-- Modelled from the spec: `EZBL_RAMCopy(&dest, src, 4)` of `../ezbl.h` (not
among the sources), the "bulk copy operation from an arbitrary source address
into a local buffer", for a 4-byte copy into an `unsigned long`: the value the
destination holds afterwards (least significant byte first). -/
def EZBL_RAMCopy (mem : Nat → Nat) (src : Nat) : Nat :=
  readByte mem (src % 65536) + 256 * readByte mem ((src + 1) % 65536)
    + 65536 * readByte mem ((src + 2) % 65536) + 16777216 * readByte mem ((src + 3) % 65536)

/-- The statement `retSR = (unsigned int)(((unsigned char*)&retAddr)[3]);`. -/
def retSR (retAddr : Nat) : Nat := (retAddr / 16777216) % 256

/-- The statement
`retIPL = (unsigned int)(((((unsigned char*)&retAddr)[2]) & 0x80)>>4) | (retSR>>5);`. -/
def retIPL (retAddr : Nat) : Nat :=
  ((((retAddr / 65536) % 256) &&& 0x80) >>> 4) ||| (retSR retAddr >>> 5)

/-- The statement `retSFA = ((unsigned int)retAddr) & 0x1u;`. -/
def retSFA (retAddr : Nat) : Nat := (retAddr % 65536) &&& 0x1

/-- The statement `retAddr = retAddr & 0x007FFFFEu;`. -/
def maskRetAddr (retAddr : Nat) : Nat := retAddr &&& 0x007FFFFE

/-- What the handler body does that is visible from outside. -/
inductive Op where
  /-- A read of a special function register. -/
  | read (addr : Nat)
  /-- A write of a special function register. -/
  | write (addr val : Nat)
  /-- An `EZBL_printf` call. -/
  | out (p : Printf)
  /-- The call `EZBL_RAMCopy(dest, src, len)`. -/
  | ramCopy (src len : Nat)
  /-- The call `EZBL_ReadUnpacked(dest, addr, len)`. -/
  | readUnpacked (addr len : Nat)
  /-- The call `EZBL_DumpRAM(addr, len)`. -/
  | dumpRAM (addr len : Nat)
  /-- The call `EZBL_DumpFlash(addr, len)`. -/
  | dumpFlash (addr len : Nat)
  /-- The call `EZBL_FIFOFlush(EZBL_STDOUT, NOW_sec)`: the flush of the output
  channel, with the time budget `NOW_sec`. -/
  | flush
  /-- The instruction `__builtin_nop()`. -/
  | nop
  /-- The instruction `__builtin_software_breakpoint()`. -/
  | breakpoint
  /-- The return from the interrupt function. -/
  | ret
deriving DecidableEq, Repr

/-- A table trace as handler operations. -/
def ofEvents : List Event → List Op
  | [] => []
  | .read a :: es => .read a :: ofEvents es
  | .out p :: es => .out p :: ofEvents es

/-- A `printReg` call on a special function register: the read of the register
and the `EZBL_printf` calls. -/
def sfrLine (S : Symbols) (mem : Nat → Nat) (regName : String) (reg formatFlags : Nat) :
    List Op :=
  .read reg :: (printReg S mem (some regName) reg formatFlags).map Op.out

/-- A `printReg` call on a member of the static `contextRegs`. -/
def ctxLine (S : Symbols) (mem : Nat → Nat) (regName : String) (reg formatFlags : Nat) :
    List Op :=
  (printReg S mem (some regName) reg formatFlags).map Op.out

/-- Lines 217 to 227: the special registers and the page registers. -/
def specialLines (H : HandlerSymbols) (mem : Nat → Nat) : List Op :=
  let S := H.toSymbols
  sfrLine S mem "SPLIM" S.SPLIM 0
    ++ sfrLine S mem "RCON" S.RCON BINARY
    ++ sfrLine S mem "INTCON1" S.INTCON1 BINARY
    ++ ctxLine S mem "SR" (S.contextRegs + 38) BINARY
    ++ sfrLine S mem "CORCON" S.CORCON BINARY
    ++ ctxLine S mem "RCOUNT" (S.contextRegs + 32) UNSIGNED
    ++ sfrLine S mem "DISICNT" S.DISICNT UNSIGNED
    ++ sfrLine S mem "TBLPAG" S.TBLPAG 0
    ++ ctxLine S mem (if S.DSRPAG ≠ 0 then "DSRPAG" else "PSVPAG") (S.contextRegs + 34) 0
    ++ (if S.DSRPAG ≠ 0 then ctxLine S mem "DSWPAG" (S.contextRegs + 36) 0 else [])

/-- A 32-bit `unsigned long` register read as two words. -/
def readLong (mem : Nat → Nat) (a : Nat) : Nat := readWord mem a + 65536 * readWord mem (a + 2)

/-- Lines 229 to 237: the block guarded by `if(ACCAL)`. -/
def dspSection (H : HandlerSymbols) (mem : Nat → Nat) : List Op :=
  if H.ACCAL ≠ 0 then
    [.read (H.ACCAL + 4), .read (H.ACCAL + 2), .read H.ACCAL,
     .read (H.ACCBL + 4), .read (H.ACCBL + 2), .read H.ACCBL,
     .read H.DCOUNT, .read H.DCOUNT,
     .read H.DOSTARTL, .read (H.DOSTARTL + 2), .read H.DOENDL, .read (H.DOENDL + 2),
     .out ⟨"\n  ACCA     0x%04X%04X%04X\n  ACCB     0x%04X%04X%04X\n  DCOUNT   0x%04X (%u)\n  DSTART   0x%06lX\n  DEND     0x%06lX",
       [.int (readWord mem (H.ACCAL + 4)), .int (readWord mem (H.ACCAL + 2)),
        .int (readWord mem H.ACCAL),
        .int (readWord mem (H.ACCBL + 4)), .int (readWord mem (H.ACCBL + 2)),
        .int (readWord mem H.ACCBL),
        .int (readWord mem H.DCOUNT), .int (readWord mem H.DCOUNT),
        .long (readLong mem H.DOSTARTL), .long (readLong mem H.DOENDL)]⟩]
  else []

/-- Lines 238 and 239: the line guarded by `if(&CTXTSTAT)`. -/
def ctxtstatLine (H : HandlerSymbols) (mem : Nat → Nat) : List Op :=
  if H.CTXTSTAT ≠ 0 then sfrLine H.toSymbols mem "CTXTSTAT" H.CTXTSTAT 0 else []

/-- Lines 241 to 243: the trap return address line, for the 32-bit value
`retAddr` that `EZBL_RAMCopy` fetched. -/
def trapLine (retAddr : Nat) : Printf :=
  ⟨"\n\nTrap return address: 0x%06lX (SFA = %X, IPL = %X, SR<7:0> = 0x%02X)",
    [.long (maskRetAddr retAddr), .int (retSFA retAddr), .int (retIPL retAddr),
     .int (retSR retAddr)]⟩

/-- Lines 245 to 249: the three opcodes around the return address. The flash
contents are `flash`, one 24-bit instruction word per even program address
(modelled from the spec: `EZBL_ReadUnpacked` is not among the sources). -/
def opcodeLines (flash : Nat → Nat) (retAddr : Nat) : List Op :=
  let a := maskRetAddr retAddr
  let a4 := (a + 4294967296 - 4) % 4294967296
  let a2 := (a + 4294967296 - 2) % 4294967296
  [.readUnpacked a4 12,
   .out ⟨"\n  Preceeding opcode:   %06lX  0x%06lX\n  Trap trigger opcode: %06lX  "
        ++ ANSI_RED ++ "0x%06lX" ++ ANSI_CLR ++ "\n  Trap return opcode:  %06lX  0x%06lX",
     [.long a4, .long (flash a4 % 16777216), .long a2, .long (flash a2 % 16777216),
      .long a, .long (flash a % 16777216)]⟩]

/-- Lines 251 to 256: the stack frame line. -/
def frameLines (S : Symbols) (mem : Nat → Nat) (retAddr : Nat) : List Op :=
  if readWord mem (S.contextRegs + 28) ≠ 0 ∧ retSFA retAddr ≠ 0 then
    let src := (readWord mem (S.contextRegs + 28) + 65536 - 6) % 65536
    let frameRetAddr := EZBL_RAMCopy mem src &&& 0xFFFFFFFE
    [.ramCopy src 4,
     .out ⟨"\n  Stack frame was active. They return to: 0x%06lX",
       [.long (frameRetAddr &&& 0xFFFFFFFE)]⟩]
  else []

/-- Lines 342 to 349: the RAM, stack and flash dumps. -/
def dumpLines (H : HandlerSymbols) (mem : Nat → Nat) : List Op :=
  [.out ⟨"\nRegular RAM:", []⟩,
   .dumpRAM H._DATA_BASE ((H._SP_init % 65536 + 65536 - H._DATA_BASE % 65536) % 65536),
   .out ⟨"\nStack RAM:", []⟩,
   .dumpRAM H._SP_init
     ((readWord mem (H.contextRegs + 30) + 65536 - H._SP_init % 65536) % 65536),
   .out ⟨"\nFirst page of flash:", []⟩,
   .dumpFlash 0 H.EZBL_ADDRESSES_PER_SECTOR]

/-- Lines 355 to 367: the resume-or-halt policy and the return. -/
def policyStep (H : HandlerSymbols) : List Op :=
  [.out ⟨"\nAttempting to return from trap handler...", []⟩, .flush]
    ++ (if EZBL_WeakSYM H._DEBUG ≠ 0 then
          [.out ⟨"\nOn second thought, you are in debug mode, so let's halt instead.", []⟩,
           .flush, .nop, .breakpoint, .nop, .nop]
        else [])
    ++ [.ret]

/-- Lines 196 to 353 of `EZBL_TrapHandler`, run on the data space `mem` that
the capture sequence and the compiler's prologue leave: the operations up to
and including `INTCON1 &= 0x8700;`, in order. -/
def reportOps (H : HandlerSymbols) (flash : Nat → Nat) (mem : Nat → Nat) : List Op :=
  let S := H.toSymbols
  let mem1 := adjustW15 S mem
  let src := readWord mem1 (S.contextRegs + 30)
  let retAddr := EZBL_RAMCopy mem1 src
  [.ramCopy src 4, .out ⟨"\n\n%s():", [.str "EZBL_TrapHandler"]⟩]
    ++ (wLoop S mem1 16 0 ['w', Char.ofNat 0, Char.ofNat 0, Char.ofNat 0]).map Op.out
    ++ specialLines H mem1
    ++ dspSection H mem1
    ++ ctxtstatLine H mem1
    ++ [.out (trapLine retAddr)]
    ++ opcodeLines flash retAddr
    ++ frameLines S mem1 retAddr
    ++ ofEvents (interruptTable S mem1)
    ++ dumpLines H mem1
    ++ [.read S.INTCON1, .write S.INTCON1 (readWord mem1 S.INTCON1 &&& 0x8700)]

/-- The function `EZBL_TrapHandler`: the operations it performs, in order, and
the data space it leaves (`contextRegs.w[15]` less 4, `INTCON1` masked). -/
def EZBL_TrapHandler (H : HandlerSymbols) (flash : Nat → Nat) (mem : Nat → Nat) :
    List Op × (Nat → Nat) :=
  let mem1 := adjustW15 H.toSymbols mem
  (reportOps H flash mem ++ policyStep H,
   writeWord mem1 H.INTCON1 (readWord mem1 H.INTCON1 &&& 0x8700))

/-- An EDS device without DSP registers or CTXTSTAT, built for release. -/
def exampleHandler : HandlerSymbols :=
  { exampleSymbols with
    ACCAL := 0, ACCBL := 0, DCOUNT := 0, DOSTARTL := 0, DOENDL := 0, CTXTSTAT := 0,
    _SP_init := 0x0800, _DATA_BASE := 0x0800, _DEBUG := none,
    EZBL_ADDRESSES_PER_SECTOR := 0x0800 }

/-! ## `printReg` as a state transformer -/

/-- The 32-bit word the handler fetches from the stack: four bytes from the
address held in `contextRegs.w[15]` after the subtraction of 4. -/
def stackWord (S : Symbols) (mem : Nat → Nat) : Nat :=
  EZBL_RAMCopy (adjustW15 S mem) (readWord (adjustW15 S mem) (S.contextRegs + 30))

/-- The operation emits report text. -/
def Op.isText : Op → Bool
  | .out _ => true
  | .dumpRAM _ _ => true
  | .dumpFlash _ _ => true
  | _ => false

/-- The operation stops the handler: the software breakpoint or the return. -/
def Op.isStop : Op → Bool
  | .breakpoint => true
  | .ret => true
  | _ => false

/-- The operation is none of flush, nop, breakpoint and return. -/
def Op.isPlain : Op → Bool
  | .flush => false
  | .nop => false
  | .breakpoint => false
  | .ret => false
  | _ => true

/-- Scan of a trace: `pending` says that text has been emitted since the last
flush; the result is `true` when a breakpoint or the return is reached with
text pending. -/
def unflushedAtStop : List Op → Bool → Bool
  | [], _ => false
  | .flush :: t, _ => unflushedAtStop t false
  | .breakpoint :: t, pending => pending || unflushedAtStop t pending
  | .ret :: t, pending => pending || unflushedAtStop t pending
  | o :: t, pending => unflushedAtStop t (pending || o.isText)

/-- A debug build of `exampleHandler`: `_DEBUG` is linked with value 1. -/
def exampleDebugHandler : HandlerSymbols := { exampleHandler with _DEBUG := some 1 }

/-- A data space at the handler body: captured `w[15]` = 0x0808 (the stack top
0x0800 plus 8), the stacked word 0x44801235 at 0x0804, captured SR 0x0044 and
INTCON1 = 0x8712. -/
def exampleStack : Nat → Nat :=
  fun a => if a = 0x1000 + 30 then 0x0808 else if a = 0x0804 then 0x1235
    else if a = 0x0806 then 0x4480 else if a = 0x1000 + 38 then 0x0044
    else if a = 0x0080 then 0x8712 else 0

/-- The addresses a handler trace reads, in order. -/
def opReads : List Op → List Nat
  | [] => []
  | .read a :: t => a :: opReads t
  | _ :: t => opReads t

/-- A device on which ACCAL is linked while ACCBL, DCOUNT, DOSTARTL and DOENDL
are not. -/
def exampleDspHandler : HandlerSymbols := { exampleHandler with ACCAL := 0x0022 }

/-! ## Reference descriptions of the interrupt table -/

/-- The header call of one column: `EZBL_printf("IFS%u/IEC%u/IPC%u", n, n, n*4u)`. -/
def headerCall (n : Nat) : Printf := ⟨"IFS%u/IEC%u/IPC%u", [.int n, .int n, .int (n * 4)]⟩

/-- The trace of one iteration of the table loop entered with loop index `i`
and the three pointers at bank `i` of the flag and enable arrays and register
`4 * i` of the priority array. -/
def tableGroup (S : Symbols) (mem : Nat → Nat) (i : Nat) : List Event :=
  [Event.out ⟨"\n\n       ", []⟩] ++ headerCols i 3
    ++ (ifsRow mem (ptrAdd S.IFS0 i) (ptrAdd S.IEC0 i)).1
    ++ (iecRow mem (ptrAdd S.IEC0 i)).1
    ++ (ipcRow mem (ptrAdd S.IPC0 (4 * i))).1 ++ [Event.out ⟨"\n", []⟩]

/-- The number of iterations of `for(i = 0; i < d; i += 4u)`. -/
def groupCount (d : Nat) : Nat := (d + 3) / 4

/-- The addresses one group reads, in order: flag and enable bank `i + 3` down
to `i` in step, enable bank `i + 3` down to `i`, priority register
`4 * i + 15` down to `4 * i`. -/
def groupReads (S : Symbols) (i : Nat) : List Nat :=
  (List.range 4).flatMap (fun k => [ptrAdd S.IFS0 (i + (3 - k)), ptrAdd S.IEC0 (i + (3 - k))])
    ++ (List.range 4).map (fun k => ptrAdd S.IEC0 (i + (3 - k)))
    ++ (List.range 4).flatMap (fun k =>
        (List.range 4).map (fun j => ptrAdd S.IPC0 (4 * (i + (3 - k)) + (3 - j))))

/-- A device whose enable array starts two banks after its flag array. -/
def exampleNarrow : Symbols := { exampleSymbols with IEC0 := exampleSymbols.IFS0 + 4 }

/-! ## Reference descriptions of the handler trace -/

/-- The `EZBL_printf` calls of a handler trace, in order. -/
def outs : List Op → List Printf
  | [] => []
  | .out p :: t => p :: outs t
  | _ :: t => outs t

/-- The `EZBL_DumpRAM` calls of a handler trace, in order: start address and
length in bytes. -/
def ramDumps : List Op → List (Nat × Nat)
  | [] => []
  | .dumpRAM a n :: t => (a, n) :: ramDumps t
  | _ :: t => ramDumps t

/-- The format string of the stack frame line. -/
def frameFmt : String := "\n  Stack frame was active. They return to: 0x%06lX"

/-- The format strings of the column titles, cells and separators of the
interrupt table: every call of a bank group other than the five that start or
close a line. -/
def cellFmts : List String :=
  ["IFS%u/IEC%u/IPC%u", " ", ANSI_RED ++ "1" ++ ANSI_CLR, "1", "0", "   ", "%X", "%04X"]

def isCellFmt (s : String) : Bool := cellFmts.contains s

/-- The calls that start the four lines of a bank group and the one that closes
the group. -/
def rowLeads : List Printf :=
  [⟨"\n\n       ", []⟩, ⟨"\n  IFS  ", []⟩, ⟨"\n  IEC  ", []⟩, ⟨"\n  IPC  ", []⟩, ⟨"\n", []⟩]

/-- A format string of the interrupt table: a cell format or one of the line
starts. -/
def isTableFmt (s : String) : Bool :=
  isCellFmt s || (rowLeads.map Printf.fmt).contains s
    || s == "\n\nInterrupt SFRs (red indicates flag and enable set):"

/-- A layout with 0x0400 bytes of RAM below the initial stack pointer. -/
def exampleDumpHandler : HandlerSymbols := { exampleHandler with _DATA_BASE := 0x0400 }

def isFrameFmt (s : String) : Bool := s == frameFmt

/-- The calls of a handler trace that print the stack frame line. -/
def frameCalls (l : List Op) : List Printf := (outs l).filter (fun p => isFrameFmt p.fmt)

/-- The format strings of the symbolic suffix of `printReg`. -/
def suffixFmts : List String := [" \x7b", "%s%s", "\x7d", " \x7bnone\x7d"]

def isSuffixFmt (s : String) : Bool := suffixFmts.contains s

/-- A data space at the handler body with a frame pointer: captured
`w[14]` = 0x0810, the word 0x00012345 at 0x080A, captured `w[15]` = 0x0808 and
the stacked word 0x44801235 (SFA set) at 0x0804. -/
def exampleFrame : Nat → Nat :=
  fun a => if a = 0x1000 + 28 then 0x0810 else if a = 0x080A then 0x2345
    else if a = 0x080C then 0x0001 else exampleStack a

/-- The `EZBL_printf` calls of a handler trace whose format string satisfies `q`. -/
def callsOf (q : String → Bool) (l : List Op) : List Printf :=
  (outs l).filter (fun p => q p.fmt)

/-- The format string of the name/hex call that starts a named register line. -/
def isNameFmt (s : String) : Bool := s == "\n  %- 9s0x%04X"

/-- The format string of the DSP section. -/
def dspFmt : String :=
  "\n  ACCA     0x%04X%04X%04X\n  ACCB     0x%04X%04X%04X\n  DCOUNT   0x%04X (%u)\n  DSTART   0x%06lX\n  DEND     0x%06lX"

def isDspFmt (s : String) : Bool := s == dspFmt

/-- The format strings of the handler body outside the register lines, the
DSP section and the interrupt table. -/
def fixedFmts : List String :=
  ["\n\n%s():",
   "\n\nTrap return address: 0x%06lX (SFA = %X, IPL = %X, SR<7:0> = 0x%02X)",
   "\n  Preceeding opcode:   %06lX  0x%06lX\n  Trap trigger opcode: %06lX  "
     ++ ANSI_RED ++ "0x%06lX" ++ ANSI_CLR ++ "\n  Trap return opcode:  %06lX  0x%06lX",
   "\n  Stack frame was active. They return to: 0x%06lX",
   "\nRegular RAM:", "\nStack RAM:", "\nFirst page of flash:",
   "\nAttempting to return from trap handler...",
   "\nOn second thought, you are in debug mode, so let's halt instead."]

/-- The format strings of the calls of `printReg` after the name/hex call. -/
def fieldFmts : List String :=
  ["   ", "%X", " ", "   %6d", "   %5u", " \x7b", "%s%s", "\x7d", " \x7bnone\x7d"]

/-! # Theorems -/


/-! ## Bit tests -/

theorem land_two_pow_ne_zero (x k : Nat) : x &&& 2 ^ k ≠ 0 ↔ x.testBit k = true := by
  rw [Nat.and_two_pow]
  cases h : x.testBit k <;> simp

theorem binary_set (f : Nat) : f &&& BINARY ≠ 0 ↔ f.testBit 1 = true :=
  land_two_pow_ne_zero f 1

theorem decimal_set (f : Nat) : f &&& DECIMAL ≠ 0 ↔ f.testBit 2 = true :=
  land_two_pow_ne_zero f 2

theorem unsigned_set (f : Nat) : f &&& UNSIGNED ≠ 0 ↔ f.testBit 3 = true :=
  land_two_pow_ne_zero f 3

theorem unsigned_after_toggle (f : Nat) : (f ^^^ DECIMAL) &&& UNSIGNED ≠ 0 ↔ f.testBit 3 = true := by
  rw [unsigned_set, Nat.testBit_xor]
  have : DECIMAL.testBit 3 = false := by decide
  simp [this]

theorem not_unsigned_after_toggle (f : Nat) :
    not16 (f ^^^ DECIMAL) &&& UNSIGNED ≠ 0 ↔ f.testBit 3 = false := by
  unfold not16
  rw [unsigned_set, Nat.testBit_xor, Nat.testBit_xor]
  have h1 : DECIMAL.testBit 3 = false := by decide
  have h2 : (0xFFFF : Nat).testBit 3 = true := by decide
  simp [h1, h2]

theorem testBit_ne_zero {f k : Nat} (h : f.testBit k = true) : f ≠ 0 := by
  rintro rfl
  simp at h

/-! ## Text of the calls -/

theorem render_cons (p : Printf) (ps : List Printf) : render (p :: ps) = p.text ++ render ps := rfl

theorem render_append (ps qs : List Printf) : render (ps ++ qs) = render ps ++ render qs := by
  induction ps with
  | nil => simp [render]
  | cons p ps ih => simp [render, ih, String.append_assoc]

theorem headCall_text (regName : Option String) (reg v : Nat) :
    (headCall regName reg v).text = ⟨nameField regName reg ++ '0' :: 'x' :: hex4 v⟩ := by
  cases regName with
  | none =>
    simp [headCall, Printf.text, EZBL_printf, formatChars, convert, Conv.init, Arg.value,
      nameField, hex4]
  | some nm =>
    simp [headCall, Printf.text, EZBL_printf, formatChars, convert, Conv.init, Arg.value,
      nameField, hex4, pad]

/-! ## Which calls `printReg` makes -/

theorem filter_binaryLoop (q : String → Bool) (h1 : q "%X" = false) (h2 : q " " = false)
    (v fuel i : Nat) : (binaryLoop v fuel i).filter (fun p => q p.fmt) = [] := by
  induction fuel generalizing i with
  | zero => simp [binaryLoop]
  | succ n ih =>
    simp only [binaryLoop, List.filter_append]
    by_cases hi : i = 0x0100 <;> by_cases hs : i >>> 1 ≠ 0 <;> simp [hi, hs, h1, h2, ih]

theorem filter_bitNamesLoop (q : String → Bool) (h : q "%s%s" = false) (tbl : List String)
    (fuel i v : Nat) : (bitNamesLoop tbl fuel i v).filter (fun p => q p.fmt) = [] := by
  induction fuel generalizing i v with
  | zero => simp [bitNamesLoop]
  | succ n ih =>
    simp only [bitNamesLoop]
    split
    · split
      · simp [h, ih]
      · exact ih _ _
    · rfl

theorem filter_bitNameCalls (q : String → Bool) (h : q "%s%s" = false)
    (h1 : q " \x7b" = false) (h2 : q "\x7d" = false) (h3 : q " \x7bnone\x7d" = false)
    (S : Symbols) (reg v : Nat) : (bitNameCalls S reg v).filter (fun p => q p.fmt) = [] := by
  unfold bitNameCalls
  split
  · rfl
  · split <;> simp [List.filter_append, filter_bitNamesLoop q h, h1, h2, h3]

theorem filter_headCall (q : String → Bool) (h1 : q "\n  %04X     0x%04X" = false)
    (h2 : q "\n  %- 9s0x%04X" = false) (regName : Option String) (reg v : Nat) :
    [headCall regName reg v].filter (fun p => q p.fmt) = [] := by
  cases regName <;> simp [headCall, h1, h2]

/-- The decimal calls of the guarded block, as the two tests in the source
decide them; `q` selects calls by format string and rejects the binary field. -/
theorem filter_formatCalls (q : String → Bool) (h0 : q "   " = false) (h1 : q "%X" = false)
    (h2 : q " " = false) (v f : Nat) :
    (formatCalls v f).filter (fun p => q p.fmt) =
      (if v ≠ 0 ∧ f.testBit 2 = true ∧ (isNeg16 v ∨ f.testBit 3 = false)
        then [(⟨"   %6d", [.int v]⟩ : Printf)].filter (fun p => q p.fmt) else [])
      ++ (if v ≠ 0 ∧ f.testBit 3 = true
        then [(⟨"   %5u", [.int v]⟩ : Printf)].filter (fun p => q p.fmt) else []) := by
  unfold formatCalls
  by_cases hv : v = 0
  · simp [hv]
  by_cases hf : f = 0
  · subst hf; simp
  have hpre : List.filter (fun p => q p.fmt)
      (if f &&& BINARY ≠ 0 then (⟨"   ", []⟩ : Printf) :: binaryLoop v 16 0x8000 else []) = [] := by
    split
    · rw [List.filter_cons_of_neg (by simp [h0])]; exact filter_binaryLoop q h1 h2 v _ _
    · rfl
  simp only [hv, hf, ne_eq, not_false_eq_true, and_self, if_true, List.filter_append, hpre,
    List.nil_append, true_and]
  by_cases h2 : f.testBit 2 = true
  · have hd : f &&& DECIMAL ≠ 0 := (decimal_set f).2 h2
    by_cases h3 : f.testBit 3 = true
    · have hu1 : (f ^^^ DECIMAL) &&& UNSIGNED ≠ 0 := (unsigned_after_toggle f).2 h3
      have hn1 : ¬ (not16 (f ^^^ DECIMAL) &&& UNSIGNED ≠ 0) := by
        rw [not_unsigned_after_toggle]; simp [h3]
      by_cases hneg : isNeg16 v <;> simp [hd, hu1, hn1, h2, h3, hneg]
    · have h3f : f.testBit 3 = false := by simpa using h3
      have hu1 : ¬ ((f ^^^ DECIMAL) &&& UNSIGNED ≠ 0) := by
        rw [unsigned_after_toggle]; simp [h3f]
      have hn1 : not16 (f ^^^ DECIMAL) &&& UNSIGNED ≠ 0 := (not_unsigned_after_toggle f).2 h3f
      simp [hd, hu1, hn1, h2, h3f]
  · have hd : ¬ (f &&& DECIMAL ≠ 0) := by rw [decimal_set]; exact h2
    by_cases h3 : f.testBit 3 = true
    · have hu1 : f &&& UNSIGNED ≠ 0 := (unsigned_set f).2 h3
      simp [hd, hu1, h2, h3]
    · have hu1 : ¬ (f &&& UNSIGNED ≠ 0) := by rw [unsigned_set]; exact h3
      simp [hd, hu1, h2, h3]

/-- Selecting calls of `printReg` by a format string of the guarded block
looks only at the guarded block. -/
theorem filter_printReg (q : String → Bool) (ha : q "\n  %04X     0x%04X" = false)
    (hb : q "\n  %- 9s0x%04X" = false) (hc : q "%s%s" = false) (hd : q " \x7b" = false)
    (he : q "\x7d" = false) (hg : q " \x7bnone\x7d" = false)
    (S : Symbols) (mem : Nat → Nat) (regName : Option String) (reg f : Nat) :
    (printReg S mem regName reg f).filter (fun p => q p.fmt)
      = (formatCalls (readWord mem reg) f).filter (fun p => q p.fmt) := by
  have h1 := filter_headCall q ha hb regName reg (readWord mem reg)
  have h2 := filter_bitNameCalls q hc hd he hg S reg (readWord mem reg)
  have : printReg S mem regName reg f = [headCall regName reg (readWord mem reg)]
      ++ (formatCalls (readWord mem reg) f ++ bitNameCalls S reg (readWord mem reg)) := rfl
  rw [this, List.filter_append, List.filter_append, h1, h2]
  simp

theorem decimalCalls_printReg (S : Symbols) (mem : Nat → Nat) (regName : Option String)
    (reg f : Nat) :
    decimalCalls (printReg S mem regName reg f) =
      (if readWord mem reg ≠ 0 ∧ f.testBit 2 = true ∧ (isNeg16 (readWord mem reg) ∨ f.testBit 3 = false)
        then [⟨"   %6d", [.int (readWord mem reg)]⟩] else [])
      ++ (if readWord mem reg ≠ 0 ∧ f.testBit 3 = true
        then [⟨"   %5u", [.int (readWord mem reg)]⟩] else []) := by
  unfold decimalCalls
  rw [filter_printReg isDecimalFmt (by decide) (by decide) (by decide) (by decide) (by decide)
    (by decide), filter_formatCalls isDecimalFmt (by decide) (by decide) (by decide)]
  have hs : isDecimalFmt "   %6d" = true := by decide
  have hu : isDecimalFmt "   %5u" = true := by decide
  simp [hs, hu]

theorem signedCalls_printReg (S : Symbols) (mem : Nat → Nat) (regName : Option String)
    (reg f : Nat) :
    (printReg S mem regName reg f).filter (fun p => isSignedFmt p.fmt) =
      (if readWord mem reg ≠ 0 ∧ f.testBit 2 = true ∧ (isNeg16 (readWord mem reg) ∨ f.testBit 3 = false)
        then [⟨"   %6d", [.int (readWord mem reg)]⟩] else []) := by
  rw [filter_printReg isSignedFmt (by decide) (by decide) (by decide) (by decide) (by decide)
    (by decide), filter_formatCalls isSignedFmt (by decide) (by decide) (by decide)]
  have hs : isSignedFmt "   %6d" = true := by decide
  have hu : isSignedFmt "   %5u" = false := by decide
  simp [hs, hu]

theorem readWord_lt (mem : Nat → Nat) (a : Nat) : readWord mem a < 65536 :=
  Nat.mod_lt _ (by decide)

theorem unsigned_text (v : Nat) (hv : v < 65536) :
    Printf.text ⟨"   %5u", [.int v]⟩ = ⟨' ' :: ' ' :: ' ' :: rightJustify 5 (digits 10 v)⟩ := by
  simp [Printf.text, EZBL_printf, formatChars, convert, Conv.init, Arg.value, pad, rightJustify,
    Nat.mod_eq_of_lt hv]

theorem signed_text (v : Nat) (hv : v < 65536) :
    Printf.text ⟨"   %6d", [.int v]⟩
      = ⟨' ' :: ' ' :: ' ' :: rightJustify 6 (intDigits (toInt16 v))⟩ := by
  have hm : v % 65536 = v := Nat.mod_eq_of_lt hv
  by_cases hlt : v < 32768
  · have hz : ¬ ((v : Int) < 0) := by omega
    simp [Printf.text, EZBL_printf, formatChars, convert, Conv.init, Arg.value, pad, rightJustify,
      hm, hlt, toInt16, intDigits, hz]
  · have hz : ((v : Int) - 65536 < 0) := by omega
    have hn : ((v : Int) - 65536).natAbs = 65536 - v := by omega
    simp [Printf.text, EZBL_printf, formatChars, convert, Conv.init, Arg.value, pad, rightJustify,
      hm, hlt, toInt16, intDigits, hz, hn]

/-! ## Zero-valued registers -/

theorem regBitNames_eq_none_iff (S : Symbols) (reg : Nat) :
    regBitNames S reg = none ↔ ¬ hasBitNames S reg := by
  unfold regBitNames hasBitNames
  split_ifs <;> simp [*]

theorem bitNameCalls_zero (S : Symbols) (reg : Nat) :
    bitNameCalls S reg 0 = if hasBitNames S reg then [⟨" \x7bnone\x7d", []⟩] else [] := by
  unfold bitNameCalls
  cases h : regBitNames S reg with
  | none => simp [(regBitNames_eq_none_iff S reg).1 h]
  | some tbl =>
    have : hasBitNames S reg := by
      by_contra hc
      rw [(regBitNames_eq_none_iff S reg).2 hc] at h
      cases h
    simp [this]

/-- C4: when the cell read by `printReg` holds 0, whatever the name, address and
`formatFlags`, the calls are the name/hex call alone, followed by the
`{none}` marker exactly when the address is that of INTCON1, RCON or SR; the
text is the name column, `0x0000` and, in that case only, ` {none}`: no binary,
signed or unsigned decimal field. -/
theorem printReg_zero_value (S : Symbols) (mem : Nat → Nat) (regName : Option String)
    (reg formatFlags : Nat) (h0 : readWord mem reg = 0) :
    printReg S mem regName reg formatFlags
        = headCall regName reg 0 ::
            (if hasBitNames S reg then [⟨" \x7bnone\x7d", []⟩] else [])
      ∧ render (printReg S mem regName reg formatFlags)
        = ⟨nameField regName reg⟩ ++ "0x0000"
            ++ (if hasBitNames S reg then " \x7bnone\x7d" else "")
      ∧ ((⟨" \x7bnone\x7d", []⟩ : Printf) ∈ printReg S mem regName reg formatFlags
          ↔ hasBitNames S reg) := by
  have hcalls : printReg S mem regName reg formatFlags
      = headCall regName reg 0 ::
          (if hasBitNames S reg then [⟨" \x7bnone\x7d", []⟩] else []) := by
    simp [printReg, h0, formatCalls, bitNameCalls_zero]
  refine ⟨hcalls, ?_, ?_⟩
  · rw [hcalls, render_cons, headCall_text]
    have hx : hex4 0 = ['0', '0', '0', '0'] := by decide
    by_cases hb : hasBitNames S reg
    · simp only [hb, if_true, hx]
      apply String.ext
      simp [render, Printf.text, EZBL_printf, formatChars]
    · simp only [hb, if_false, hx]
      apply String.ext
      simp [render]
  · rw [hcalls]
    by_cases hb : hasBitNames S reg
    · simp [hb]
    · simp [hb]
      cases regName <;> simp [headCall]

theorem printReg_zero_value_witness :
    readWord (fun _ => 0) 0x0740 = 0 ∧
    render (printReg exampleSymbols (fun _ => 0) (some "RCON") 0x0740 BINARY)
      = ⟨nameField (some "RCON") 0x0740⟩ ++ "0x0000"
          ++ (if hasBitNames exampleSymbols 0x0740 then " \x7bnone\x7d" else "") :=
  ⟨by decide, (printReg_zero_value exampleSymbols (fun _ => 0) (some "RCON") 0x0740 BINARY
    (by decide)).2.1⟩

/-! ## Decimal renderings -/

/-- C5, as stated, fails: for the value 0x8000 printed with `DECIMAL | UNSIGNED`
the decimal renderings are not the signed one alone; there are two, the line
reads `w0       0x8000   -32768   32768`. -/
theorem printReg_0x8000_two_decimal_forms :
    decimalCalls (printReg exampleSymbols (fun _ => 0x8000) (some "w0") 0x1000
        (DECIMAL ||| UNSIGNED)) ≠ [⟨"   %6d", [.int 0x8000]⟩]
      ∧ (decimalCalls (printReg exampleSymbols (fun _ => 0x8000) (some "w0") 0x1000
        (DECIMAL ||| UNSIGNED))).length = 2
      ∧ render (printReg exampleSymbols (fun _ => 0x8000) (some "w0") 0x1000
        (DECIMAL ||| UNSIGNED)) = "\n  w0       0x8000   -32768   32768" := by
  refine ⟨by decide, by decide, by decide⟩

/-- C5, amended: for every value in 0x8000..0xFFFF printed with both DECIMAL and
UNSIGNED set, `printReg` emits two decimal renderings, the signed one (negative,
the value read as 16-bit two's complement) followed by the unsigned one. -/
theorem printReg_decimal_unsigned_negative (S : Symbols) (mem : Nat → Nat)
    (regName : Option String) (reg f : Nat)
    (hd : f &&& DECIMAL ≠ 0) (hu : f &&& UNSIGNED ≠ 0) (hneg : 0x8000 ≤ readWord mem reg) :
    decimalCalls (printReg S mem regName reg f)
        = [⟨"   %6d", [.int (readWord mem reg)]⟩, ⟨"   %5u", [.int (readWord mem reg)]⟩]
      ∧ toInt16 (readWord mem reg) < 0
      ∧ Printf.text ⟨"   %6d", [.int (readWord mem reg)]⟩
        = ⟨' ' :: ' ' :: ' ' :: rightJustify 6 (intDigits (toInt16 (readWord mem reg)))⟩
      ∧ Printf.text ⟨"   %5u", [.int (readWord mem reg)]⟩
        = ⟨' ' :: ' ' :: ' ' :: rightJustify 5 (digits 10 (readWord mem reg))⟩ := by
  have hlt := readWord_lt mem reg
  have h2 := (decimal_set f).1 hd
  have h3 := (unsigned_set f).1 hu
  have hv : readWord mem reg ≠ 0 := by omega
  have hn : isNeg16 (readWord mem reg) := by unfold isNeg16; omega
  refine ⟨?_, ?_, signed_text _ hlt, unsigned_text _ hlt⟩
  · rw [decimalCalls_printReg]; simp [hv, h2, h3, hn]
  · unfold toInt16; rw [Nat.mod_eq_of_lt hlt]; split <;> omega

theorem printReg_decimal_unsigned_negative_witness :
    (DECIMAL ||| UNSIGNED) &&& DECIMAL ≠ 0 ∧ (DECIMAL ||| UNSIGNED) &&& UNSIGNED ≠ 0
      ∧ 0x8000 ≤ readWord (fun _ => 0xFFFE) 0x1000
      ∧ decimalCalls (printReg exampleSymbols (fun _ => 0xFFFE) (some "w0") 0x1000
          (DECIMAL ||| UNSIGNED))
        = [⟨"   %6d", [.int (readWord (fun _ => 0xFFFE) 0x1000)]⟩,
           ⟨"   %5u", [.int (readWord (fun _ => 0xFFFE) 0x1000)]⟩] :=
  ⟨by decide, by decide, by decide,
    (printReg_decimal_unsigned_negative exampleSymbols (fun _ => 0xFFFE) (some "w0") 0x1000
      (DECIMAL ||| UNSIGNED) (by decide) (by decide) (by decide)).1⟩

/-- C6: for every value in 0x0001..0x7FFF printed with both DECIMAL and UNSIGNED
set, exactly one decimal rendering is emitted: the unsigned call, whose text is
the magnitude right-justified in five columns. -/
theorem printReg_decimal_unsigned_positive (S : Symbols) (mem : Nat → Nat)
    (regName : Option String) (reg f : Nat)
    (hd : f &&& DECIMAL ≠ 0) (hu : f &&& UNSIGNED ≠ 0)
    (h1 : 0x0001 ≤ readWord mem reg) (h2 : readWord mem reg ≤ 0x7FFF) :
    decimalCalls (printReg S mem regName reg f) = [⟨"   %5u", [.int (readWord mem reg)]⟩]
      ∧ Printf.text ⟨"   %5u", [.int (readWord mem reg)]⟩
        = ⟨' ' :: ' ' :: ' ' :: rightJustify 5 (digits 10 (readWord mem reg))⟩ := by
  have hlt := readWord_lt mem reg
  have hb3 := (unsigned_set f).1 hu
  have _hb2 := (decimal_set f).1 hd
  have hv : readWord mem reg ≠ 0 := by omega
  have hn : ¬ isNeg16 (readWord mem reg) := by unfold isNeg16; omega
  refine ⟨?_, unsigned_text _ hlt⟩
  rw [decimalCalls_printReg]; simp [hv, hb3, hn]

theorem printReg_decimal_unsigned_positive_witness :
    (DECIMAL ||| UNSIGNED) &&& DECIMAL ≠ 0 ∧ (DECIMAL ||| UNSIGNED) &&& UNSIGNED ≠ 0
      ∧ 0x0001 ≤ readWord (fun _ => 0x0001) 0x1000 ∧ readWord (fun _ => 0x0001) 0x1000 ≤ 0x7FFF
      ∧ decimalCalls (printReg exampleSymbols (fun _ => 0x0001) (some "w0") 0x1000
          (DECIMAL ||| UNSIGNED)) = [⟨"   %5u", [.int (readWord (fun _ => 0x0001) 0x1000)]⟩]
      ∧ render (printReg exampleSymbols (fun _ => 0x0001) (some "w0") 0x1000
          (DECIMAL ||| UNSIGNED)) = "\n  w0       0x0001       1" :=
  ⟨by decide, by decide, by decide, by decide,
    (printReg_decimal_unsigned_positive exampleSymbols (fun _ => 0x0001) (some "w0") 0x1000
      (DECIMAL ||| UNSIGNED) (by decide) (by decide) (by decide) (by decide)).1, by decide⟩

/-- C7: for every non-zero 16-bit value and every `formatFlags`, `printReg`
makes the signed decimal call if and only if DECIMAL is set and the value is
negative (bit 15 set) or UNSIGNED is not set; the call is made at most once,
with the value read, and its text is the value as a two's-complement integer. -/
theorem printReg_signed_decimal_iff (S : Symbols) (mem : Nat → Nat) (regName : Option String)
    (reg f : Nat) (hv : readWord mem reg ≠ 0) :
    ((∃ p ∈ printReg S mem regName reg f, isSignedFmt p.fmt = true)
        ↔ (f &&& DECIMAL ≠ 0 ∧ (isNeg16 (readWord mem reg) ∨ f &&& UNSIGNED = 0)))
      ∧ (∀ p ∈ printReg S mem regName reg f, isSignedFmt p.fmt = true →
          p = ⟨"   %6d", [.int (readWord mem reg)]⟩)
      ∧ ((printReg S mem regName reg f).filter (fun p => isSignedFmt p.fmt)).length ≤ 1
      ∧ (isNeg16 (readWord mem reg) ↔ (readWord mem reg).testBit 15 = true)
      ∧ Printf.text ⟨"   %6d", [.int (readWord mem reg)]⟩
        = ⟨' ' :: ' ' :: ' ' :: rightJustify 6 (intDigits (toInt16 (readWord mem reg)))⟩ := by
  have hlt := readWord_lt mem reg
  have hfil := signedCalls_printReg S mem regName reg f
  have hu0 : f &&& UNSIGNED = 0 ↔ f.testBit 3 = false := by
    have := unsigned_set f
    constructor
    · intro h; by_contra hc; exact (this.2 (by simpa using hc)) h
    · intro h; by_contra hc; rw [this.1 hc] at h; cases h
  have hmem : ∀ p, p ∈ printReg S mem regName reg f ∧ isSignedFmt p.fmt = true ↔
      p ∈ (printReg S mem regName reg f).filter (fun p => isSignedFmt p.fmt) := by
    intro p; rw [List.mem_filter]
  refine ⟨?_, ?_, ?_, ?_, signed_text _ hlt⟩
  · rw [decimal_set, hu0]
    constructor
    · rintro ⟨p, hp, hs⟩
      have := (hmem p).1 ⟨hp, hs⟩
      rw [hfil] at this
      by_contra hc
      simp [hv, hc] at this
    · intro hc
      refine ⟨⟨"   %6d", [.int (readWord mem reg)]⟩, ?_⟩
      have : (⟨"   %6d", [.int (readWord mem reg)]⟩ : Printf) ∈
          (printReg S mem regName reg f).filter (fun p => isSignedFmt p.fmt) := by
        rw [hfil]; simp [hv, hc]
      exact (hmem _).2 this
  · intro p hp hs
    have := (hmem p).1 ⟨hp, hs⟩
    rw [hfil] at this
    split at this
    · simpa using this
    · cases this
  · rw [hfil]; split <;> simp
  · unfold isNeg16
    rw [Nat.mod_eq_of_lt hlt, Nat.testBit_to_div_mod]
    simp only [decide_eq_true_eq]
    omega

theorem printReg_signed_decimal_iff_witness :
    readWord (fun _ => 0xFFFF) 0x1000 ≠ 0
      ∧ ((∃ p ∈ printReg exampleSymbols (fun _ => 0xFFFF) (some "w0") 0x1000 DECIMAL,
            isSignedFmt p.fmt = true)
          ↔ (DECIMAL &&& DECIMAL ≠ 0
              ∧ (isNeg16 (readWord (fun _ => 0xFFFF) 0x1000) ∨ DECIMAL &&& UNSIGNED = 0)))
      ∧ render (printReg exampleSymbols (fun _ => 0xFFFF) (some "w0") 0x1000 DECIMAL)
          = "\n  w0       0xFFFF       -1" :=
  ⟨by decide,
    (printReg_signed_decimal_iff exampleSymbols (fun _ => 0xFFFF) (some "w0") 0x1000 DECIMAL
      (by decide)).1, by decide⟩

/-! ## The binary field -/

theorem binaryLoop_unfold (v : Nat) :
    binaryLoop v 16 0x8000 =
      [bitCall v 0x8000, bitCall v 0x4000, bitCall v 0x2000, bitCall v 0x1000,
       bitCall v 0x0800, bitCall v 0x0400, bitCall v 0x0200, bitCall v 0x0100, ⟨" ", []⟩,
       bitCall v 0x0080, bitCall v 0x0040, bitCall v 0x0020, bitCall v 0x0010,
       bitCall v 0x0008, bitCall v 0x0004, bitCall v 0x0002, bitCall v 0x0001] := by
  rfl

/-- Sixteen iterations are all the loop makes: more fuel changes nothing. -/
theorem binaryLoop_fuel (v extra : Nat) :
    binaryLoop v (extra + 16) 0x8000 = binaryLoop v 16 0x8000 := by
  rfl

theorem bitCall_text (v k : Nat) :
    (bitCall v (2 ^ k)).text = ⟨[bitChar v k]⟩ := by
  unfold bitCall bitChar
  by_cases h : v.testBit k = true
  · have := (land_two_pow_ne_zero v k).2 h
    rw [if_pos this, if_pos h]; decide
  · have : ¬ (v &&& 2 ^ k ≠ 0) := fun hc => h ((land_two_pow_ne_zero v k).1 hc)
    rw [if_neg this, if_neg h]; decide

theorem binaryField_text (v : Nat) :
    render (⟨"   ", []⟩ :: binaryLoop v 16 0x8000)
      = ⟨' ' :: ' ' :: ' ' :: ((binaryDigits v).take 8 ++ ' ' :: (binaryDigits v).drop 8)⟩ := by
  rw [binaryLoop_unfold]
  have e15 := bitCall_text v 15
  have e14 := bitCall_text v 14
  have e13 := bitCall_text v 13
  have e12 := bitCall_text v 12
  have e11 := bitCall_text v 11
  have e10 := bitCall_text v 10
  have e9 := bitCall_text v 9
  have e8 := bitCall_text v 8
  have e7 := bitCall_text v 7
  have e6 := bitCall_text v 6
  have e5 := bitCall_text v 5
  have e4 := bitCall_text v 4
  have e3 := bitCall_text v 3
  have e2 := bitCall_text v 2
  have e1 := bitCall_text v 1
  have e0 := bitCall_text v 0
  norm_num at e15 e14 e13 e12 e11 e10 e9 e8 e7 e6 e5 e4 e3 e2 e1 e0
  simp only [render, e15, e14, e13, e12, e11, e10, e9, e8, e7, e6, e5, e4, e3, e2, e1, e0]
  apply String.ext
  simp [binaryDigits, List.range, List.range.loop, Printf.text, EZBL_printf, formatChars]

theorem bitChar_value (v k : Nat) : (if bitChar v k = '1' then 1 else 0) = v / 2 ^ k % 2 := by
  unfold bitChar
  rw [Nat.testBit_to_div_mod]
  rcases Nat.mod_two_eq_zero_or_one (v / 2 ^ k) with h | h <;> simp [h]

theorem foldl_bitChars (v n acc : Nat) :
    ((List.range n).map (fun k => bitChar v (n - 1 - k))).foldl
        (fun acc c => 2 * acc + (if c = '1' then 1 else 0)) acc
      = acc * 2 ^ n + v % 2 ^ n := by
  induction n generalizing acc with
  | zero => simp [Nat.mod_one]
  | succ n ih =>
    have hmap : (List.range (n + 1)).map (fun k => bitChar v (n + 1 - 1 - k))
        = bitChar v n :: (List.range n).map (fun k => bitChar v (n - 1 - k)) := by
      rw [List.range_succ_eq_map, List.map_cons, List.map_map]
      congr 1
      apply List.map_congr_left
      intro k _
      simp only [Function.comp, Nat.add_sub_cancel]
      congr 1
      omega
    rw [hmap, List.foldl_cons, ih, bitChar_value, Nat.mod_pow_succ, Nat.pow_succ]
    ring

theorem binaryValue_binaryDigits (v : Nat) (hv : v < 65536) : binaryValue (binaryDigits v) = v := by
  have := foldl_bitChars v 16 0
  simp only [binaryValue, binaryDigits]
  rw [show (fun k => bitChar v (15 - k)) = (fun k => bitChar v (16 - 1 - k)) from rfl, this]
  simp [Nat.mod_eq_of_lt hv]

theorem binaryDigits_get (v k : Nat) (hk : k < 16) :
    (binaryDigits v).get? k = some (bitChar v (15 - k)) := by
  simp [binaryDigits, List.getElem?_map, List.getElem?_range hk]

theorem formatCalls_binary (v f : Nat) (hv : v ≠ 0) (hb : f &&& BINARY ≠ 0) :
    ∃ rest, formatCalls v f = ⟨"   ", []⟩ :: (binaryLoop v 16 0x8000 ++ rest)
      ∧ ∀ p ∈ rest, p.fmt = "   %6d" ∨ p.fmt = "   %5u" := by
  have hf : f ≠ 0 := testBit_ne_zero ((binary_set f).1 hb)
  unfold formatCalls
  simp only [hv, hf, hb, ne_eq, not_false_eq_true, and_self, if_true, List.cons_append,
    List.append_assoc]
  refine ⟨_, rfl, ?_⟩
  intro p hp
  rw [List.mem_append] at hp
  rcases hp with hp | hp
  · split_ifs at hp <;> simp at hp
    all_goals simp [hp]
  · split_ifs at hp <;> simp at hp
    all_goals simp [hp]

/-- C8: for every non-zero 16-bit value printed with BINARY set, the calls after
the name/hex call are the three-blank lead and the binary loop; their text is
sixteen characters from `0`/`1` with one blank between the 8th and the 9th, the
k-th character is `1` exactly when bit 15-k is set, the sixteen characters read
as a base-2 numeral give the value back, no later call prints a digit of the
field, and the line for CORCON = 0x1234 is the documented one. -/
theorem printReg_binary_field (S : Symbols) (mem : Nat → Nat) (regName : Option String)
    (reg f : Nat) (hv : readWord mem reg ≠ 0) (hb : f &&& BINARY ≠ 0) :
    (∃ rest, printReg S mem regName reg f
          = headCall regName reg (readWord mem reg) :: ⟨"   ", []⟩ ::
              (binaryLoop (readWord mem reg) 16 0x8000 ++ rest)
        ∧ ∀ p ∈ rest, p.fmt ≠ "%X" ∧ p.fmt ≠ " " ∧ p.fmt ≠ "   ")
      ∧ render (⟨"   ", []⟩ :: binaryLoop (readWord mem reg) 16 0x8000)
        = ⟨' ' :: ' ' :: ' ' :: ((binaryDigits (readWord mem reg)).take 8
            ++ ' ' :: (binaryDigits (readWord mem reg)).drop 8)⟩
      ∧ (binaryDigits (readWord mem reg)).length = 16
      ∧ (∀ c ∈ binaryDigits (readWord mem reg), c = '0' ∨ c = '1')
      ∧ (∀ k, k < 16 → ((binaryDigits (readWord mem reg)).get? k = some '1'
          ↔ (readWord mem reg).testBit (15 - k) = true))
      ∧ binaryValue (binaryDigits (readWord mem reg)) = readWord mem reg
      ∧ (readWord mem reg = 0x1234 → regName = some "CORCON" → f = BINARY →
          ¬ hasBitNames S reg →
          render (printReg S mem regName reg f) = "\n  CORCON   0x1234   00010010 00110100") := by
  refine ⟨?_, binaryField_text _, by simp [binaryDigits], ?_, ?_,
    binaryValue_binaryDigits _ (readWord_lt mem reg), ?_⟩
  · obtain ⟨rest, hrest, hfmt⟩ := formatCalls_binary (readWord mem reg) f hv hb
    refine ⟨rest ++ bitNameCalls S reg (readWord mem reg), ?_, ?_⟩
    · simp [printReg, hrest]
    · intro p hp
      rw [List.mem_append] at hp
      rcases hp with hp | hp
      · rcases hfmt p hp with h | h <;> rw [h] <;> decide
      · have hnil : ∀ s : String, s = "%X" ∨ s = " " ∨ s = "   " →
            (bitNameCalls S reg (readWord mem reg)).filter (fun p => (fun t => t == s) p.fmt) = [] := by
          intro s hs
          apply filter_bitNameCalls (fun t => t == s) <;>
            rcases hs with h | h | h <;> subst h <;> decide
        refine ⟨?_, ?_, ?_⟩
        · intro hc
          have := List.filter_eq_nil_iff.1 (hnil "%X" (Or.inl rfl)) p hp
          simp [hc] at this
        · intro hc
          have := List.filter_eq_nil_iff.1 (hnil " " (Or.inr (Or.inl rfl))) p hp
          simp [hc] at this
        · intro hc
          have := List.filter_eq_nil_iff.1 (hnil "   " (Or.inr (Or.inr rfl))) p hp
          simp [hc] at this
  · intro c hc
    simp only [binaryDigits, List.mem_map] at hc
    obtain ⟨k, _, rfl⟩ := hc
    unfold bitChar
    split <;> simp
  · intro k hk
    rw [binaryDigits_get _ _ hk]
    unfold bitChar
    split <;> simp [*]
  · intro h1 h2 h3 h4
    subst h2 h3
    have hnone := (regBitNames_eq_none_iff S reg).2 h4
    simp only [printReg, h1, bitNameCalls, hnone, headCall]
    decide

theorem printReg_binary_field_witness :
    readWord (fun _ => 0x1234) 0x0044 ≠ 0 ∧ BINARY &&& BINARY ≠ 0
      ∧ render (printReg exampleSymbols (fun _ => 0x1234) (some "CORCON") 0x0044 BINARY)
          = "\n  CORCON   0x1234   00010010 00110100" :=
  ⟨by decide, by decide,
    (printReg_binary_field exampleSymbols (fun _ => 0x1234) (some "CORCON") 0x0044 BINARY
      (by decide) (by decide)).2.2.2.2.2.2 (by decide) rfl rfl (by decide)⟩

/-! ## The symbolic suffix -/

theorem Machine.read_write (m : Machine) (a v x : Nat) :
    (m.write a v).read x = if x = a then v % 65536 else m.read x := by
  by_cases h : x = a <;> simp [Machine.read, Machine.write, readWord, writeWord, h]

theorem Machine.read_lt (m : Machine) (a : Nat) : m.read a < 65536 :=
  Nat.mod_lt _ (by decide)

theorem step_movPostDec (S : Symbols) (m : Machine) :
    step S (.movPostDec 1 0) m
      = ((m.write (m.read 0) (m.read (m.read 2))).write 2 (m.read 2 + 65536 - 2)).write 0
          (m.read 0 + 65536 - 2) := rfl

/-- One execution of `mov [w1--], [w0--]` with RCOUNT just set to `c`, from
pointers `w1 = a` into the working registers and `w0 = b` into `contextRegs`. -/
theorem copy_step (S : Symbols) (m : Machine) (a b c : Nat) (h1 : m.read 2 = a)
    (h0 : m.read 0 = b) (hR : 32 ≤ S.RCOUNT) (hc : c < 65536) (ha : 4 ≤ a) (ha2 : a < 32)
    (hb : 32 ≤ b) (hb2 : b < 65536) (hbR : b ≠ S.RCOUNT) :
    let m1 := step S (.movPostDec 1 0) (m.write S.RCOUNT c)
    m1.read 2 = a - 2 ∧ m1.read 0 = b - 2 ∧ m1.read S.RCOUNT = c ∧ m1.read b = m.read a
      ∧ ∀ x, x ≠ 0 → x ≠ 2 → x ≠ S.RCOUNT → x ≠ b → m1.read x = m.read x := by
  intro m1
  have e0 : (m.write S.RCOUNT c).read 0 = b := by
    rw [Machine.read_write, if_neg (by omega), h0]
  have e2 : (m.write S.RCOUNT c).read 2 = a := by
    rw [Machine.read_write, if_neg (by omega), h1]
  have hm1 : m1 = (((m.write S.RCOUNT c).write b ((m.write S.RCOUNT c).read a)).write 2
      (a + 65536 - 2)).write 0 (b + 65536 - 2) := by
    show step S (.movPostDec 1 0) (m.write S.RCOUNT c) = _
    rw [step_movPostDec, e0, e2]
  have hlt := m.read_lt a
  refine ⟨?_, ?_, ?_, ?_, ?_⟩
  · rw [hm1]; simp only [Machine.read_write]; split_ifs <;> first | omega | contradiction
  · rw [hm1]; simp only [Machine.read_write]; split_ifs <;> omega
  · rw [hm1]; simp only [Machine.read_write]; split_ifs <;> omega
  · rw [hm1]; simp only [Machine.read_write]; split_ifs <;> omega
  · intro x hx0 hx2 hxR hxb
    rw [hm1]; simp only [Machine.read_write]; split_ifs <;> omega

theorem repeatNext_copy (S : Symbols) (hR : 32 ≤ S.RCOUNT) (hC : 32 ≤ S.contextRegs)
    (hC2 : S.contextRegs + 40 ≤ 65536)
    (hRC : S.RCOUNT < S.contextRegs ∨ S.contextRegs + 40 ≤ S.RCOUNT)
    (k : Nat) (hk : k ≤ 13) (m : Machine)
    (h1 : m.read 2 = 4 + 2 * k) (h0 : m.read 0 = S.contextRegs + 4 + 2 * k) :
    (repeatNext S (step S (.movPostDec 1 0)) k m).read 2 = 2
      ∧ (repeatNext S (step S (.movPostDec 1 0)) k m).read 0 = S.contextRegs + 2
      ∧ (repeatNext S (step S (.movPostDec 1 0)) k m).read S.RCOUNT = 0
      ∧ (∀ t, t ≤ k → (repeatNext S (step S (.movPostDec 1 0)) k m).read
            (S.contextRegs + 4 + 2 * t) = m.read (4 + 2 * t))
      ∧ (∀ x, x ≠ 0 → x ≠ 2 → x ≠ S.RCOUNT →
            (x < S.contextRegs + 4 ∨ S.contextRegs + 4 + 2 * k < x) →
            (repeatNext S (step S (.movPostDec 1 0)) k m).read x = m.read x) := by
  induction k generalizing m with
  | zero =>
    obtain ⟨a1, a2, a3, a4, a5⟩ := copy_step S m 4 (S.contextRegs + 4) 0 (by simpa using h1)
      (by simpa using h0) hR (by decide) (by omega) (by omega) (by omega) (by omega) (by omega)
    simp only [repeatNext]
    refine ⟨by simpa using a1, by simpa using a2, a3, ?_, ?_⟩
    · intro t ht
      have : t = 0 := by omega
      subst this
      simpa using a4
    · intro x hx0 hx2 hxR hx
      exact a5 x hx0 hx2 hxR (by omega)
  | succ k ih =>
    obtain ⟨a1, a2, a3, a4, a5⟩ := copy_step S m (4 + 2 * (k + 1))
      (S.contextRegs + 4 + 2 * (k + 1)) (k + 1) h1 h0 hR (by omega) (by omega) (by omega)
      (by omega) (by omega) (by omega)
    simp only [repeatNext]
    obtain ⟨b1, b2, b3, b4, b5⟩ := ih (by omega) _
      (by rw [a1]; omega) (by rw [a2]; omega)
    refine ⟨b1, b2, b3, ?_, ?_⟩
    · intro t ht
      rcases Nat.eq_or_lt_of_le ht with h | h
      · subst h
        rw [b5 _ (by omega) (by omega) (by omega) (by omega), a4]
      · rw [b4 t (by omega), a5 _ (by omega) (by omega) (by omega) (by omega)]
    · intro x hx0 hx2 hxR hx
      rw [b5 x hx0 hx2 hxR (by omega), a5 x hx0 hx2 hxR (by omega)]

theorem capture_eq (S : Symbols) (m : Machine) :
    capture S m
      = captureTail S (repeatNext S (step S (.movPostDec 1 0)) 13 (captureHead S m)) := rfl

theorem captureHead_reads (S : Symbols) (hS : S.wellFormed) (m : Machine) :
    (captureHead S m).read 2 = 30 ∧ (captureHead S m).read 0 = S.contextRegs + 30
      ∧ (captureHead S m).read S.contextRegs = m.read 0
      ∧ (captureHead S m).read (S.contextRegs + 2) = m.read 2
      ∧ (captureHead S m).read (S.contextRegs + 32) = m.read S.RCOUNT
      ∧ (∀ x, x ≠ 0 → x ≠ 2 → x ≠ S.contextRegs → x ≠ S.contextRegs + 2 →
          x ≠ S.contextRegs + 32 → (captureHead S m).read x = m.read x) := by
  unfold Symbols.wellFormed at hS
  obtain ⟨h1, h2, h3, h4, -⟩ := hS
  have l0 := m.read_lt 0
  have l2 := m.read_lt 2
  have lR := m.read_lt S.RCOUNT
  refine ⟨?_, ?_, ?_, ?_, ?_, ?_⟩
  · simp only [captureHead, step, Machine.read_write, Nat.mul_zero, Nat.mul_one]
    split_ifs <;> first | omega | contradiction
  · simp only [captureHead, step, Machine.read_write, Nat.mul_zero, Nat.mul_one]
    split_ifs <;> omega
  · simp only [captureHead, step, Machine.read_write, Nat.mul_zero, Nat.mul_one, Nat.add_zero]
    split_ifs <;> omega
  · simp only [captureHead, step, Machine.read_write, Nat.mul_zero, Nat.mul_one, Nat.add_zero]
    split_ifs <;> first | omega | contradiction
  · simp only [captureHead, step, Machine.read_write, Nat.mul_zero, Nat.mul_one, Nat.add_zero]
    split_ifs <;> first | omega | contradiction
  · intro x a1 a2 a3 a4 a5
    simp only [captureHead, step, Machine.read_write, Nat.mul_zero, Nat.mul_one, Nat.add_zero]
    split_ifs <;> omega

theorem Machine.read_write_eq (m : Machine) (a v : Nat) :
    (m.write a v).read a = v % 65536 := by
  rw [Machine.read_write, if_pos rfl]

theorem Machine.read_write_ne (m : Machine) (a v x : Nat) (h : x ≠ a) :
    (m.write a v).read x = m.read x := by
  rw [Machine.read_write, if_neg h]

theorem Machine.read_mod (m : Machine) (a : Nat) : m.read a % 65536 = m.read a :=
  Nat.mod_eq_of_lt (m.read_lt a)

theorem step_movFW_eq (S : Symbols) (m : Machine) (f n x : Nat) (h : x = 2 * n) :
    (step S (.movFW f n) m).read x = m.read f := by
  subst h
  simp only [step, Machine.read_write_eq, Machine.read_mod]

theorem step_movFW_ne (S : Symbols) (m : Machine) (f n x : Nat) (h : x ≠ 2 * n) :
    (step S (.movFW f n) m).read x = m.read x := by
  simp only [step, Machine.read_write_ne _ _ _ _ h]

theorem step_movWF_eq (S : Symbols) (m : Machine) (f n x : Nat) (h : x = f) :
    (step S (.movWF n f) m).read x = m.read (2 * n) := by
  subst h
  simp only [step, Machine.read_write_eq, Machine.read_mod]

theorem step_movWF_ne (S : Symbols) (m : Machine) (f n x : Nat) (h : x ≠ f) :
    (step S (.movWF n f) m).read x = m.read x := by
  simp only [step, Machine.read_write_ne _ _ _ _ h]

theorem captureTail_reads (S : Symbols) (hS : S.wellFormed) (m : Machine) :
    (captureTail S m).read 0 = m.read S.contextRegs
      ∧ (captureTail S m).read 2 = m.read (S.contextRegs + 2)
      ∧ (captureTail S m).read S.RCOUNT = m.read (S.contextRegs + 32)
      ∧ (captureTail S m).read (S.contextRegs + 38) = m.read S.SR
      ∧ (S.DSRPAG ≠ 0 → (captureTail S m).read (S.contextRegs + 34) = m.read S.DSRPAG)
      ∧ (S.DSRPAG = 0 → S.PSVPAG ≠ 0 →
          (captureTail S m).read (S.contextRegs + 34) = m.read S.PSVPAG)
      ∧ (S.DSWPAG ≠ 0 → (captureTail S m).read (S.contextRegs + 36) = m.read S.DSWPAG)
      ∧ (∀ x, x ≠ 0 → x ≠ 2 → x ≠ S.RCOUNT → x ≠ S.contextRegs + 34 →
          x ≠ S.contextRegs + 36 → x ≠ S.contextRegs + 38 →
          (captureTail S m).read x = m.read x) := by
  unfold Symbols.wellFormed at hS
  obtain ⟨h1, h2, h3, h4, h5, h6, h7, h8, h9, h10⟩ := hS
  refine ⟨?_, ?_, ?_, ?_, ?_, ?_, ?_, ?_⟩
  · simp (disch := omega) only [captureTail, step_movFW_eq, step_movFW_ne, step_movWF_eq,
      step_movWF_ne, Nat.mul_zero, Nat.mul_one, Nat.add_zero]
  · simp (disch := omega) only [captureTail, step_movFW_eq, step_movFW_ne, step_movWF_eq,
      step_movWF_ne, Nat.mul_zero, Nat.mul_one, Nat.add_zero]
  · simp (disch := omega) only [captureTail, step_movFW_eq, step_movFW_ne, step_movWF_eq,
      step_movWF_ne, Nat.mul_zero, Nat.mul_one, Nat.add_zero]
  · simp (disch := omega) only [captureTail, step_movFW_eq, step_movFW_ne, step_movWF_eq,
      step_movWF_ne, Nat.mul_zero, Nat.mul_one, Nat.add_zero]
  · intro hd
    rcases h9 with g | ⟨g1, g2, g3⟩
    · exact absurd g hd
    simp (disch := omega) only [captureTail, step_movFW_eq, step_movFW_ne, step_movWF_eq,
      step_movWF_ne, Nat.mul_zero, Nat.mul_one, Nat.add_zero]
  · intro hd hp
    rcases h8 with g | ⟨g1, g2, g3⟩
    · exact absurd g hp
    simp (disch := omega) only [captureTail, step_movFW_eq, step_movFW_ne, step_movWF_eq,
      step_movWF_ne, Nat.mul_zero, Nat.mul_one, Nat.add_zero]
  · intro hd
    rcases h10 with g | ⟨g1, g2, g3⟩
    · exact absurd g hd
    simp (disch := omega) only [captureTail, step_movFW_eq, step_movFW_ne, step_movWF_eq,
      step_movWF_ne, Nat.mul_zero, Nat.mul_one, Nat.add_zero]
  · intro x a1 a2 a3 a4 a5 a6
    simp (disch := omega) only [captureTail, step_movFW_eq, step_movFW_ne, step_movWF_eq,
      step_movWF_ne, Nat.mul_zero, Nat.mul_one, Nat.add_zero]

/-- Facts about the machine between the repeated `mov` and the tail. -/
theorem captureLoop_reads (S : Symbols) (hS : S.wellFormed) (m : Machine) :
    (∀ t, t ≤ 13 → (repeatNext S (step S (.movPostDec 1 0)) 13 (captureHead S m)).read
        (S.contextRegs + 4 + 2 * t) = m.read (4 + 2 * t))
      ∧ (repeatNext S (step S (.movPostDec 1 0)) 13 (captureHead S m)).read S.contextRegs
          = m.read 0
      ∧ (repeatNext S (step S (.movPostDec 1 0)) 13 (captureHead S m)).read (S.contextRegs + 2)
          = m.read 2
      ∧ (repeatNext S (step S (.movPostDec 1 0)) 13 (captureHead S m)).read
          (S.contextRegs + 32) = m.read S.RCOUNT
      ∧ (∀ x, x ≠ 0 → x ≠ 2 → x ≠ S.RCOUNT → (x < S.contextRegs ∨ S.contextRegs + 40 ≤ x) →
          (repeatNext S (step S (.movPostDec 1 0)) 13 (captureHead S m)).read x = m.read x) := by
  obtain ⟨p1, p2, p3, p4, p5, p6⟩ := captureHead_reads S hS m
  unfold Symbols.wellFormed at hS
  obtain ⟨h1, h2, h3, h4, -⟩ := hS
  obtain ⟨-, -, -, c4, c5⟩ := repeatNext_copy S h3 h1 h2 h4 13 (Nat.le_refl _) (captureHead S m)
    (by rw [p1]) (by rw [p2])
  refine ⟨?_, ?_, ?_, ?_, ?_⟩
  · intro t ht
    have a1 : 4 + 2 * t ≠ 0 := by omega
    have a2 : 4 + 2 * t ≠ 2 := by omega
    have a3 : 4 + 2 * t ≠ S.contextRegs := by omega
    have a4 : 4 + 2 * t ≠ S.contextRegs + 2 := by omega
    have a5 : 4 + 2 * t ≠ S.contextRegs + 32 := by omega
    rw [c4 t ht, p6 _ a1 a2 a3 a4 a5]
  · have a1 : S.contextRegs ≠ 0 := by omega
    have a2 : S.contextRegs ≠ 2 := by omega
    have a3 : S.contextRegs ≠ S.RCOUNT := by omega
    have a4 : S.contextRegs < S.contextRegs + 4 ∨ S.contextRegs + 4 + 2 * 13 < S.contextRegs :=
      by omega
    rw [c5 _ a1 a2 a3 a4, p3]
  · have a1 : S.contextRegs + 2 ≠ 0 := by omega
    have a2 : S.contextRegs + 2 ≠ 2 := by omega
    have a3 : S.contextRegs + 2 ≠ S.RCOUNT := by omega
    have a4 : S.contextRegs + 2 < S.contextRegs + 4
        ∨ S.contextRegs + 4 + 2 * 13 < S.contextRegs + 2 := by omega
    rw [c5 _ a1 a2 a3 a4, p4]
  · have a1 : S.contextRegs + 32 ≠ 0 := by omega
    have a2 : S.contextRegs + 32 ≠ 2 := by omega
    have a3 : S.contextRegs + 32 ≠ S.RCOUNT := by omega
    have a4 : S.contextRegs + 32 < S.contextRegs + 4
        ∨ S.contextRegs + 4 + 2 * 13 < S.contextRegs + 32 := by omega
    rw [c5 _ a1 a2 a3 a4, p5]
  · intro x x0 x2 xR hx
    have a4 : x < S.contextRegs + 4 ∨ S.contextRegs + 4 + 2 * 13 < x := by omega
    have a5 : x ≠ S.contextRegs := by omega
    have a6 : x ≠ S.contextRegs + 2 := by omega
    have a7 : x ≠ S.contextRegs + 32 := by omega
    rw [c5 _ x0 x2 xR a4, p6 _ x0 x2 a5 a6 a7]

/-- What the capture sequence leaves in the data space: the snapshot in
`contextRegs`, and every word outside `contextRegs` as it was. -/
theorem capture_reads (S : Symbols) (hS : S.wellFormed) (m : Machine) :
    (∀ i, i < 16 → (capture S m).read (S.contextRegs + 2 * i) = m.read (2 * i))
      ∧ (capture S m).read (S.contextRegs + 32) = m.read S.RCOUNT
      ∧ (capture S m).read (S.contextRegs + 38) = m.read S.SR
      ∧ (S.DSRPAG ≠ 0 → (capture S m).read (S.contextRegs + 34) = m.read S.DSRPAG)
      ∧ (S.DSRPAG = 0 → S.PSVPAG ≠ 0 →
          (capture S m).read (S.contextRegs + 34) = m.read S.PSVPAG)
      ∧ (∀ x, x < S.contextRegs ∨ S.contextRegs + 40 ≤ x →
          (capture S m).read x = m.read x) := by
  obtain ⟨c1, c2, c3, c4, c5⟩ := captureLoop_reads S hS m
  obtain ⟨t1, t2, t3, t4, t5, t6, -, t8⟩ := captureTail_reads S hS
    (repeatNext S (step S (.movPostDec 1 0)) 13 (captureHead S m))
  unfold Symbols.wellFormed at hS
  obtain ⟨h1, h2, h3, h4, h5, h6, h7, h8, h9, -⟩ := hS
  rw [capture_eq]
  generalize repeatNext S (step S (.movPostDec 1 0)) 13 (captureHead S m) = m2
    at c1 c2 c3 c4 c5 t1 t2 t3 t4 t5 t6 t8
  generalize captureTail S m2 = m3 at t1 t2 t3 t4 t5 t6 t8
  have inner : ∀ x, S.contextRegs ≤ x → x < S.contextRegs + 34 → m3.read x = m2.read x := by
    intro x l1 l2
    have a1 : x ≠ 0 := by omega
    have a2 : x ≠ 2 := by omega
    have a3 : x ≠ S.RCOUNT := by omega
    have a4 : x ≠ S.contextRegs + 34 := by omega
    have a5 : x ≠ S.contextRegs + 36 := by omega
    have a6 : x ≠ S.contextRegs + 38 := by omega
    exact t8 x a1 a2 a3 a4 a5 a6
  refine ⟨?_, ?_, ?_, ?_, ?_, ?_⟩
  · intro i hi
    rw [inner _ (by omega) (by omega)]
    by_cases h0 : i = 0
    · subst h0; exact c2
    by_cases hi1 : i = 1
    · subst hi1; exact c3
    have e : S.contextRegs + 2 * i = S.contextRegs + 4 + 2 * (i - 2) := by omega
    have e2 : 2 * i = 4 + 2 * (i - 2) := by omega
    have e3 : i - 2 ≤ 13 := by omega
    rw [e, c1 (i - 2) e3, e2]
  · rw [inner _ (by omega) (by omega), c4]
  · have a1 : S.SR ≠ 0 := by omega
    have a2 : S.SR ≠ 2 := by omega
    rw [t4, c5 _ a1 a2 h7 h6]
  · intro hd
    rcases h9 with g | ⟨g1, g2, g3⟩
    · exact absurd g hd
    have a1 : S.DSRPAG ≠ 2 := by omega
    rw [t5 hd, c5 _ hd a1 g2 g3]
  · intro hd hp
    rcases h8 with g | ⟨g1, g2, g3⟩
    · exact absurd g hp
    have a1 : S.PSVPAG ≠ 2 := by omega
    rw [t6 hd hp, c5 _ hp a1 g2 g3]
  · intro x hx
    by_cases x0 : x = 0
    · subst x0; rw [t1, c2]
    by_cases x2 : x = 2
    · subst x2; rw [t2, c3]
    by_cases xR : x = S.RCOUNT
    · subst xR; rw [t3, c4]
    have a4 : x ≠ S.contextRegs + 34 := by omega
    have a5 : x ≠ S.contextRegs + 36 := by omega
    have a6 : x ≠ S.contextRegs + 38 := by omega
    rw [t8 _ x0 x2 xR a4 a5 a6, c5 _ x0 x2 xR hx]

/-- C2: run from any machine state, the capture sequence leaves in `contextRegs`
the sixteen working registers in their order (`w[i]` = entry Wi), the entry
RCOUNT in `rcount`, SR in `sr`, and in the shared `psvpag`/`dsrpag` slot the
register the device implements. -/
theorem capture_snapshot (S : Symbols) (hS : S.wellFormed) (m : Machine) :
    (∀ i, i < 16 → (capture S m).read (S.contextRegs + 2 * i) = m.read (2 * i))
      ∧ (capture S m).read (S.contextRegs + 32) = m.read S.RCOUNT
      ∧ (S.DSRPAG ≠ 0 → (capture S m).read (S.contextRegs + 34) = m.read S.DSRPAG)
      ∧ (S.DSRPAG = 0 → S.PSVPAG ≠ 0 →
          (capture S m).read (S.contextRegs + 34) = m.read S.PSVPAG)
      ∧ (capture S m).read (S.contextRegs + 38) = m.read S.SR
      ∧ (capture S m).read (S.contextRegs + 38) = (capture S m).read S.SR := by
  obtain ⟨a1, a2, a3, a4, a5, a6⟩ := capture_reads S hS m
  have hS1 := hS
  unfold Symbols.wellFormed at hS1
  refine ⟨a1, a2, a4, a5, a3, ?_⟩
  rw [a3, a6 S.SR hS1.2.2.2.2.2.1]

theorem capture_snapshot_witness :
    exampleSymbols.wellFormed
      ∧ (∀ i, i < 16 → (capture exampleSymbols exampleMachine).read
            (exampleSymbols.contextRegs + 2 * i) = exampleMachine.read (2 * i))
      ∧ (capture exampleSymbols exampleMachine).read (exampleSymbols.contextRegs + 30) = 0x0900 :=
  ⟨by decide, (capture_snapshot exampleSymbols (by decide) exampleMachine).1, by decide⟩

/-- C3: after the capture sequence W0, W1 and RCOUNT hold their entry values
again and W2..W15 are unchanged (nothing outside `contextRegs` has changed),
although after the repeated `mov` W0 held `contextRegs + 2`, W1 held 2 and
RCOUNT held 0. -/
theorem capture_restores (S : Symbols) (hS : S.wellFormed) (m : Machine) :
    (capture S m).read 0 = m.read 0 ∧ (capture S m).read 2 = m.read 2
      ∧ (capture S m).read S.RCOUNT = m.read S.RCOUNT
      ∧ (∀ i, 2 ≤ i → i < 16 → (capture S m).read (2 * i) = m.read (2 * i))
      ∧ (∀ x, x < S.contextRegs ∨ S.contextRegs + 40 ≤ x → (capture S m).read x = m.read x)
      ∧ capture S m
          = captureTail S (repeatNext S (step S (.movPostDec 1 0)) 13 (captureHead S m))
      ∧ (repeatNext S (step S (.movPostDec 1 0)) 13 (captureHead S m)).read 0
          = S.contextRegs + 2
      ∧ (repeatNext S (step S (.movPostDec 1 0)) 13 (captureHead S m)).read 2 = 2
      ∧ (repeatNext S (step S (.movPostDec 1 0)) 13 (captureHead S m)).read S.RCOUNT = 0 := by
  obtain ⟨-, -, -, -, -, a6⟩ := capture_reads S hS m
  obtain ⟨p1, p2, -⟩ := captureHead_reads S hS m
  have hS1 := hS
  unfold Symbols.wellFormed at hS1
  obtain ⟨h1, h2, h3, h4, -⟩ := hS1
  obtain ⟨c1, c2, c3, -, -⟩ := repeatNext_copy S h3 h1 h2 h4 13 (Nat.le_refl _)
    (captureHead S m) (by rw [p1]) (by rw [p2])
  refine ⟨a6 0 (by omega), a6 2 (by omega), a6 _ h4, ?_, a6, capture_eq S m, c2, c1, c3⟩
  intro i _ hi
  exact a6 _ (by omega)

theorem capture_restores_witness :
    exampleSymbols.wellFormed
      ∧ (capture exampleSymbols exampleMachine).read 0 = exampleMachine.read 0
      ∧ (capture exampleSymbols exampleMachine).read 2 = exampleMachine.read 2
      ∧ (capture exampleSymbols exampleMachine).read exampleSymbols.RCOUNT
          = exampleMachine.read exampleSymbols.RCOUNT :=
  ⟨by decide, (capture_restores exampleSymbols (by decide) exampleMachine).1,
    (capture_restores exampleSymbols (by decide) exampleMachine).2.1,
    (capture_restores exampleSymbols (by decide) exampleMachine).2.2.1⟩

/-! ## The register lines -/

theorem registerLines_unfold (S : Symbols) (mem : Nat → Nat) :
    registerLines S mem = (List.range 16).flatMap (fun i =>
      printReg S (adjustW15 S mem) (some (wName i)) (S.contextRegs + 2 * i)
        (DECIMAL ||| UNSIGNED)) := by
  rfl

theorem readWord_writeWord (mem : Nat → Nat) (a v x : Nat) :
    readWord (writeWord mem a v) x = if x = a then v % 65536 else readWord mem x := by
  by_cases h : x = a <;> simp [readWord, writeWord, h]

set_option maxRecDepth 1000000 in
/-- C1, as stated, fails for w15: with W15 = 0x0900 at fault entry the report has
no line `w15 0x0900`; the line reads `w15      0x08FC    2300`. -/
theorem registerLines_w15_not_entry_value :
    exampleMachine.read 30 = 0x0900
      ∧ (⟨"\n  %- 9s0x%04X", [.str "w15", .int 0x0900]⟩ : Printf)
          ∉ registerLines exampleSymbols (capture exampleSymbols exampleMachine).mem
      ∧ (⟨"\n  %- 9s0x%04X", [.str "w15", .int 0x08FC]⟩ : Printf)
          ∈ registerLines exampleSymbols (capture exampleSymbols exampleMachine).mem
      ∧ render (registerLines exampleSymbols (capture exampleSymbols exampleMachine).mem)
        = "\n  w0       0x1110    4368\n  w1       0x1111    4369\n  w2       0x1112    4370\n  w3       0x1113    4371\n  w4       0x1114    4372\n  w5       0x1115    4373\n  w6       0x1116    4374\n  w7       0x1117    4375\n  w8       0x1118    4376\n  w9       0x1119    4377\n  w10      0x111A    4378\n  w11      0x111B    4379\n  w12      0x111C    4380\n  w13      0x111D    4381\n  w14      0x111E    4382\n  w15      0x08FC    2300" := by
  refine ⟨by decide, by decide, by decide, by decide⟩

/-- C1, amended: whatever the machine state at fault entry, after the capture
sequence and the handler body (which finds `contextRegs` as captured), the
register lines are the sixteen `printReg` outputs for w0..w15 and the hex value
on line `wi` is the entry value of `Wi` for i = 0..14, and for w15 the entry
stack pointer less 4 (the exception frame the handler leaves out). -/
theorem registerLines_values (S : Symbols) (hS : S.wellFormed) (m : Machine)
    (mem : Nat → Nat)
    (hmem : ∀ i, i < 16 →
      readWord mem (S.contextRegs + 2 * i) = (capture S m).read (S.contextRegs + 2 * i)) :
    registerLines S mem = (List.range 16).flatMap (fun i =>
        headCall (some (wName i)) (S.contextRegs + 2 * i) (shownValue m i) ::
          (formatCalls (shownValue m i) (DECIMAL ||| UNSIGNED)
            ++ bitNameCalls S (S.contextRegs + 2 * i) (shownValue m i)))
      ∧ (∀ i, i < 15 → shownValue m i = m.read (2 * i))
      ∧ shownValue m 15 = (m.read 30 + 65536 - 4) % 65536
      ∧ (∀ i, (headCall (some (wName i)) (S.contextRegs + 2 * i) (shownValue m i)).text
          = ⟨nameField (some (wName i)) (S.contextRegs + 2 * i)
              ++ '0' :: 'x' :: hex4 (shownValue m i)⟩) := by
  obtain ⟨a1, -⟩ := capture_reads S hS m
  refine ⟨?_, ?_, ?_, fun i => headCall_text _ _ _⟩
  · rw [registerLines_unfold]
    apply List.flatMap_congr
    intro i hi
    have hi16 : i < 16 := List.mem_range.1 hi
    have hval : readWord (adjustW15 S mem) (S.contextRegs + 2 * i) = shownValue m i := by
      unfold adjustW15 shownValue
      rw [readWord_writeWord]
      by_cases h15 : i = 15
      · subst h15
        have := hmem 15 (by decide)
        simp only [Nat.reduceMul] at this
        rw [if_pos rfl, if_pos rfl, this, a1 15 (by decide)]
      · rw [if_neg (by omega), if_neg h15, hmem i hi16, a1 i hi16]
    simp only [printReg, hval]
  · intro i hi
    unfold shownValue
    rw [if_neg (by omega)]
  · rfl

theorem registerLines_values_witness :
    exampleSymbols.wellFormed
      ∧ (∀ i, i < 15 → shownValue exampleMachine i = exampleMachine.read (2 * i))
      ∧ shownValue exampleMachine 15 = 0x08FC :=
  ⟨by decide,
    (registerLines_values exampleSymbols (by decide) exampleMachine
      (capture exampleSymbols exampleMachine).mem (fun _ _ => rfl)).2.1, by decide⟩

/-! ## The flag row of the interrupt table -/

theorem prints_append (xs ys : List Event) : prints (xs ++ ys) = prints xs ++ prints ys := by
  induction xs with
  | nil => rfl
  | cons e es ih => cases e <;> simp [prints, ih]

theorem ptrDec_ptrAdd (p n : Nat) : ptrDec (ptrAdd p (n + 1)) = ptrAdd p n := by
  unfold ptrDec ptrAdd; omega

theorem ptrAdd_ptrAdd (p n k : Nat) : ptrAdd (ptrAdd p n) k = ptrAdd p (n + k) := by
  unfold ptrAdd; omega

theorem ptrAdd_mod (p n : Nat) : ptrAdd p (n % 65536) = ptrAdd p n := by
  unfold ptrAdd; omega

theorem ptrAdd_zero_mod (p : Nat) : ptrAdd p 0 % 65536 = ptrAdd p 0 := by
  unfold ptrAdd; omega

theorem flagBitsLoop_unfold (fl en : Nat) :
    flagBitsLoop fl en 16 0x8000
      = (List.range 16).map (fun b => Event.out (flagCall fl en (2 ^ (15 - b)))) := by
  rfl

/-- The trace of the IFS row from pointers at bank `n` of each array: for
k = 0..3 a read of flag bank `n + 3 - k` and one of enable bank `n + 3 - k`,
then the sixteen cells. -/
theorem ifsRow_unfold (mem : Nat → Nat) (pf pe n : Nat) :
    (ifsRow mem (ptrAdd pf n) (ptrAdd pe n)).1
      = Event.out ⟨"\n  IFS  ", []⟩ ::
        ((List.range 4).flatMap (fun k =>
          [Event.read (ptrAdd pf (n + (3 - k))), Event.read (ptrAdd pe (n + (3 - k)))]
            ++ (List.range 16).map (fun b => Event.out
                (flagCall (readWord mem (ptrAdd pf (n + (3 - k))))
                  (readWord mem (ptrAdd pe (n + (3 - k)))) (2 ^ (15 - b))))
            ++ (if k < 3 then [Event.out ⟨"   ", []⟩] else [])))
      ∧ (ifsRow mem (ptrAdd pf n) (ptrAdd pe n)).2.1 = ptrAdd pf (n + 4)
      ∧ (ifsRow mem (ptrAdd pf n) (ptrAdd pe n)).2.2 = ptrAdd pe n := by
  have d3 : ptrDec (ptrAdd (ptrAdd pf n) 4) = ptrAdd pf (n + 3) := by unfold ptrDec ptrAdd; omega
  have d2 : ptrDec (ptrAdd pf (n + 3)) = ptrAdd pf (n + 2) := by unfold ptrDec ptrAdd; omega
  have d1 : ptrDec (ptrAdd pf (n + 2)) = ptrAdd pf (n + 1) := by unfold ptrDec ptrAdd; omega
  have d0 : ptrDec (ptrAdd pf (n + 1)) = ptrAdd pf (n + 0) := by unfold ptrDec ptrAdd; omega
  have e3 : ptrDec (ptrAdd (ptrAdd pe n) 4) = ptrAdd pe (n + 3) := by unfold ptrDec ptrAdd; omega
  have e2 : ptrDec (ptrAdd pe (n + 3)) = ptrAdd pe (n + 2) := by unfold ptrDec ptrAdd; omega
  have e1 : ptrDec (ptrAdd pe (n + 2)) = ptrAdd pe (n + 1) := by unfold ptrDec ptrAdd; omega
  have e0 : ptrDec (ptrAdd pe (n + 1)) = ptrAdd pe (n + 0) := by unfold ptrDec ptrAdd; omega
  have f4 : ptrAdd (ptrAdd pf (n + 0)) 4 = ptrAdd pf (n + 4) := by unfold ptrAdd; omega
  simp only [ifsRow, ifsBanks, flagBitsLoop_unfold, d3, d2, d1, d0, e3, e2, e1, e0, f4]
  refine ⟨?_, ?_, ?_⟩
  · simp [List.range_succ, List.flatMap]
  · simp [ptrAdd_ptrAdd]
  · simp

theorem row_cell (c : Nat → Nat → Printf) (lead sep : Printf) (k b : Nat) (hk : k < 4)
    (hb : b < 16) :
    (lead :: (List.range 4).flatMap (fun k =>
        (List.range 16).map (c k) ++ (if k < 3 then [sep] else []))).get? (1 + 17 * k + b)
      = some (c k b) := by
  interval_cases k <;> interval_cases b <;> rfl

theorem prints_map_out (l : List Printf) : prints (l.map Event.out) = l := by
  induction l with
  | nil => rfl
  | cons p ps ih => simp [prints, ih]

theorem ifsRow_prints (mem : Nat → Nat) (pf pe n : Nat) :
    prints (ifsRow mem (ptrAdd pf n) (ptrAdd pe n)).1
      = ⟨"\n  IFS  ", []⟩ :: (List.range 4).flatMap (fun k =>
          (List.range 16).map (fun b =>
            flagCall (readWord mem (ptrAdd pf (n + (3 - k))))
              (readWord mem (ptrAdd pe (n + (3 - k)))) (2 ^ (15 - b)))
          ++ (if k < 3 then [⟨"   ", []⟩] else [])) := by
  rw [(ifsRow_unfold mem pf pe n).1]
  simp only [prints]
  congr 1

theorem flagCall_cases (fl en k : Nat) :
    (flagCall fl en (2 ^ k) = ⟨ANSI_RED ++ "1" ++ ANSI_CLR, []⟩
        ↔ fl.testBit k = true ∧ en.testBit k = true)
      ∧ (flagCall fl en (2 ^ k) = ⟨"1", []⟩ ↔ fl.testBit k = true ∧ en.testBit k = false)
      ∧ (flagCall fl en (2 ^ k) = ⟨"0", []⟩ ↔ fl.testBit k = false) := by
  unfold flagCall
  have hf := land_two_pow_ne_zero fl k
  have he := land_two_pow_ne_zero en k
  have n1 : (⟨ANSI_RED ++ "1" ++ ANSI_CLR, []⟩ : Printf) ≠ ⟨"1", []⟩ := by decide
  have n2 : (⟨ANSI_RED ++ "1" ++ ANSI_CLR, []⟩ : Printf) ≠ ⟨"0", []⟩ := by decide
  have n3 : (⟨"1", []⟩ : Printf) ≠ ⟨"0", []⟩ := by decide
  by_cases h1 : fl.testBit k = true <;> by_cases h2 : en.testBit k = true
  · rw [if_pos (hf.2 h1), if_pos (he.2 h2)]
    simp [h1, h2, n1, n2]
  · rw [if_pos (hf.2 h1), if_neg (fun h => h2 (he.1 h))]
    simp [h1, h2, n1.symm, n3]
  · rw [if_neg (fun h => h1 (hf.1 h))]
    simp [h1, h2, n2.symm, n3.symm]
  · rw [if_neg (fun h => h1 (hf.1 h))]
    simp [h1, h2, n2.symm, n3.symm]

theorem iecRow_ptr (mem : Nat → Nat) (pe n : Nat) :
    (iecRow mem (ptrAdd pe n)).2 = ptrAdd pe (n + 4) := by
  simp only [iecRow, iecBanks]
  simp only [Nat.reduceLT, if_true, Nat.reduceAdd]
  unfold ptrDec ptrAdd
  omega

theorem ipcRow_ptr (mem : Nat → Nat) (pp n : Nat) :
    (ipcRow mem (ptrAdd pp n)).2 = ptrAdd pp (n + 16) := by
  simp only [ipcRow, ipcBanks, ipcRead]
  simp only [Nat.reduceLT, if_true, Nat.reduceAdd]
  unfold ptrDec ptrAdd
  omega

/-- One iteration of the table loop from pointers at bank `i` of the flag and
enable arrays and register `4 * i` of the priority array: it leaves them at
bank `i + 4` and register `4 * (i + 4)`. -/
theorem tableLoop_step (S : Symbols) (mem : Nat → Nat) (fuel i : Nat)
    (hi : i < bankDistance S) :
    tableLoop S mem (fuel + 1) i (ptrAdd S.IFS0 i) (ptrAdd S.IEC0 i) (ptrAdd S.IPC0 (4 * i))
      = [Event.out ⟨"\n\n       ", []⟩] ++ headerCols i 3
          ++ (ifsRow mem (ptrAdd S.IFS0 i) (ptrAdd S.IEC0 i)).1
          ++ (iecRow mem (ptrAdd S.IEC0 i)).1
          ++ (ipcRow mem (ptrAdd S.IPC0 (4 * i))).1 ++ [Event.out ⟨"\n", []⟩]
          ++ tableLoop S mem fuel ((i + 4) % 65536) (ptrAdd S.IFS0 ((i + 4) % 65536))
              (ptrAdd S.IEC0 ((i + 4) % 65536)) (ptrAdd S.IPC0 (4 * ((i + 4) % 65536))) := by
  have h21 := (ifsRow_unfold mem S.IFS0 S.IEC0 i).2.1
  have h22 := (ifsRow_unfold mem S.IFS0 S.IEC0 i).2.2
  have e1 : ptrAdd S.IFS0 (i + 4) = ptrAdd S.IFS0 ((i + 4) % 65536) := (ptrAdd_mod _ _).symm
  have e2 : ptrAdd S.IEC0 (i + 4) = ptrAdd S.IEC0 ((i + 4) % 65536) := (ptrAdd_mod _ _).symm
  have e3 : ptrAdd S.IPC0 (4 * i + 16) = ptrAdd S.IPC0 (4 * ((i + 4) % 65536)) := by
    unfold ptrAdd; omega
  have hp := ipcRow_ptr mem S.IPC0 (4 * i)
  have he := iecRow_ptr mem S.IEC0 i
  rw [tableLoop, if_pos hi]
  simp only []
  generalize ifsRow mem (ptrAdd S.IFS0 i) (ptrAdd S.IEC0 i) = r1 at h21 h22 ⊢
  rw [h22, h21]
  generalize iecRow mem (ptrAdd S.IEC0 i) = r2 at he ⊢
  generalize ipcRow mem (ptrAdd S.IPC0 (4 * i)) = r3 at hp ⊢
  rw [he, hp, e1, e2, e3]

theorem ifsRow_ptrAdd_zero (mem : Nat → Nat) (pf pe : Nat) :
    ifsRow mem (ptrAdd pf 0) (ptrAdd pe 0) = ifsRow mem pf pe := by
  simp only [ifsRow, ptrAdd_ptrAdd, Nat.zero_add]

theorem ipcRow_ptrAdd_zero (mem : Nat → Nat) (pp : Nat) :
    ipcRow mem (ptrAdd pp 0) = ipcRow mem pp := by
  simp only [ipcRow, ptrAdd_ptrAdd, Nat.zero_add]

/-- The table loop is entered with the three pointers at bank 0 and register 0. -/
theorem interruptTable_start (S : Symbols) (mem : Nat → Nat) :
    interruptTable S mem
      = Event.out ⟨"\n\nInterrupt SFRs (red indicates flag and enable set):", []⟩
          :: tableLoop S mem (bankDistance S) 0 (ptrAdd S.IFS0 0) (ptrAdd S.IEC0 0)
              (ptrAdd S.IPC0 (4 * 0)) := by
  unfold interruptTable
  congr 1
  cases bankDistance S with
  | zero => rfl
  | succ n =>
    simp only [tableLoop, ifsRow_ptrAdd_zero, ipcRow_ptrAdd_zero, Nat.mul_zero]

/-- C10: in the flag row of the bank group starting at bank `i`, the cell for
column `k` (bank `i + 3 - k`) and position `b` (bit `15 - b`) is the red `1`
if and only if the bit is set in both the flag register and the enable register
of that same bank, the plain `1` if and only if it is set in the flag register
only, and `0` if and only if the flag bit is clear; the row reads the flag and
the enable register of each bank in step, the table loop starting at bank 0 and
advancing both pointers by four banks per group. -/
theorem flag_row_cells (S : Symbols) (mem : Nat → Nat) (fuel i k b : Nat)
    (hi : i < bankDistance S) (hk : k < 4) (hb : b < 16) :
    interruptTable S mem
        = Event.out ⟨"\n\nInterrupt SFRs (red indicates flag and enable set):", []⟩
            :: tableLoop S mem (bankDistance S) 0 (ptrAdd S.IFS0 0) (ptrAdd S.IEC0 0)
                (ptrAdd S.IPC0 (4 * 0))
      ∧ tableLoop S mem (fuel + 1) i (ptrAdd S.IFS0 i) (ptrAdd S.IEC0 i) (ptrAdd S.IPC0 (4 * i))
        = [Event.out ⟨"\n\n       ", []⟩] ++ headerCols i 3
          ++ (ifsRow mem (ptrAdd S.IFS0 i) (ptrAdd S.IEC0 i)).1
          ++ (iecRow mem (ptrAdd S.IEC0 i)).1
          ++ (ipcRow mem (ptrAdd S.IPC0 (4 * i))).1 ++ [Event.out ⟨"\n", []⟩]
          ++ tableLoop S mem fuel ((i + 4) % 65536) (ptrAdd S.IFS0 ((i + 4) % 65536))
              (ptrAdd S.IEC0 ((i + 4) % 65536)) (ptrAdd S.IPC0 (4 * ((i + 4) % 65536)))
      ∧ (∃ cell, (prints (ifsRow mem (ptrAdd S.IFS0 i) (ptrAdd S.IEC0 i)).1).get?
            (1 + 17 * k + b) = some cell
          ∧ (cell = ⟨ANSI_RED ++ "1" ++ ANSI_CLR, []⟩
              ↔ (readWord mem (ptrAdd S.IFS0 (i + (3 - k)))).testBit (15 - b) = true
                ∧ (readWord mem (ptrAdd S.IEC0 (i + (3 - k)))).testBit (15 - b) = true)
          ∧ (cell = ⟨"1", []⟩
              ↔ (readWord mem (ptrAdd S.IFS0 (i + (3 - k)))).testBit (15 - b) = true
                ∧ (readWord mem (ptrAdd S.IEC0 (i + (3 - k)))).testBit (15 - b) = false)
          ∧ (cell = ⟨"0", []⟩
              ↔ (readWord mem (ptrAdd S.IFS0 (i + (3 - k)))).testBit (15 - b) = false))
      ∧ reads (ifsRow mem (ptrAdd S.IFS0 i) (ptrAdd S.IEC0 i)).1
          = (List.range 4).flatMap (fun k =>
              [ptrAdd S.IFS0 (i + (3 - k)), ptrAdd S.IEC0 (i + (3 - k))])
      ∧ (ANSI_RED ++ "1" ++ ANSI_CLR).data
          = [Char.ofNat 27, '[', '3', '1', 'm', '1', Char.ofNat 27, '[', '0', 'm'] := by
  refine ⟨interruptTable_start S mem, tableLoop_step S mem fuel i hi, ?_, ?_, by decide⟩
  · refine ⟨_, ?_, flagCall_cases _ _ (15 - b)⟩
    rw [ifsRow_prints]
    exact row_cell (fun k b => flagCall (readWord mem (ptrAdd S.IFS0 (i + (3 - k))))
      (readWord mem (ptrAdd S.IEC0 (i + (3 - k)))) (2 ^ (15 - b))) _ _ k b hk hb
  · rw [(ifsRow_unfold mem S.IFS0 S.IEC0 i).1]
    rfl

theorem flag_row_cells_witness :
    0 < bankDistance exampleSymbols ∧ 3 < 4 ∧ 0 < 16
      ∧ (∃ cell, (prints (ifsRow exampleFlags (ptrAdd exampleSymbols.IFS0 0)
            (ptrAdd exampleSymbols.IEC0 0)).1).get? (1 + 17 * 3 + 0) = some cell
          ∧ (cell = ⟨ANSI_RED ++ "1" ++ ANSI_CLR, []⟩
              ↔ (readWord exampleFlags (ptrAdd exampleSymbols.IFS0 (0 + (3 - 3)))).testBit
                  (15 - 0) = true
                ∧ (readWord exampleFlags (ptrAdd exampleSymbols.IEC0 (0 + (3 - 3)))).testBit
                  (15 - 0) = true)
          ∧ (cell = ⟨"1", []⟩
              ↔ (readWord exampleFlags (ptrAdd exampleSymbols.IFS0 (0 + (3 - 3)))).testBit
                  (15 - 0) = true
                ∧ (readWord exampleFlags (ptrAdd exampleSymbols.IEC0 (0 + (3 - 3)))).testBit
                  (15 - 0) = false)
          ∧ (cell = ⟨"0", []⟩
              ↔ (readWord exampleFlags (ptrAdd exampleSymbols.IFS0 (0 + (3 - 3)))).testBit
                  (15 - 0) = false))
      ∧ render (prints (ifsRow exampleFlags 0x0084 0x0094).1)
          = "\n  IFS  0000000000000000   0000000000000000   0000000000000000   \x1b[31m1\x1b[0m000000000000001" :=
  ⟨by decide, by decide, by decide,
    (flag_row_cells exampleSymbols exampleFlags 0 0 3 0 (by decide) (by decide)
      (by decide)).2.2.1,
    by decide⟩

/-! ## The trap return address -/

theorem readByte_lt (mem : Nat → Nat) (a : Nat) : readByte mem a < 256 := by
  unfold readByte
  have := readWord_lt mem a
  have := readWord_lt mem (a - 1)
  split <;> omega

theorem EZBL_RAMCopy_lt (mem : Nat → Nat) (src : Nat) : EZBL_RAMCopy mem src < 4294967296 := by
  unfold EZBL_RAMCopy
  have := readByte_lt mem (src % 65536)
  have := readByte_lt mem ((src + 1) % 65536)
  have := readByte_lt mem ((src + 2) % 65536)
  have := readByte_lt mem ((src + 3) % 65536)
  omega

/-- From an even address the copy is the two words, low word first. -/
theorem EZBL_RAMCopy_even (mem : Nat → Nat) (src : Nat) (h : src % 2 = 0) :
    EZBL_RAMCopy mem src
      = readWord mem (src % 65536) + 65536 * readWord mem ((src + 2) % 65536) := by
  unfold EZBL_RAMCopy readByte
  have e0 : src % 65536 % 2 = 0 := by omega
  have e1 : ¬ ((src + 1) % 65536 % 2 = 0) := by omega
  have e2 : (src + 2) % 65536 % 2 = 0 := by omega
  have e3 : ¬ ((src + 3) % 65536 % 2 = 0) := by omega
  have a1 : (src + 1) % 65536 - 1 = src % 65536 := by omega
  have a3 : (src + 3) % 65536 - 1 = (src + 2) % 65536 := by omega
  rw [if_pos e0, if_neg e1, if_pos e2, if_neg e3, a1, a3]
  have := readWord_lt mem (src % 65536)
  have := readWord_lt mem ((src + 2) % 65536)
  omega

theorem retSFA_eq (r : Nat) : retSFA r = r % 2 := by
  unfold retSFA
  rw [Nat.and_one_is_mod]
  omega

theorem retSR_eq (r : Nat) (hr : r < 4294967296) : retSR r = r / 16777216 := by
  unfold retSR
  omega

theorem land_128 (b : Nat) (hb : b < 256) : (b &&& 0x80) >>> 4 = 8 * (b / 128) := by
  have h := Nat.and_two_pow b 7
  rw [show (2 : Nat) ^ 7 = 0x80 from rfl] at h
  rw [h, Nat.shiftRight_eq_div_pow, Nat.testBit_to_div_mod]
  have : b / 2 ^ 7 = b / 128 := rfl
  rw [this]
  by_cases hc : b / 128 % 2 = 1
  · simp [hc]; omega
  · simp [hc]; omega

theorem retIPL_eq (r : Nat) (hr : r < 4294967296) :
    retIPL r = 8 * (r / 8388608 % 2) + r / 536870912 := by
  unfold retIPL
  rw [land_128 _ (Nat.mod_lt _ (by decide)), retSR_eq r hr, Nat.shiftRight_eq_div_pow]
  have hs : r / 16777216 / 2 ^ 5 < 2 ^ 3 := by
    have : r / 16777216 / 2 ^ 5 = r / 536870912 := by
      rw [Nat.div_div_eq_div_mul]; rfl
    rw [this]
    have : (2 : Nat) ^ 3 = 8 := rfl
    omega
  have h := Nat.mul_add_lt_is_or hs (r / 65536 % 256 / 128)
  rw [show (2 : Nat) ^ 3 = 8 from rfl] at h
  rw [← h]
  have : r / 16777216 / 2 ^ 5 = r / 536870912 := by
    rw [Nat.div_div_eq_div_mul]; rfl
  rw [this]
  omega

theorem mask_testBit (i : Nat) : (0x007FFFFE : Nat).testBit i = decide (1 ≤ i ∧ i < 23) := by
  cases i with
  | zero => decide
  | succ i =>
    rw [Nat.testBit_succ]
    have : (0x007FFFFE : Nat) / 2 = 2 ^ 22 - 1 := by decide
    rw [this, Nat.testBit_two_pow_sub_one]
    by_cases h : i < 22 <;> simp [h] <;> omega

theorem maskRetAddr_eq (r : Nat) : maskRetAddr r = 2 * (r / 2 % 4194304) := by
  unfold maskRetAddr
  apply Nat.eq_of_testBit_eq
  intro i
  rw [Nat.testBit_and, mask_testBit]
  cases i with
  | zero => simp [Nat.testBit_zero]
  | succ i =>
    rw [Nat.testBit_succ r, Nat.testBit_succ (2 * _)]
    have e : 2 * (r / 2 % 4194304) / 2 = r / 2 % 2 ^ 22 := by
      have : (2 : Nat) ^ 22 = 4194304 := by decide
      omega
    rw [e, Nat.testBit_mod_two_pow]
    by_cases h : i < 22
    · have : 1 ≤ i + 1 ∧ i + 1 < 23 := by omega
      simp [h, this]
    · have : ¬ (1 ≤ i + 1 ∧ i + 1 < 23) := by omega
      simp [h, this]
      intro _; omega

/-- The decoded fields determine the stacked word. -/
theorem rebuild_word (r : Nat) (hr : r < 4294967296) :
    r = maskRetAddr r + retSFA r + 8388608 * (retIPL r / 8) + 16777216 * retSR r := by
  rw [maskRetAddr_eq, retSFA_eq, retIPL_eq r hr, retSR_eq r hr]
  omega

/-- Masking recovers an even address below `2^23` from the word that carries it
with the SFA bit, the IPL3 bit and the SR byte. -/
theorem maskRetAddr_compose (addr sfa ipl3 sr : Nat) (h0 : addr % 2 = 0) (h1 : addr < 8388608)
    (h2 : sfa ≤ 1) (_h3 : ipl3 ≤ 1) (_h4 : sr < 256) :
    maskRetAddr (addr + sfa + 8388608 * ipl3 + 16777216 * sr) = addr := by
  rw [maskRetAddr_eq]
  omega

/-! ## The handler trace -/

theorem all_ofEvents (es : List Event) : (ofEvents es).all Op.isPlain = true := by
  induction es with
  | nil => rfl
  | cons e es ih => cases e <;> simpa [ofEvents, Op.isPlain] using ih

theorem all_map_out (ps : List Printf) : (ps.map Op.out).all Op.isPlain = true := by
  induction ps with
  | nil => rfl
  | cons p ps ih =>
    simp only [List.map_cons, List.all_cons, Op.isPlain, Bool.true_and]
    exact ih

theorem all_sfrLine (S : Symbols) (mem : Nat → Nat) (nm : String) (reg f : Nat) :
    (sfrLine S mem nm reg f).all Op.isPlain = true := by
  unfold sfrLine
  rw [List.all_cons, all_map_out]
  rfl

theorem all_ctxLine (S : Symbols) (mem : Nat → Nat) (nm : String) (reg f : Nat) :
    (ctxLine S mem nm reg f).all Op.isPlain = true := all_map_out _

theorem all_specialLines (H : HandlerSymbols) (mem : Nat → Nat) :
    (specialLines H mem).all Op.isPlain = true := by
  unfold specialLines
  simp only [List.all_append, all_sfrLine, all_ctxLine, Bool.and_self, Bool.true_and]
  split
  · exact all_ctxLine _ _ _ _ _
  · rfl

theorem all_dspSection (H : HandlerSymbols) (mem : Nat → Nat) :
    (dspSection H mem).all Op.isPlain = true := by
  unfold dspSection
  split <;> rfl

theorem all_ctxtstatLine (H : HandlerSymbols) (mem : Nat → Nat) :
    (ctxtstatLine H mem).all Op.isPlain = true := by
  unfold ctxtstatLine
  split
  · exact all_sfrLine _ _ _ _ _
  · rfl

theorem all_frameLines (S : Symbols) (mem : Nat → Nat) (r : Nat) :
    (frameLines S mem r).all Op.isPlain = true := by
  unfold frameLines
  split <;> rfl

/-- The report part of the handler makes no flush, nop, breakpoint or return. -/
theorem all_reportOps (H : HandlerSymbols) (flash : Nat → Nat) (mem : Nat → Nat) :
    (reportOps H flash mem).all Op.isPlain = true := by
  unfold reportOps
  simp only [List.all_append, all_map_out, all_specialLines, all_dspSection, all_ctxtstatLine,
    all_frameLines, all_ofEvents, Bool.and_self, Bool.true_and, Bool.and_true]
  rfl

theorem handler_trace (H : HandlerSymbols) (flash : Nat → Nat) (mem : Nat → Nat) :
    (EZBL_TrapHandler H flash mem).1 = reportOps H flash mem ++ policyStep H := rfl

theorem mem_of_all_plain {l : List Op} (h : l.all Op.isPlain = true) {o : Op} (ho : o ∈ l) :
    o.isPlain = true := by
  rw [List.all_eq_true] at h
  exact h o ho

theorem policyStep_debug (H : HandlerSymbols) (h : EZBL_WeakSYM H._DEBUG ≠ 0) :
    policyStep H = [.out ⟨"\nAttempting to return from trap handler...", []⟩, .flush,
      .out ⟨"\nOn second thought, you are in debug mode, so let's halt instead.", []⟩,
      .flush, .nop, .breakpoint, .nop, .nop, .ret] := by
  unfold policyStep
  rw [if_pos h]
  rfl

theorem policyStep_release (H : HandlerSymbols) (h : EZBL_WeakSYM H._DEBUG = 0) :
    policyStep H = [.out ⟨"\nAttempting to return from trap handler...", []⟩, .flush, .ret] := by
  unfold policyStep
  rw [if_neg (by simpa using h)]
  rfl

theorem EZBL_WeakSYM_ne_zero (sym : Option Nat) :
    EZBL_WeakSYM sym ≠ 0 ↔ ∃ v, sym = some v ∧ v ≠ 0 := by
  cases sym with
  | none => simp [EZBL_WeakSYM]
  | some v => simp [EZBL_WeakSYM]

/-- C13: the handler executes the software breakpoint, and prints the debug-mode
notice, if and only if the `_DEBUG` symbol is linked and non-zero; when it is
absent or zero the policy step is the announcement, the flush and the return,
with no breakpoint; in both cases the trace ends with the return. -/
theorem halt_iff_debug (H : HandlerSymbols) (flash : Nat → Nat) (mem : Nat → Nat) :
    (Op.breakpoint ∈ (EZBL_TrapHandler H flash mem).1 ↔ ∃ v, H._DEBUG = some v ∧ v ≠ 0)
      ∧ (Op.out ⟨"\nOn second thought, you are in debug mode, so let's halt instead.", []⟩
            ∈ policyStep H ↔ ∃ v, H._DEBUG = some v ∧ v ≠ 0)
      ∧ ((H._DEBUG = none ∨ H._DEBUG = some 0) →
          (EZBL_TrapHandler H flash mem).1 = reportOps H flash mem
            ++ [.out ⟨"\nAttempting to return from trap handler...", []⟩, .flush, .ret]
          ∧ Op.breakpoint ∉ (EZBL_TrapHandler H flash mem).1)
      ∧ ((∃ v, H._DEBUG = some v ∧ v ≠ 0) →
          (EZBL_TrapHandler H flash mem).1 = reportOps H flash mem
            ++ [.out ⟨"\nAttempting to return from trap handler...", []⟩, .flush,
                .out ⟨"\nOn second thought, you are in debug mode, so let's halt instead.", []⟩,
                .flush, .nop, .breakpoint, .nop, .nop, .ret])
      ∧ (EZBL_TrapHandler H flash mem).1.getLast? = some Op.ret := by
  have hbody : Op.breakpoint ∉ reportOps H flash mem := by
    intro hc
    have := mem_of_all_plain (all_reportOps H flash mem) hc
    cases this
  have hiff : Op.breakpoint ∈ (EZBL_TrapHandler H flash mem).1 ↔ EZBL_WeakSYM H._DEBUG ≠ 0 := by
    rw [handler_trace, List.mem_append]
    by_cases h : EZBL_WeakSYM H._DEBUG ≠ 0
    · rw [policyStep_debug H h]; simp [h]
    · rw [policyStep_release H (by simpa using h)]; simp [h, hbody]
  refine ⟨hiff.trans (EZBL_WeakSYM_ne_zero _), ?_, ?_, ?_, ?_⟩
  · rw [← EZBL_WeakSYM_ne_zero]
    by_cases h : EZBL_WeakSYM H._DEBUG ≠ 0
    · rw [policyStep_debug H h]; simp [h]
    · rw [policyStep_release H (by simpa using h)]; simp [h]
  · intro h
    have h0 : EZBL_WeakSYM H._DEBUG = 0 := by
      rcases h with h | h <;> rw [h] <;> rfl
    refine ⟨by rw [handler_trace, policyStep_release H h0], ?_⟩
    rw [hiff]; simp [h0]
  · intro h
    rw [handler_trace, policyStep_debug H ((EZBL_WeakSYM_ne_zero _).2 h)]
  · rw [handler_trace]
    unfold policyStep
    rw [← List.append_assoc]
    exact List.getLast?_concat _

/-! ## Flushing before the handler stops -/

theorem unflushedAtStop_plain (l rest : List Op) (h : l.all Op.isPlain = true) (p : Bool) :
    ∃ q, unflushedAtStop (l ++ rest) p = unflushedAtStop rest q := by
  induction l generalizing p with
  | nil => exact ⟨p, rfl⟩
  | cons o l ih =>
    rw [List.all_cons, Bool.and_eq_true] at h
    obtain ⟨q, hq⟩ := ih h.2 (p || o.isText)
    refine ⟨q, ?_⟩
    rw [← hq]
    cases o <;> first | rfl | (simp [Op.isPlain] at h)

theorem getElem?_append_add (l p : List Op) (m : Nat) : (l ++ p)[l.length + m]? = p[m]? := by
  rw [List.getElem?_append_right (Nat.le_add_right _ _), Nat.add_sub_cancel_left]

/-- In a trace made of operations without flush or stop followed by the policy
step, a flush lies between any text emission and any later stop. -/
theorem flush_between (l : List Op) (hl : l.all Op.isPlain = true) (a b : Printf)
    (p : List Op)
    (hp : p = [.out a, .flush, .ret]
      ∨ p = [.out a, .flush, .out b, .flush, .nop, .breakpoint, .nop, .nop, .ret])
    (i j : Nat) (t o : Op) (hij : i < j) (hi : (l ++ p)[i]? = some t) (ht : t.isText = true)
    (hj : (l ++ p)[j]? = some o) (ho : o.isStop = true) :
    ∃ k, i < k ∧ k < j ∧ (l ++ p)[k]? = some Op.flush := by
  have hn : l.length ≤ j := by
    by_contra hc
    have hc1 : j < l.length := Nat.lt_of_not_le hc
    rw [List.getElem?_append_left hc1] at hj
    have := mem_of_all_plain hl (List.getElem?_mem hj)
    cases o <;> simp [Op.isStop, Op.isPlain] at ho this
  obtain ⟨j1, rfl⟩ := Nat.exists_eq_add_of_le hn
  rw [getElem?_append_add] at hj
  by_cases hil : i < l.length
  · rcases hp with rfl | rfl
    · refine ⟨l.length + 1, by omega, ?_, by rw [getElem?_append_add]; rfl⟩
      rcases j1 with _ | _ | j1
      · simp at hj; subst hj; simp [Op.isStop] at ho
      · simp at hj; subst hj; simp [Op.isStop] at ho
      · omega
    · refine ⟨l.length + 3, by omega, ?_, by rw [getElem?_append_add]; rfl⟩
      rcases j1 with _ | _ | _ | _ | j1
      · simp at hj; subst hj; simp [Op.isStop] at ho
      · simp at hj; subst hj; simp [Op.isStop] at ho
      · simp at hj; subst hj; simp [Op.isStop] at ho
      · simp at hj; subst hj; simp [Op.isStop] at ho
      · omega
  · obtain ⟨i1, rfl⟩ := Nat.exists_eq_add_of_le (Nat.le_of_not_lt hil)
    rw [getElem?_append_add] at hi
    have hlt : i1 < j1 := by omega
    rcases hp with rfl | rfl
    · refine ⟨l.length + 1, ?_, ?_, by rw [getElem?_append_add]; rfl⟩
      · rcases i1 with _ | _ | _ | i1
        · omega
        · simp at hi; subst hi; simp [Op.isText] at ht
        · simp at hi; subst hi; simp [Op.isText] at ht
        · simp at hi
      · rcases j1 with _ | _ | j1
        · simp at hj; subst hj; simp [Op.isStop] at ho
        · simp at hj; subst hj; simp [Op.isStop] at ho
        · omega
    · refine ⟨l.length + 3, ?_, ?_, by rw [getElem?_append_add]; rfl⟩
      · rcases i1 with _ | _ | _ | _ | _ | _ | _ | _ | _ | i1
        · omega
        · simp at hi; subst hi; simp [Op.isText] at ht
        · omega
        · simp at hi; subst hi; simp [Op.isText] at ht
        · simp at hi; subst hi; simp [Op.isText] at ht
        · simp at hi; subst hi; simp [Op.isText] at ht
        · simp at hi; subst hi; simp [Op.isText] at ht
        · simp at hi; subst hi; simp [Op.isText] at ht
        · simp at hi; subst hi; simp [Op.isText] at ht
        · simp at hi
      · rcases j1 with _ | _ | _ | _ | j1
        · simp at hj; subst hj; simp [Op.isStop] at ho
        · simp at hj; subst hj; simp [Op.isStop] at ho
        · simp at hj; subst hj; simp [Op.isStop] at ho
        · simp at hj; subst hj; simp [Op.isStop] at ho
        · omega

theorem policyStep_cases (H : HandlerSymbols) :
    policyStep H = [.out ⟨"\nAttempting to return from trap handler...", []⟩, .flush, .ret]
      ∨ policyStep H = [.out ⟨"\nAttempting to return from trap handler...", []⟩, .flush,
          .out ⟨"\nOn second thought, you are in debug mode, so let's halt instead.", []⟩,
          .flush, .nop, .breakpoint, .nop, .nop, .ret] := by
  by_cases h : EZBL_WeakSYM H._DEBUG ≠ 0
  · exact Or.inr (policyStep_debug H h)
  · exact Or.inl (policyStep_release H (by simpa using h))

/-- C16: on both paths of the handler (debug indicator set or not) a flush lies
between every text emission and every later breakpoint or return, so the scan
never reaches a stop with text pending; the last flush is followed by no text
emission, only by nops, the breakpoint and the return; the trace ends with the
return. -/
theorem flushed_before_stop (H : HandlerSymbols) (flash : Nat → Nat) (mem : Nat → Nat) :
    (∀ (i j : Nat) (t o : Op), i < j → (EZBL_TrapHandler H flash mem).1[i]? = some t →
        t.isText = true → (EZBL_TrapHandler H flash mem).1[j]? = some o → o.isStop = true →
        ∃ k, i < k ∧ k < j ∧ (EZBL_TrapHandler H flash mem).1[k]? = some Op.flush)
      ∧ unflushedAtStop (EZBL_TrapHandler H flash mem).1 false = false
      ∧ (∃ pre post, (EZBL_TrapHandler H flash mem).1 = pre ++ [Op.flush] ++ post
          ∧ (post = [.ret] ∨ post = [.nop, .breakpoint, .nop, .nop, .ret])
          ∧ post.all (fun o => !o.isText && o != Op.flush) = true)
      ∧ (EZBL_TrapHandler H flash mem).1.getLast? = some Op.ret := by
  have hall := all_reportOps H flash mem
  have htr := handler_trace H flash mem
  have hpol := policyStep_cases H
  generalize (EZBL_TrapHandler H flash mem).1 = tr at htr ⊢
  generalize reportOps H flash mem = l at hall htr
  generalize policyStep H = p at hpol htr
  subst htr
  refine ⟨?_, ?_, ?_, ?_⟩
  · intro i j t o hij hi ht hj ho
    exact flush_between _ hall _ _ _ hpol i j t o hij hi ht hj ho
  · obtain ⟨q, hq⟩ := unflushedAtStop_plain _ p hall false
    rw [hq]
    rcases hpol with h | h <;> rw [h] <;> cases q <;> rfl
  · rcases hpol with h | h
    · refine ⟨l ++ [.out ⟨"\nAttempting to return from trap handler...", []⟩], [.ret], ?_,
        Or.inl rfl, by decide⟩
      rw [h]; simp
    · refine ⟨l ++ [.out ⟨"\nAttempting to return from trap handler...", []⟩, .flush,
            .out ⟨"\nOn second thought, you are in debug mode, so let's halt instead.", []⟩],
        [.nop, .breakpoint, .nop, .nop, .ret], ?_, Or.inr rfl, by decide⟩
      rw [h]; simp
  · rcases hpol with h | h <;> rw [h] <;> simp

/-! ## The trap return address line -/

theorem adjustW15_w15 (S : Symbols) (mem : Nat → Nat) :
    readWord (adjustW15 S mem) (S.contextRegs + 30)
      = (readWord mem (S.contextRegs + 30) + 65536 - 4) % 65536 := by
  unfold adjustW15
  rw [readWord_writeWord, if_pos rfl]

theorem trapLine_mem (H : HandlerSymbols) (flash : Nat → Nat) (mem : Nat → Nat) :
    Op.out (trapLine (stackWord H.toSymbols mem)) ∈ (EZBL_TrapHandler H flash mem).1 := by
  rw [handler_trace]
  unfold reportOps stackWord
  simp only [List.mem_append, List.mem_singleton, true_or, or_true]

/-- C12: the trap return address the handler prints is the 32-bit little-endian
word found at (captured w15 - 4), ANDed with 0x007FFFFE; when that word carries
an even program address below 2^23 together with an SFA bit, an IPL3 bit and
an SR byte, the line shows that address. -/
theorem trap_return_address (H : HandlerSymbols) (flash : Nat → Nat) (mem : Nat → Nat) :
    Op.out (trapLine (stackWord H.toSymbols mem)) ∈ (EZBL_TrapHandler H flash mem).1
      ∧ (trapLine (stackWord H.toSymbols mem)).args.head?
          = some (Arg.long (stackWord H.toSymbols mem &&& 0x007FFFFE))
      ∧ stackWord H.toSymbols mem
          = EZBL_RAMCopy (adjustW15 H.toSymbols mem)
              ((readWord mem (H.contextRegs + 30) + 65536 - 4) % 65536)
      ∧ (readWord mem (H.contextRegs + 30) % 2 = 0 →
          stackWord H.toSymbols mem
            = readWord (adjustW15 H.toSymbols mem)
                ((readWord mem (H.contextRegs + 30) + 65536 - 4) % 65536)
              + 65536 * readWord (adjustW15 H.toSymbols mem)
                ((readWord mem (H.contextRegs + 30) + 65536 - 2) % 65536))
      ∧ (∀ addr sfa ipl3 sr : Nat, addr % 2 = 0 → addr < 8388608 → sfa ≤ 1 → ipl3 ≤ 1 →
          sr < 256 →
          stackWord H.toSymbols mem = addr + sfa + 8388608 * ipl3 + 16777216 * sr →
          (trapLine (stackWord H.toSymbols mem)).args.head? = some (Arg.long addr)) := by
  have hw := adjustW15_w15 H.toSymbols mem
  refine ⟨trapLine_mem H flash mem, rfl, ?_, ?_, ?_⟩
  · unfold stackWord; rw [hw]
  · intro hev
    unfold stackWord
    rw [hw, EZBL_RAMCopy_even _ _ (by omega)]
    have e1 : (readWord mem (H.contextRegs + 30) + 65536 - 4) % 65536 % 65536
        = (readWord mem (H.contextRegs + 30) + 65536 - 4) % 65536 := Nat.mod_mod _ _
    have e2 : ((readWord mem (H.contextRegs + 30) + 65536 - 4) % 65536 + 2) % 65536
        = (readWord mem (H.contextRegs + 30) + 65536 - 2) % 65536 := by omega
    rw [e1, e2]
  · intro addr sfa ipl3 sr h0 h1 h2 h3 h4 hr
    have := maskRetAddr_compose addr sfa ipl3 sr h0 h1 h2 h3 h4
    rw [← hr] at this
    show some (Arg.long (maskRetAddr (stackWord H.toSymbols mem))) = _
    rw [this]

/-- C19: for the 32-bit word `r` fetched from the stack at (captured w15 - 4) the
trap line prints SFA = bit 0 of `r`, SR<7:0> = bits 31..24, IPL = 8 * bit 23
+ bits 31..29 (so IPL is below 16) and the return address = bits 22..1 in
place; these fields rebuild `r`. -/
theorem trap_line_fields (H : HandlerSymbols) (flash : Nat → Nat) (mem : Nat → Nat) :
    stackWord H.toSymbols mem < 4294967296
      ∧ Op.out ⟨"\n\nTrap return address: 0x%06lX (SFA = %X, IPL = %X, SR<7:0> = 0x%02X)",
          [.long (maskRetAddr (stackWord H.toSymbols mem)),
           .int (retSFA (stackWord H.toSymbols mem)),
           .int (retIPL (stackWord H.toSymbols mem)),
           .int (retSR (stackWord H.toSymbols mem))]⟩ ∈ (EZBL_TrapHandler H flash mem).1
      ∧ retSFA (stackWord H.toSymbols mem) = stackWord H.toSymbols mem % 2
      ∧ retSR (stackWord H.toSymbols mem) = stackWord H.toSymbols mem / 16777216
      ∧ retIPL (stackWord H.toSymbols mem)
          = 8 * (stackWord H.toSymbols mem / 8388608 % 2)
            + stackWord H.toSymbols mem / 536870912
      ∧ retIPL (stackWord H.toSymbols mem) < 16
      ∧ maskRetAddr (stackWord H.toSymbols mem)
          = 2 * (stackWord H.toSymbols mem / 2 % 4194304)
      ∧ stackWord H.toSymbols mem
          = maskRetAddr (stackWord H.toSymbols mem) + retSFA (stackWord H.toSymbols mem)
            + 8388608 * (retIPL (stackWord H.toSymbols mem) / 8)
            + 16777216 * retSR (stackWord H.toSymbols mem) := by
  have hr : stackWord H.toSymbols mem < 4294967296 := EZBL_RAMCopy_lt _ _
  have hipl := retIPL_eq _ hr
  refine ⟨hr, trapLine_mem H flash mem, retSFA_eq _, retSR_eq _ hr, hipl, ?_, maskRetAddr_eq _,
    rebuild_word _ hr⟩
  rw [hipl]
  omega

/-! ## Clearing the trap flags -/

theorem mask_8700_testBit (x b : Nat) :
    (x &&& 0x8700).testBit b = (x.testBit b && (b = 15 ∨ b = 10 ∨ b = 9 ∨ b = 8 : Bool)) := by
  rw [Nat.testBit_and]
  congr 1
  by_cases hb : b < 16
  · interval_cases b <;> decide
  · have h1 : (0x8700 : Nat).testBit b = false :=
      Nat.testBit_lt_two_pow (Nat.lt_of_lt_of_le (by decide : 0x8700 < 2 ^ 16)
        (Nat.pow_le_pow_right (by decide) (Nat.le_of_not_lt hb)))
    rw [h1]
    have : ¬ (b = 15 ∨ b = 10 ∨ b = 9 ∨ b = 8) := by omega
    simp [this]

/-- C14: for every INTCON1 value `x` at handler entry the handler leaves
INTCON1 = x AND 0x8700: the bits the bit-name table names as error flags
(1..7 and 11..14) end 0, NSTDIS (15) and OVATE, OVBTE, COVTE (10..8) keep their
values; bit 0, which the table leaves unnamed, ends 0 as well; apart from
INTCON1 and the adjusted `contextRegs.w[15]` the data space is as it was. -/
theorem intcon1_cleared (H : HandlerSymbols) (flash : Nat → Nat) (mem : Nat → Nat)
    (hne : H.INTCON1 ≠ H.contextRegs + 30) :
    readWord (EZBL_TrapHandler H flash mem).2 H.INTCON1 = readWord mem H.INTCON1 &&& 0x8700
      ∧ (∀ b, (1 ≤ b ∧ b ≤ 7) ∨ (11 ≤ b ∧ b ≤ 14) →
          (readWord (EZBL_TrapHandler H flash mem).2 H.INTCON1).testBit b = false)
      ∧ (∀ b, b = 15 ∨ b = 10 ∨ b = 9 ∨ b = 8 →
          (readWord (EZBL_TrapHandler H flash mem).2 H.INTCON1).testBit b
            = (readWord mem H.INTCON1).testBit b)
      ∧ (readWord (EZBL_TrapHandler H flash mem).2 H.INTCON1).testBit 0 = false
      ∧ (∀ a, a ≠ H.INTCON1 → a ≠ H.contextRegs + 30 →
          readWord (EZBL_TrapHandler H flash mem).2 a = readWord mem a)
      ∧ Op.write H.INTCON1 (readWord mem H.INTCON1 &&& 0x8700)
          ∈ (EZBL_TrapHandler H flash mem).1
      ∧ (INTCON1BitNames.drop 1).take 7
          = ["OSCFAIL", "STKERR", "ADDRERR", "MATHERR", "DMACERR", "DIV0ERR", "SFTACERR"]
      ∧ (INTCON1BitNames.drop 11).take 4 = ["COVBERR", "COVAERR", "OVBERR", "OVAERR"]
      ∧ (INTCON1BitNames.drop 8).take 3 = ["COVTE", "OVBTE", "OVATE"]
      ∧ INTCON1BitNames.get? 15 = some "NSTDIS" ∧ INTCON1BitNames.get? 0 = some "" := by
  have hx : readWord (adjustW15 H.toSymbols mem) H.INTCON1 = readWord mem H.INTCON1 := by
    unfold adjustW15
    rw [readWord_writeWord, if_neg hne]
  have hle : readWord mem H.INTCON1 &&& 0x8700 ≤ 0x8700 := Nat.and_le_right
  have hfin : readWord (EZBL_TrapHandler H flash mem).2 H.INTCON1
      = readWord mem H.INTCON1 &&& 0x8700 := by
    show readWord (writeWord _ _ _) _ = _
    rw [readWord_writeWord, if_pos rfl, hx]
    exact Nat.mod_eq_of_lt (by omega)
  refine ⟨hfin, ?_, ?_, ?_, ?_, ?_, by decide, by decide, by decide, by decide, by decide⟩
  · intro b hb
    rw [hfin, mask_8700_testBit]
    have : ¬ (b = 15 ∨ b = 10 ∨ b = 9 ∨ b = 8) := by omega
    simp [this]
  · intro b hb
    rw [hfin, mask_8700_testBit]
    simp [hb]
  · rw [hfin, mask_8700_testBit]
    simp
  · intro a h1 h2
    show readWord (writeWord (adjustW15 H.toSymbols mem) _ _) _ = _
    rw [readWord_writeWord, if_neg h1]
    unfold adjustW15
    rw [readWord_writeWord, if_neg h2]
  · rw [handler_trace, ← hx]
    unfold reportOps
    simp only [List.mem_append, List.mem_cons, List.mem_singleton, true_or, or_true]

theorem intcon1_cleared_witness :
    exampleHandler.INTCON1 ≠ exampleHandler.contextRegs + 30
      ∧ readWord (EZBL_TrapHandler exampleHandler (fun _ => 0) exampleStack).2
          exampleHandler.INTCON1 = readWord exampleStack exampleHandler.INTCON1 &&& 0x8700
      ∧ readWord exampleStack exampleHandler.INTCON1 = 0x8712
      ∧ readWord (EZBL_TrapHandler exampleHandler (fun _ => 0) exampleStack).2
          exampleHandler.INTCON1 = 0x8700 :=
  ⟨by decide, (intcon1_cleared exampleHandler (fun _ => 0) exampleStack (by decide)).1,
    by decide, by decide⟩

/-! ## Optional registers -/

set_option maxRecDepth 1000000 in
/-- C15, as stated, fails: with ACCAL linked and DCOUNT absent the handler reads
through the absent symbol's address 0, and the capture sequence loads PSVPAG
from address 0 on a device without PSVPAG. -/
theorem absent_symbols_dereferenced :
    exampleDspHandler.ACCAL ≠ 0 ∧ exampleDspHandler.DCOUNT = 0
      ∧ Op.read exampleDspHandler.DCOUNT
          ∈ (EZBL_TrapHandler exampleDspHandler (fun _ => 0) exampleStack).1
      ∧ exampleSymbols.PSVPAG = 0
      ∧ Instr.movFW exampleSymbols.PSVPAG 0 ∈ preprologue exampleSymbols := by
  refine ⟨by decide, by decide, ?_, by decide, by decide⟩
  rw [handler_trace]
  apply List.mem_append_left
  unfold reportOps
  simp only [List.mem_append]
  refine Or.inl (Or.inl (Or.inl (Or.inl (Or.inl (Or.inl (Or.inl (Or.inr ?_)))))))
  decide

/-! ## The documented example line of `printReg` -/

theorem render_lead3 (p : Printf) (ps : List Printf) (r : List Char)
    (h : p.text.data = ' ' :: ' ' :: ' ' :: r) :
    ∃ rest, (render (p :: ps)).data = ' ' :: ' ' :: ' ' :: rest :=
  ⟨r ++ (render ps).data, by
    rw [render_cons, String.data_append, h]; simp only [List.cons_append]⟩

theorem render_lead2 (p : Printf) (ps : List Printf) (r : List Char)
    (h : p.text.data = ' ' :: '\x7b' :: r) :
    ∃ rest, (render (p :: ps)).data = ' ' :: '\x7b' :: rest :=
  ⟨r ++ (render ps).data, by
    rw [render_cons, String.data_append, h]; simp only [List.cons_append]⟩

theorem formatCalls_lead (v f : Nat) (hv : v < 65536) :
    formatCalls v f = []
      ∨ ∃ rest, (render (formatCalls v f)).data = ' ' :: ' ' :: ' ' :: rest := by
  have h3 : (Printf.text ⟨"   ", []⟩).data = ' ' :: ' ' :: ' ' :: [] := by
    simp [Printf.text, EZBL_printf, formatChars]
  have hs3 : (Printf.text ⟨"   %6d", [.int v]⟩).data
      = ' ' :: ' ' :: ' ' :: rightJustify 6 (intDigits (toInt16 v)) := by
    rw [signed_text v hv]
  have hu3 : (Printf.text ⟨"   %5u", [.int v]⟩).data
      = ' ' :: ' ' :: ' ' :: rightJustify 5 (digits 10 v) := by
    rw [unsigned_text v hv]
  unfold formatCalls
  by_cases hg : f ≠ 0 ∧ v ≠ 0
  · rw [if_pos hg]
    dsimp only
    by_cases hb : f &&& BINARY ≠ 0
    · right
      rw [if_pos hb]
      simp only [List.cons_append]
      exact render_lead3 _ _ _ h3
    · rw [if_neg hb, List.nil_append]
      by_cases hd : f &&& DECIMAL ≠ 0
      · simp only [if_pos hd]
        by_cases hs : isNeg16 v ∨ not16 (f ^^^ DECIMAL) &&& UNSIGNED ≠ 0
        · right
          rw [if_pos hs]
          simp only [List.cons_append]
          exact render_lead3 _ _ _ hs3
        · rw [if_neg hs, List.nil_append]
          by_cases hu : (f ^^^ DECIMAL) &&& UNSIGNED ≠ 0
          · right
            rw [if_pos hu]
            exact render_lead3 _ _ _ hu3
          · left; rw [if_neg hu]
      · simp only [if_neg hd, List.nil_append]
        by_cases hu : f &&& UNSIGNED ≠ 0
        · right
          rw [if_pos hu]
          exact render_lead3 _ _ _ hu3
        · left; rw [if_neg hu]
  · left; rw [if_neg hg]

theorem bitNameCalls_lead (S : Symbols) (reg v : Nat) :
    bitNameCalls S reg v = []
      ∨ ∃ rest, (render (bitNameCalls S reg v)).data = ' ' :: '\x7b' :: rest := by
  have h2 : (Printf.text ⟨" \x7b", []⟩).data = ' ' :: '\x7b' :: [] := by
    simp [Printf.text, EZBL_printf, formatChars]
  have hn : (Printf.text ⟨" \x7bnone\x7d", []⟩).data
      = ' ' :: '\x7b' :: ['n', 'o', 'n', 'e', '\x7d'] := by
    simp [Printf.text, EZBL_printf, formatChars]
  unfold bitNameCalls
  cases regBitNames S reg with
  | none => left; rfl
  | some tbl =>
    right
    dsimp only
    by_cases hv : v ≠ 0
    · rw [if_pos hv]
      simp only [List.cons_append, List.nil_append]
      exact render_lead2 _ _ _ h2
    · rw [if_neg hv]
      exact render_lead2 _ _ _ hn

/-- C17: the line the documentation of `printReg` gives as an example is never
printed. For the name `TBLPAG` and a cell holding 0x0001, whatever the address
and `formatFlags`, the text is not `\n  TBLPAG   0x0001 (1)`: after the hex
value the line ends, or goes on with three blanks, or with a blank and a left
brace. With no flag the line is `  TBLPAG   0x0001`, with `UNSIGNED`
it is `  TBLPAG   0x0001       1`. -/
theorem printReg_documented_example_never_printed (S : Symbols) (mem : Nat → Nat)
    (reg formatFlags : Nat) (h1 : readWord mem reg = 0x0001) :
    render (printReg S mem (some "TBLPAG") reg formatFlags) ≠ "\n  TBLPAG   0x0001 (1)"
      ∧ (¬ hasBitNames S reg → formatFlags = 0 →
          render (printReg S mem (some "TBLPAG") reg formatFlags) = "\n  TBLPAG   0x0001")
      ∧ (¬ hasBitNames S reg → formatFlags = UNSIGNED →
          render (printReg S mem (some "TBLPAG") reg formatFlags)
            = "\n  TBLPAG   0x0001       1") := by
  have hhead : (headCall (some "TBLPAG") reg 1).text = "\n  TBLPAG   0x0001" := by
    have hx : hex4 1 = ['0', '0', '0', '1'] := by decide
    rw [headCall_text]
    apply String.ext
    simp [nameField, hx]
  have hr : render (printReg S mem (some "TBLPAG") reg formatFlags)
      = "\n  TBLPAG   0x0001" ++ (render (formatCalls 1 formatFlags)
          ++ render (bitNameCalls S reg 1)) := by
    unfold printReg
    simp only [h1, render_cons, render_append, hhead]
  refine ⟨?_, ?_, ?_⟩
  · rw [hr]
    intro heq
    have hd := congrArg String.data heq
    have hsplit : ("\n  TBLPAG   0x0001 (1)" : String)
        = "\n  TBLPAG   0x0001" ++ " (1)" := by decide
    rw [hsplit, String.data_append, String.data_append] at hd
    have hx := List.append_cancel_left hd
    rcases formatCalls_lead 1 formatFlags (by decide) with hf | ⟨r, hf⟩
    · rw [hf] at hx
      rcases bitNameCalls_lead S reg 1 with hb | ⟨r, hb⟩
      · rw [hb] at hx
        simp [render] at hx
      · rw [hb] at hx
        simp [render] at hx
    · rw [hf] at hx
      simp at hx
  · intro hb h0
    have hbn : bitNameCalls S reg 1 = [] := by
      unfold bitNameCalls; rw [(regBitNames_eq_none_iff S reg).2 hb]
    have hfc : formatCalls 1 0 = [] := rfl
    rw [hr, h0, hbn, hfc]
    decide
  · intro hb hu
    have hbn : bitNameCalls S reg 1 = [] := by
      unfold bitNameCalls; rw [(regBitNames_eq_none_iff S reg).2 hb]
    have hfc : formatCalls 1 UNSIGNED = [⟨"   %5u", [.int 1]⟩] := rfl
    have hj : rightJustify 5 (digits 10 1) = [' ', ' ', ' ', ' ', '1'] := by decide
    rw [hr, hu, hbn, hfc, render_cons, unsigned_text 1 (by decide), hj]
    decide

theorem printReg_documented_example_never_printed_witness :
    readWord (fun _ => 1) exampleSymbols.TBLPAG = 0x0001
      ∧ render (printReg exampleSymbols (fun _ => 1) (some "TBLPAG") exampleSymbols.TBLPAG
          UNSIGNED) ≠ "\n  TBLPAG   0x0001 (1)"
      ∧ render (printReg exampleSymbols (fun _ => 1) (some "TBLPAG") exampleSymbols.TBLPAG
          UNSIGNED) = "\n  TBLPAG   0x0001       1" :=
  ⟨by decide,
   (printReg_documented_example_never_printed exampleSymbols (fun _ => 1)
      exampleSymbols.TBLPAG UNSIGNED (by decide)).1,
   (printReg_documented_example_never_printed exampleSymbols (fun _ => 1)
      exampleSymbols.TBLPAG UNSIGNED (by decide)).2.2 (by decide) rfl⟩

/-! ## `printReg` leaves the machine as it found it -/

theorem reads_append (xs ys : List Event) : reads (xs ++ ys) = reads xs ++ reads ys := by
  induction xs with
  | nil => rfl
  | cons e es ih => cases e <;> simp [reads, ih]

theorem reads_map_out (l : List Printf) : reads (l.map Event.out) = [] := by
  induction l with
  | nil => rfl
  | cons p ps ih => simp [reads, ih]

theorem reads_replicate_out (n : Nat) (p : Printf) :
    reads (List.replicate n (Event.out p)) = [] := by
  induction n with
  | zero => rfl
  | succ n ih => simp [List.replicate_succ, reads, ih]

theorem reads_headerCols (i : Nat) : reads (headerCols i 3) = [] := by
  simp [headerCols, reads, reads_append, reads_replicate_out]

theorem reads_flatMap (l : List Nat) (f : Nat → List Event) :
    reads (l.flatMap f) = l.flatMap (fun g => reads (f g)) := by
  induction l with
  | nil => rfl
  | cons a as ih => simp [List.flatMap_cons, reads_append, ih]

theorem enableBitsLoop_unfold (en : Nat) :
    enableBitsLoop en 16 0x8000
      = (List.range 16).map (fun b => Event.out (bitCall en (2 ^ (15 - b)))) := by
  rfl

/-- The trace of the IEC row from a pointer at bank `n`: for k = 0..3 a read of
enable bank `n + 3 - k`, then its sixteen bits, most significant first. -/
theorem iecRow_unfold (mem : Nat → Nat) (pe n : Nat) :
    (iecRow mem (ptrAdd pe n)).1
      = Event.out ⟨"\n  IEC  ", []⟩ ::
        ((List.range 4).flatMap (fun k =>
          [Event.read (ptrAdd pe (n + (3 - k)))]
            ++ (List.range 16).map (fun b => Event.out
                (bitCall (readWord mem (ptrAdd pe (n + (3 - k)))) (2 ^ (15 - b))))
            ++ (if k < 3 then [Event.out ⟨"   ", []⟩] else []))) := by
  have e3 : ptrDec (ptrAdd (ptrAdd pe n) 4) = ptrAdd pe (n + 3) := by unfold ptrDec ptrAdd; omega
  have e2 : ptrDec (ptrAdd pe (n + 3)) = ptrAdd pe (n + 2) := by unfold ptrDec ptrAdd; omega
  have e1 : ptrDec (ptrAdd pe (n + 2)) = ptrAdd pe (n + 1) := by unfold ptrDec ptrAdd; omega
  have e0 : ptrDec (ptrAdd pe (n + 1)) = ptrAdd pe (n + 0) := by unfold ptrDec ptrAdd; omega
  simp only [iecRow, iecBanks, enableBitsLoop_unfold, e3, e2, e1, e0]
  simp [List.range_succ, List.flatMap]

/-- The trace of the IPC row from a pointer at register `4 * n`: for k = 0..3
and j = 0..3 a read of priority register `4 * (n + 3 - k) + 3 - j` and its
value as four hex digits. -/
theorem ipcRow_unfold (mem : Nat → Nat) (pp n : Nat) :
    (ipcRow mem (ptrAdd pp (4 * n))).1
      = Event.out ⟨"\n  IPC  ", []⟩ ::
        ((List.range 4).flatMap (fun k =>
          (List.range 4).flatMap (fun j =>
            [Event.read (ptrAdd pp (4 * (n + (3 - k)) + (3 - j))),
             Event.out ⟨"%04X", [.int (readWord mem (ptrAdd pp (4 * (n + (3 - k)) + (3 - j))))]⟩])
            ++ (if k < 3 then [Event.out ⟨"   ", []⟩] else []))) := by
  have a33 : ptrDec (ptrAdd (ptrAdd pp (4 * n)) 16) = ptrAdd pp (4 * (n + 3) + 3) := by
    unfold ptrDec ptrAdd; omega
  have a32 : ptrDec (ptrAdd pp (4 * (n + 3) + 3)) = ptrAdd pp (4 * (n + 3) + 2) := by
    unfold ptrDec ptrAdd; omega
  have a31 : ptrDec (ptrAdd pp (4 * (n + 3) + 2)) = ptrAdd pp (4 * (n + 3) + 1) := by
    unfold ptrDec ptrAdd; omega
  have a30 : ptrDec (ptrAdd pp (4 * (n + 3) + 1)) = ptrAdd pp (4 * (n + 3) + 0) := by
    unfold ptrDec ptrAdd; omega
  have a23 : ptrDec (ptrAdd pp (4 * (n + 3) + 0)) = ptrAdd pp (4 * (n + 2) + 3) := by
    unfold ptrDec ptrAdd; omega
  have a22 : ptrDec (ptrAdd pp (4 * (n + 2) + 3)) = ptrAdd pp (4 * (n + 2) + 2) := by
    unfold ptrDec ptrAdd; omega
  have a21 : ptrDec (ptrAdd pp (4 * (n + 2) + 2)) = ptrAdd pp (4 * (n + 2) + 1) := by
    unfold ptrDec ptrAdd; omega
  have a20 : ptrDec (ptrAdd pp (4 * (n + 2) + 1)) = ptrAdd pp (4 * (n + 2) + 0) := by
    unfold ptrDec ptrAdd; omega
  have a13 : ptrDec (ptrAdd pp (4 * (n + 2) + 0)) = ptrAdd pp (4 * (n + 1) + 3) := by
    unfold ptrDec ptrAdd; omega
  have a12 : ptrDec (ptrAdd pp (4 * (n + 1) + 3)) = ptrAdd pp (4 * (n + 1) + 2) := by
    unfold ptrDec ptrAdd; omega
  have a11 : ptrDec (ptrAdd pp (4 * (n + 1) + 2)) = ptrAdd pp (4 * (n + 1) + 1) := by
    unfold ptrDec ptrAdd; omega
  have a10 : ptrDec (ptrAdd pp (4 * (n + 1) + 1)) = ptrAdd pp (4 * (n + 1) + 0) := by
    unfold ptrDec ptrAdd; omega
  have a03 : ptrDec (ptrAdd pp (4 * (n + 1) + 0)) = ptrAdd pp (4 * (n + 0) + 3) := by
    unfold ptrDec ptrAdd; omega
  have a02 : ptrDec (ptrAdd pp (4 * (n + 0) + 3)) = ptrAdd pp (4 * (n + 0) + 2) := by
    unfold ptrDec ptrAdd; omega
  have a01 : ptrDec (ptrAdd pp (4 * (n + 0) + 2)) = ptrAdd pp (4 * (n + 0) + 1) := by
    unfold ptrDec ptrAdd; omega
  have a00 : ptrDec (ptrAdd pp (4 * (n + 0) + 1)) = ptrAdd pp (4 * (n + 0) + 0) := by
    unfold ptrDec ptrAdd; omega
  simp only [ipcRow, ipcBanks, ipcRead, a33, a32, a31, a30, a23, a22, a21, a20, a13, a12, a11,
    a10, a03, a02, a01, a00]
  simp [List.range_succ, List.flatMap]

theorem reads_tableGroup (S : Symbols) (mem : Nat → Nat) (i : Nat) :
    reads (tableGroup S mem i) = groupReads S i := by
  unfold tableGroup groupReads
  rw [(ifsRow_unfold mem S.IFS0 S.IEC0 i).1, iecRow_unfold, ipcRow_unfold]
  simp only [reads_append, reads_headerCols]
  rfl

theorem groupCount_le (d g : Nat) (h : d ≤ 4 * g) : groupCount d ≤ g := by
  unfold groupCount; omega

theorem lt_groupCount (d g : Nat) (h : 4 * g < d) : g < groupCount d := by
  unfold groupCount; omega

/-- The table loop entered at index `4 * g` with the pointers at bank `4 * g`
runs the remaining groups one after the other, each entered with the pointers
at its own first bank. -/
theorem tableLoop_groups (S : Symbols) (mem : Nat → Nat) (hd : bankDistance S ≤ 65532) :
    ∀ fuel g, groupCount (bankDistance S) ≤ g + fuel → g ≤ groupCount (bankDistance S) →
      tableLoop S mem fuel (4 * g) (ptrAdd S.IFS0 (4 * g)) (ptrAdd S.IEC0 (4 * g))
          (ptrAdd S.IPC0 (4 * (4 * g)))
        = (List.range (groupCount (bankDistance S) - g)).flatMap
            (fun t => tableGroup S mem (4 * (g + t))) := by
  intro fuel
  induction fuel with
  | zero =>
    intro g h1 h2
    have : groupCount (bankDistance S) - g = 0 := by omega
    rw [this]
    rfl
  | succ fuel ih =>
    intro g h1 h2
    by_cases hi : 4 * g < bankDistance S
    · have hlt := lt_groupCount _ _ hi
      have hm : (4 * g + 4) % 65536 = 4 * (g + 1) := by omega
      have hc : groupCount (bankDistance S) - g = (groupCount (bankDistance S) - (g + 1)) + 1 := by
        omega
      rw [tableLoop_step S mem fuel (4 * g) hi, hm, ih (g + 1) (by omega) (by omega), hc,
        List.range_succ_eq_map, List.flatMap_cons, List.flatMap_map]
      have hf : (fun t => tableGroup S mem (4 * (g + Nat.succ t)))
          = (fun t => tableGroup S mem (4 * (g + 1 + t))) := by
        funext t
        have : g + Nat.succ t = g + 1 + t := by omega
        rw [this]
      rw [hf]
      rfl
    · have hle := groupCount_le _ _ (Nat.le_of_not_lt hi)
      have : groupCount (bankDistance S) - g = 0 := by omega
      rw [this, tableLoop, if_neg hi]
      rfl

theorem interruptTable_groups (S : Symbols) (mem : Nat → Nat) (hd : bankDistance S ≤ 65532) :
    interruptTable S mem
      = Event.out ⟨"\n\nInterrupt SFRs (red indicates flag and enable set):", []⟩
          :: (List.range (groupCount (bankDistance S))).flatMap
              (fun g => tableGroup S mem (4 * g)) := by
  rw [interruptTable_start]
  have h := tableLoop_groups S mem hd (bankDistance S) 0 (by unfold groupCount; omega)
    (Nat.zero_le _)
  simp only [Nat.mul_zero, Nat.zero_add, Nat.sub_zero] at h
  rw [h]

theorem headerCall_text (n : Nat) (hn : n * 4 < 65536) :
    (headerCall n).text
      = ⟨'I' :: 'F' :: 'S' :: (digits 10 n ++ '/' :: 'I' :: 'E' :: 'C' :: (digits 10 n
          ++ '/' :: 'I' :: 'P' :: 'C' :: digits 10 (n * 4)))⟩ := by
  have h1 : n % 65536 = n := Nat.mod_eq_of_lt (by omega)
  have h4 : n * 4 % 65536 = n * 4 := Nat.mod_eq_of_lt hn
  simp [headerCall, Printf.text, EZBL_printf, formatChars, convert, Conv.init, Arg.value, pad,
    h1, h4]

theorem prints_replicate_out (n : Nat) (p : Printf) :
    prints (List.replicate n (Event.out p)) = List.replicate n p := by
  induction n with
  | zero => rfl
  | succ n ih => simp [List.replicate_succ, prints, ih]

theorem prints_headerCols (i : Nat) :
    prints (headerCols i 3)
      = (List.range 4).flatMap (fun c =>
          headerCall (i + (3 - c))
            :: (if c < 3 then
                  List.replicate (19 - (headerCall (i + (3 - c))).text.length) ⟨" ", []⟩
                else [])) := by
  simp [headerCols, prints, prints_append, prints_replicate_out, headerCall, List.range_succ,
    List.flatMap]

theorem mem_groupReads (S : Symbols) (i a : Nat) (h : a ∈ groupReads S i) :
    ∃ n, i ≤ n ∧ n < i + 4
      ∧ (a = ptrAdd S.IFS0 n ∨ a = ptrAdd S.IEC0 n
          ∨ ∃ r, r < 4 ∧ a = ptrAdd S.IPC0 (4 * n + r)) := by
  unfold groupReads at h
  simp only [List.mem_append, List.mem_flatMap, List.mem_map, List.mem_range, List.mem_cons,
    List.mem_singleton, List.not_mem_nil, or_false] at h
  rcases h with (⟨k, hk, h | h⟩ | ⟨k, hk, h⟩) | ⟨k, hk, j, hj, h⟩
  · exact ⟨i + (3 - k), by omega, by omega, Or.inl h⟩
  · exact ⟨i + (3 - k), by omega, by omega, Or.inr (Or.inl h)⟩
  · exact ⟨i + (3 - k), by omega, by omega, Or.inr (Or.inl h.symm)⟩
  · exact ⟨i + (3 - k), by omega, by omega, Or.inr (Or.inr ⟨3 - j, by omega, h.symm⟩)⟩

/-! ## How far the table loop goes -/

set_option maxRecDepth 1000000 in
/-- C11, as stated, fails: with the enable array two banks after the flag array
the loop body runs once and covers four banks. The first two reads of the
table go through the flag pointer and the enable pointer at bank 3, the first
header call names bank 3, and there is one group, not two. -/
theorem table_reads_past_distance :
    bankDistance exampleNarrow = 2
      ∧ (reads (interruptTable exampleNarrow exampleFlags)).take 2
          = [ptrAdd exampleNarrow.IFS0 3, ptrAdd exampleNarrow.IEC0 3]
      ∧ (prints (interruptTable exampleNarrow exampleFlags)).get? 2 = some (headerCall 3)
      ∧ ((prints (interruptTable exampleNarrow exampleFlags)).filter
          (fun p => p.fmt == "\n  IFS  ")).length = 1 := by
  refine ⟨by decide, by decide, by decide, by decide⟩

/-- C11, amended: for a distance `d = &IEC0 - &IFS0` of at most 65532 banks the
table is the title followed by `(d + 3) / 4` groups, the group for loop index
`4 * g` entered with the pointers at bank `4 * g`; each group covers four
banks, so the banks read are those below `4 * ((d + 3) / 4)`, which is `d`
when `d` is a multiple of 4 and more than `d` otherwise (one group, banks 0 to
3, for `d = 2`). -/
theorem table_group_count (S : Symbols) (mem : Nat → Nat) (hd : bankDistance S ≤ 65532) :
    interruptTable S mem
        = Event.out ⟨"\n\nInterrupt SFRs (red indicates flag and enable set):", []⟩
            :: (List.range (groupCount (bankDistance S))).flatMap
                (fun g => tableGroup S mem (4 * g))
      ∧ reads (interruptTable S mem)
        = (List.range (groupCount (bankDistance S))).flatMap (fun g => groupReads S (4 * g))
      ∧ (∀ a, a ∈ reads (interruptTable S mem) →
          ∃ n, n < 4 * groupCount (bankDistance S)
            ∧ (a = ptrAdd S.IFS0 n ∨ a = ptrAdd S.IEC0 n
                ∨ ∃ r, r < 4 ∧ a = ptrAdd S.IPC0 (4 * n + r)))
      ∧ (∀ n, n < 4 * groupCount (bankDistance S) →
          ptrAdd S.IFS0 n ∈ reads (interruptTable S mem)
            ∧ ptrAdd S.IEC0 n ∈ reads (interruptTable S mem))
      ∧ bankDistance S ≤ 4 * groupCount (bankDistance S)
      ∧ 4 * groupCount (bankDistance S) < bankDistance S + 4
      ∧ (bankDistance S % 4 = 0 → 4 * groupCount (bankDistance S) = bankDistance S)
      ∧ (bankDistance S = 2 → groupCount (bankDistance S) = 1) := by
  have hreads : reads (interruptTable S mem)
      = (List.range (groupCount (bankDistance S))).flatMap (fun g => groupReads S (4 * g)) := by
    rw [interruptTable_groups S mem hd]
    have hc : ∀ (p : Printf) (es : List Event), reads (Event.out p :: es) = reads es :=
      fun _ _ => rfl
    rw [hc, reads_flatMap]
    simp only [reads_tableGroup]
  refine ⟨interruptTable_groups S mem hd, hreads, ?_, ?_, ?_, ?_, ?_, ?_⟩
  · intro a ha
    rw [hreads, List.mem_flatMap] at ha
    obtain ⟨g, hg, hmem⟩ := ha
    rw [List.mem_range] at hg
    obtain ⟨n, h1, h2, h3⟩ := mem_groupReads S (4 * g) a hmem
    exact ⟨n, by omega, h3⟩
  · intro n hn
    rw [hreads]
    have hg : n / 4 ∈ List.range (groupCount (bankDistance S)) := by
      rw [List.mem_range]; omega
    have hk : 3 - n % 4 ∈ List.range 4 := by rw [List.mem_range]; omega
    have hidx : 4 * (n / 4) + (3 - (3 - n % 4)) = n := by omega
    constructor
    · refine List.mem_flatMap.2 ⟨n / 4, hg, ?_⟩
      unfold groupReads
      refine List.mem_append_left _ (List.mem_append_left _ ?_)
      refine List.mem_flatMap.2 ⟨3 - n % 4, hk, ?_⟩
      rw [hidx]
      exact List.mem_cons_self _ _
    · refine List.mem_flatMap.2 ⟨n / 4, hg, ?_⟩
      unfold groupReads
      refine List.mem_append_left _ (List.mem_append_right _ ?_)
      refine List.mem_map.2 ⟨3 - n % 4, hk, ?_⟩
      rw [hidx]
  · unfold groupCount; omega
  · unfold groupCount; omega
  · intro h; unfold groupCount; omega
  · intro h; unfold groupCount; omega

theorem table_group_count_witness :
    bankDistance exampleNarrow ≤ 65532
      ∧ reads (interruptTable exampleNarrow exampleFlags)
        = (List.range (groupCount (bankDistance exampleNarrow))).flatMap
            (fun g => groupReads exampleNarrow (4 * g))
      ∧ groupCount (bankDistance exampleNarrow) = 1 :=
  ⟨by decide,
   (table_group_count exampleNarrow exampleFlags (by decide)).2.1,
   by decide⟩

/-! ## The layout of a bank group -/

/-- C20: the table loop is entered with the pointers at `&IFS0`, `&IEC0` and
`&IPC0`, and an iteration entered at index `i` with the pointers at
`&IFS0 + i`, `&IEC0 + i`, `&IPC0 + 4 * i` emits the group for `i` and goes on
at index `i + 4` with the pointers at `&IFS0 + (i + 4)`, `&IEC0 + (i + 4)`,
`&IPC0 + 4 * (i + 4)`. In that group column `c` of the header is the call with
arguments `i + 3 - c`, `i + 3 - c`, `(i + 3 - c) * 4`, printed as
`IFS<n>/IEC<n>/IPC<4n>`; column `c` of the flag row reads `IFS[i + 3 - c]` and
`IEC[i + 3 - c]`, of the enable row `IEC[i + 3 - c]`, cell `b` of either
showing bit `15 - b`; column `c` of the priority row reads and prints
`IPC[4 * (i + 3 - c) + 3]` down to `IPC[4 * (i + 3 - c)]`. -/
theorem table_group_layout (S : Symbols) (mem : Nat → Nat) (fuel i : Nat)
    (hi : i < bankDistance S) :
    interruptTable S mem
        = Event.out ⟨"\n\nInterrupt SFRs (red indicates flag and enable set):", []⟩
            :: tableLoop S mem (bankDistance S) 0 (ptrAdd S.IFS0 0) (ptrAdd S.IEC0 0)
                (ptrAdd S.IPC0 (4 * 0))
      ∧ tableLoop S mem (fuel + 1) i (ptrAdd S.IFS0 i) (ptrAdd S.IEC0 i) (ptrAdd S.IPC0 (4 * i))
        = tableGroup S mem i
          ++ tableLoop S mem fuel ((i + 4) % 65536) (ptrAdd S.IFS0 ((i + 4) % 65536))
              (ptrAdd S.IEC0 ((i + 4) % 65536)) (ptrAdd S.IPC0 (4 * ((i + 4) % 65536)))
      ∧ tableGroup S mem i
        = [Event.out ⟨"\n\n       ", []⟩] ++ headerCols i 3
          ++ (ifsRow mem (ptrAdd S.IFS0 i) (ptrAdd S.IEC0 i)).1
          ++ (iecRow mem (ptrAdd S.IEC0 i)).1
          ++ (ipcRow mem (ptrAdd S.IPC0 (4 * i))).1 ++ [Event.out ⟨"\n", []⟩]
      ∧ prints (headerCols i 3)
        = (List.range 4).flatMap (fun c =>
            headerCall (i + (3 - c))
              :: (if c < 3 then
                    List.replicate (19 - (headerCall (i + (3 - c))).text.length) ⟨" ", []⟩
                  else []))
      ∧ (∀ c, c < 4 → (i + 3) * 4 < 65536 →
          (headerCall (i + (3 - c))).text
            = ⟨'I' :: 'F' :: 'S' :: (digits 10 (i + (3 - c))
                ++ '/' :: 'I' :: 'E' :: 'C' :: (digits 10 (i + (3 - c))
                ++ '/' :: 'I' :: 'P' :: 'C' :: digits 10 ((i + (3 - c)) * 4)))⟩)
      ∧ (ifsRow mem (ptrAdd S.IFS0 i) (ptrAdd S.IEC0 i)).1
        = Event.out ⟨"\n  IFS  ", []⟩ ::
          ((List.range 4).flatMap (fun c =>
            [Event.read (ptrAdd S.IFS0 (i + (3 - c))), Event.read (ptrAdd S.IEC0 (i + (3 - c)))]
              ++ (List.range 16).map (fun b => Event.out
                  (flagCall (readWord mem (ptrAdd S.IFS0 (i + (3 - c))))
                    (readWord mem (ptrAdd S.IEC0 (i + (3 - c)))) (2 ^ (15 - b))))
              ++ (if c < 3 then [Event.out ⟨"   ", []⟩] else [])))
      ∧ (iecRow mem (ptrAdd S.IEC0 i)).1
        = Event.out ⟨"\n  IEC  ", []⟩ ::
          ((List.range 4).flatMap (fun c =>
            [Event.read (ptrAdd S.IEC0 (i + (3 - c)))]
              ++ (List.range 16).map (fun b => Event.out
                  (bitCall (readWord mem (ptrAdd S.IEC0 (i + (3 - c)))) (2 ^ (15 - b))))
              ++ (if c < 3 then [Event.out ⟨"   ", []⟩] else [])))
      ∧ (ipcRow mem (ptrAdd S.IPC0 (4 * i))).1
        = Event.out ⟨"\n  IPC  ", []⟩ ::
          ((List.range 4).flatMap (fun c =>
            (List.range 4).flatMap (fun j =>
              [Event.read (ptrAdd S.IPC0 (4 * (i + (3 - c)) + (3 - j))),
               Event.out ⟨"%04X",
                 [.int (readWord mem (ptrAdd S.IPC0 (4 * (i + (3 - c)) + (3 - j))))]⟩])
              ++ (if c < 3 then [Event.out ⟨"   ", []⟩] else []))) := by
  refine ⟨interruptTable_start S mem, tableLoop_step S mem fuel i hi, rfl, prints_headerCols i,
    ?_, (ifsRow_unfold mem S.IFS0 S.IEC0 i).1, iecRow_unfold mem S.IEC0 i,
    ipcRow_unfold mem S.IPC0 i⟩
  intro c _ h
  exact headerCall_text _ (by omega)

set_option maxRecDepth 1000000 in
theorem table_group_layout_witness :
    0 < bankDistance exampleSymbols
      ∧ (headerCall (0 + (3 - 0))).text = "IFS3/IEC3/IPC12"
      ∧ reads (ipcRow exampleFlags (ptrAdd exampleSymbols.IPC0 (4 * 0))).1
        = (List.range 16).map (fun t => ptrAdd exampleSymbols.IPC0 (15 - t))
      ∧ tableLoop exampleSymbols exampleFlags (0 + 1) 0 (ptrAdd exampleSymbols.IFS0 0)
          (ptrAdd exampleSymbols.IEC0 0) (ptrAdd exampleSymbols.IPC0 (4 * 0))
        = tableGroup exampleSymbols exampleFlags 0
          ++ tableLoop exampleSymbols exampleFlags 0 ((0 + 4) % 65536)
              (ptrAdd exampleSymbols.IFS0 ((0 + 4) % 65536))
              (ptrAdd exampleSymbols.IEC0 ((0 + 4) % 65536))
              (ptrAdd exampleSymbols.IPC0 (4 * ((0 + 4) % 65536))) :=
  ⟨by decide, by decide, by decide,
   (table_group_layout exampleSymbols exampleFlags 0 0 (by decide)).2.1⟩

/-! ## The RAM dumps -/

theorem ramDumps_append (xs ys : List Op) : ramDumps (xs ++ ys) = ramDumps xs ++ ramDumps ys := by
  induction xs with
  | nil => rfl
  | cons o os ih => cases o <;> simp [ramDumps, ih]

theorem ramDumps_map_out (ps : List Printf) : ramDumps (ps.map Op.out) = [] := by
  induction ps with
  | nil => rfl
  | cons p ps ih => simpa [ramDumps] using ih

theorem ramDumps_ofEvents (es : List Event) : ramDumps (ofEvents es) = [] := by
  induction es with
  | nil => rfl
  | cons e es ih => cases e <;> simpa [ofEvents, ramDumps] using ih

theorem ramDumps_sfrLine (S : Symbols) (mem : Nat → Nat) (nm : String) (reg f : Nat) :
    ramDumps (sfrLine S mem nm reg f) = [] := by
  unfold sfrLine
  show ramDumps (List.map Op.out _) = []
  exact ramDumps_map_out _

theorem ramDumps_ctxLine (S : Symbols) (mem : Nat → Nat) (nm : String) (reg f : Nat) :
    ramDumps (ctxLine S mem nm reg f) = [] := ramDumps_map_out _

theorem ramDumps_specialLines (H : HandlerSymbols) (mem : Nat → Nat) :
    ramDumps (specialLines H mem) = [] := by
  unfold specialLines
  simp only [ramDumps_append, ramDumps_sfrLine, ramDumps_ctxLine, List.append_nil]
  split
  · rw [List.nil_append]; exact ramDumps_ctxLine _ _ _ _ _
  · rfl

theorem ramDumps_dspSection (H : HandlerSymbols) (mem : Nat → Nat) :
    ramDumps (dspSection H mem) = [] := by
  unfold dspSection
  split <;> rfl

theorem ramDumps_ctxtstatLine (H : HandlerSymbols) (mem : Nat → Nat) :
    ramDumps (ctxtstatLine H mem) = [] := by
  unfold ctxtstatLine
  split
  · exact ramDumps_sfrLine _ _ _ _ _
  · rfl

theorem ramDumps_frameLines (S : Symbols) (mem : Nat → Nat) (r : Nat) :
    ramDumps (frameLines S mem r) = [] := by
  unfold frameLines
  split <;> rfl

theorem ramDumps_policyStep (H : HandlerSymbols) : ramDumps (policyStep H) = [] := by
  rcases policyStep_cases H with h | h <;> rw [h] <;> rfl

/-- The two `EZBL_DumpRAM` calls of the handler, with the lengths as the 16-bit
subtractions of the source compute them. -/
theorem ramDumps_handler (H : HandlerSymbols) (flash : Nat → Nat) (mem : Nat → Nat) :
    ramDumps (EZBL_TrapHandler H flash mem).1
      = [(H._DATA_BASE, (H._SP_init % 65536 + 65536 - H._DATA_BASE % 65536) % 65536),
         (H._SP_init,
          (readWord (adjustW15 H.toSymbols mem) (H.contextRegs + 30) + 65536
            - H._SP_init % 65536) % 65536)] := by
  rw [handler_trace, ramDumps_append, ramDumps_policyStep]
  unfold reportOps
  simp only [ramDumps_append, ramDumps_map_out, ramDumps_specialLines, ramDumps_dspSection,
    ramDumps_ctxtstatLine, ramDumps_frameLines, ramDumps_ofEvents, List.append_nil,
    List.nil_append]
  rfl

/-- C21: the handler makes two `EZBL_DumpRAM` calls, the first from
`_DATA_BASE` with length `_SP_init - _DATA_BASE`, the second from `_SP_init`
with length `(captured w15 - 4) - _SP_init`, both lengths computed in 16 bits;
the second starts where the first ends, and when
`_DATA_BASE <= _SP_init <= captured w15 - 4` neither subtraction wraps and the
lengths add up to `(captured w15 - 4) - _DATA_BASE`. -/
theorem dump_spans (H : HandlerSymbols) (flash : Nat → Nat) (mem : Nat → Nat)
    (h1 : H._DATA_BASE ≤ H._SP_init)
    (h2 : H._SP_init ≤ (readWord mem (H.contextRegs + 30) + 65536 - 4) % 65536) :
    ramDumps (EZBL_TrapHandler H flash mem).1
        = [(H._DATA_BASE, H._SP_init - H._DATA_BASE),
           (H._SP_init,
            (readWord mem (H.contextRegs + 30) + 65536 - 4) % 65536 - H._SP_init)]
      ∧ readWord (adjustW15 H.toSymbols mem) (H.contextRegs + 30)
          = (readWord mem (H.contextRegs + 30) + 65536 - 4) % 65536
      ∧ (4 ≤ readWord mem (H.contextRegs + 30) →
          (readWord mem (H.contextRegs + 30) + 65536 - 4) % 65536
            = readWord mem (H.contextRegs + 30) - 4)
      ∧ (H._SP_init % 65536 + 65536 - H._DATA_BASE % 65536) % 65536
          = H._SP_init - H._DATA_BASE
      ∧ ((readWord mem (H.contextRegs + 30) + 65536 - 4) % 65536 + 65536
            - H._SP_init % 65536) % 65536
          = (readWord mem (H.contextRegs + 30) + 65536 - 4) % 65536 - H._SP_init
      ∧ H._DATA_BASE + (H._SP_init - H._DATA_BASE) = H._SP_init
      ∧ H._SP_init + ((readWord mem (H.contextRegs + 30) + 65536 - 4) % 65536 - H._SP_init)
          = (readWord mem (H.contextRegs + 30) + 65536 - 4) % 65536
      ∧ (H._SP_init - H._DATA_BASE)
            + ((readWord mem (H.contextRegs + 30) + 65536 - 4) % 65536 - H._SP_init)
          = (readWord mem (H.contextRegs + 30) + 65536 - 4) % 65536 - H._DATA_BASE := by
  have hw := adjustW15_w15 H.toSymbols mem
  have hlen1 : (H._SP_init % 65536 + 65536 - H._DATA_BASE % 65536) % 65536
      = H._SP_init - H._DATA_BASE := by omega
  have hlen2 : ((readWord mem (H.contextRegs + 30) + 65536 - 4) % 65536 + 65536
        - H._SP_init % 65536) % 65536
      = (readWord mem (H.contextRegs + 30) + 65536 - 4) % 65536 - H._SP_init := by omega
  refine ⟨?_, hw, ?_, hlen1, hlen2, ?_, ?_, ?_⟩
  · rw [ramDumps_handler, hw, hlen1, hlen2]
  · intro h4
    have := readWord_lt mem (H.contextRegs + 30)
    omega
  · omega
  · omega
  · omega

theorem dump_spans_witness :
    exampleDumpHandler._DATA_BASE ≤ exampleDumpHandler._SP_init
      ∧ exampleDumpHandler._SP_init
          ≤ (readWord exampleStack (exampleDumpHandler.contextRegs + 30) + 65536 - 4) % 65536
      ∧ ramDumps (EZBL_TrapHandler exampleDumpHandler (fun _ => 0) exampleStack).1
          = [(exampleDumpHandler._DATA_BASE,
              exampleDumpHandler._SP_init - exampleDumpHandler._DATA_BASE),
             (exampleDumpHandler._SP_init,
              (readWord exampleStack (exampleDumpHandler.contextRegs + 30) + 65536 - 4) % 65536
                - exampleDumpHandler._SP_init)]
      ∧ [(exampleDumpHandler._DATA_BASE,
              exampleDumpHandler._SP_init - exampleDumpHandler._DATA_BASE),
             (exampleDumpHandler._SP_init,
              (readWord exampleStack (exampleDumpHandler.contextRegs + 30) + 65536 - 4) % 65536
                - exampleDumpHandler._SP_init)]
          = [(0x0400, 0x0400), (0x0800, 4)] :=
  ⟨by decide, by decide,
   (dump_spans exampleDumpHandler (fun _ => 0) exampleStack (by decide) (by decide)).1,
   by decide⟩

/-! ## The format strings of the interrupt table -/

theorem all_cells_append (xs ys : List Event) :
    (prints (xs ++ ys)).all (fun p => isCellFmt p.fmt)
      = ((prints xs).all (fun p => isCellFmt p.fmt) && (prints ys).all (fun p => isCellFmt p.fmt)) := by
  rw [prints_append, List.all_append]

theorem cells_sep (c : Prop) [Decidable c] :
    (prints (if c then [Event.out ⟨"   ", []⟩] else [])).all (fun p => isCellFmt p.fmt) = true := by
  split
  · decide
  · rfl

theorem cells_reads2 (x y : Nat) :
    (prints [Event.read x, Event.read y]).all (fun p => isCellFmt p.fmt) = true := rfl

theorem cells_reads1 (x : Nat) :
    (prints [Event.read x]).all (fun p => isCellFmt p.fmt) = true := rfl

theorem cells_flagBitsLoop (a b : Nat) :
    ∀ fuel j, (prints (flagBitsLoop a b fuel j)).all (fun p => isCellFmt p.fmt) = true := by
  intro fuel
  induction fuel with
  | zero => intro j; rfl
  | succ n ih =>
    intro j
    have h1 : isCellFmt (ANSI_RED ++ "1" ++ ANSI_CLR) = true := by decide
    have h2 : isCellFmt "1" = true := by decide
    have h3 : isCellFmt "0" = true := by decide
    unfold flagBitsLoop
    simp only [prints, List.all_cons]
    have hrest : (prints (if j >>> 1 ≠ 0 then flagBitsLoop a b n (j >>> 1) else [])).all
        (fun p => isCellFmt p.fmt) = true := by
      split
      · exact ih _
      · rfl
    rw [hrest, Bool.and_true]
    split
    · split
      · exact h1
      · exact h2
    · exact h3

theorem cells_ifsBanks (mem : Nat → Nat) :
    ∀ fuel k pf pe,
      (prints (ifsBanks mem fuel k pf pe).1).all (fun p => isCellFmt p.fmt) = true := by
  intro fuel
  induction fuel with
  | zero => intro k pf pe; rfl
  | succ n ih =>
    intro k pf pe
    unfold ifsBanks
    split
    · simp only [all_cells_append, cells_flagBitsLoop, cells_reads2, cells_sep, ih,
        Bool.and_self]
    · rfl

theorem cells_enableBitsLoop (a : Nat) :
    ∀ fuel j, (prints (enableBitsLoop a fuel j)).all (fun p => isCellFmt p.fmt) = true := by
  intro fuel
  induction fuel with
  | zero => intro j; rfl
  | succ n ih =>
    intro j
    unfold enableBitsLoop
    simp only [prints, List.all_cons]
    have hrest : (prints (if j >>> 1 ≠ 0 then enableBitsLoop a n (j >>> 1) else [])).all
        (fun p => isCellFmt p.fmt) = true := by
      split
      · exact ih _
      · rfl
    rw [hrest, Bool.and_true]
    decide

theorem cells_iecBanks (mem : Nat → Nat) :
    ∀ fuel k pe, (prints (iecBanks mem fuel k pe).1).all (fun p => isCellFmt p.fmt) = true := by
  intro fuel
  induction fuel with
  | zero => intro k pe; rfl
  | succ n ih =>
    intro k pe
    unfold iecBanks
    split
    · simp only [all_cells_append, cells_enableBitsLoop, cells_reads1, cells_sep, ih,
        Bool.and_self]
    · rfl

theorem cells_ipcRead (mem : Nat → Nat) (pp : Nat) :
    (prints (ipcRead mem pp).1).all (fun p => isCellFmt p.fmt) = true := by
  unfold ipcRead
  simp only [prints, List.all_cons, List.all_nil, Bool.and_true]
  decide

theorem cells_ipcBanks (mem : Nat → Nat) :
    ∀ fuel k pp, (prints (ipcBanks mem fuel k pp).1).all (fun p => isCellFmt p.fmt) = true := by
  intro fuel
  induction fuel with
  | zero => intro k pp; rfl
  | succ n ih =>
    intro k pp
    unfold ipcBanks
    split
    · simp only [all_cells_append, cells_ipcRead, cells_sep, ih, Bool.and_self]
    · rfl

theorem cells_replicate (n : Nat) :
    (prints (List.replicate n (Event.out ⟨" ", []⟩))).all (fun p => isCellFmt p.fmt) = true := by
  induction n with
  | zero => rfl
  | succ n ih =>
    rw [List.replicate_succ]
    simp only [prints, List.all_cons, ih, Bool.and_true]
    decide

theorem cells_headerCols (i : Nat) :
    ∀ k, (prints (headerCols i k)).all (fun p => isCellFmt p.fmt) = true := by
  intro k
  induction k with
  | zero =>
    unfold headerCols
    simp only [prints, List.all_cons, List.all_nil, Bool.and_true]
    decide
  | succ n ih =>
    unfold headerCols
    simp only [prints, List.all_cons, all_cells_append, cells_replicate, ih, Bool.and_true,
      Bool.true_and]
    decide

theorem table_of_cells (l : List Event)
    (hl : (prints l).all (fun p => isCellFmt p.fmt) = true) :
    (prints l).all (fun p => isTableFmt p.fmt) = true := by
  rw [List.all_eq_true] at hl ⊢
  intro p hp
  have := hl p hp
  simp only [isTableFmt, this, Bool.true_or]

theorem table_lead (p : Printf) (l : List Event) (hp : isTableFmt p.fmt = true)
    (hl : (prints l).all (fun p => isTableFmt p.fmt) = true) :
    (prints (Event.out p :: l)).all (fun p => isTableFmt p.fmt) = true := by
  show ((p :: prints l).all _) = true
  rw [List.all_cons, hp, hl]
  rfl

theorem table_append (xs ys : List Event)
    (hx : (prints xs).all (fun p => isTableFmt p.fmt) = true)
    (hy : (prints ys).all (fun p => isTableFmt p.fmt) = true) :
    (prints (xs ++ ys)).all (fun p => isTableFmt p.fmt) = true := by
  rw [prints_append, List.all_append, hx, hy]
  rfl

/-- Every call of the table loop has one of the format strings of the table. -/
theorem tableLoop_fmts (S : Symbols) (mem : Nat → Nat) :
    ∀ fuel i pf pe pp,
      (prints (tableLoop S mem fuel i pf pe pp)).all (fun p => isTableFmt p.fmt) = true := by
  intro fuel
  induction fuel with
  | zero => intro i pf pe pp; rfl
  | succ n ih =>
    intro i pf pe pp
    unfold tableLoop
    split
    · have e1 : (ifsRow mem pf pe).1
          = Event.out ⟨"\n  IFS  ", []⟩ :: (ifsBanks mem 4 0 (ptrAdd pf 4) (ptrAdd pe 4)).1 := rfl
      have e2 : ∀ x, (iecRow mem x).1
          = Event.out ⟨"\n  IEC  ", []⟩ :: (iecBanks mem 4 0 (ptrAdd x 4)).1 := fun _ => rfl
      have e3 : (ipcRow mem pp).1
          = Event.out ⟨"\n  IPC  ", []⟩ :: (ipcBanks mem 4 0 (ptrAdd pp 16)).1 := rfl
      dsimp only
      rw [e1, e2, e3]
      refine table_append _ _ (table_append _ _ (table_append _ _ (table_append _ _
        (table_append _ _ (table_append _ _ ?_ ?_) ?_) ?_) ?_) ?_) (ih _ _ _ _)
      · exact table_lead _ _ (by decide) rfl
      · exact table_of_cells _ (cells_headerCols i 3)
      · exact table_lead _ _ (by decide) (table_of_cells _ (cells_ifsBanks mem _ _ _ _))
      · exact table_lead _ _ (by decide) (table_of_cells _ (cells_iecBanks mem _ _ _))
      · exact table_lead _ _ (by decide) (table_of_cells _ (cells_ipcBanks mem _ _ _))
      · exact table_lead _ _ (by decide) rfl
    · rfl

theorem interruptTable_fmts (S : Symbols) (mem : Nat → Nat) :
    (prints (interruptTable S mem)).all (fun p => isTableFmt p.fmt) = true := by
  unfold interruptTable
  exact table_lead _ _ (by decide) (tableLoop_fmts S mem _ _ _ _ _)

theorem outs_append (xs ys : List Op) : outs (xs ++ ys) = outs xs ++ outs ys := by
  induction xs with
  | nil => rfl
  | cons o os ih => cases o <;> simp [outs, ih]

theorem outs_map_out (ps : List Printf) : outs (ps.map Op.out) = ps := by
  induction ps with
  | nil => rfl
  | cons p ps ih => simpa [outs] using ih

theorem outs_ofEvents (es : List Event) : outs (ofEvents es) = prints es := by
  induction es with
  | nil => rfl
  | cons e es ih => cases e <;> simpa [ofEvents, outs, prints] using ih

theorem outs_sfrLine (S : Symbols) (mem : Nat → Nat) (nm : String) (reg f : Nat) :
    outs (sfrLine S mem nm reg f) = printReg S mem (some nm) reg f := by
  unfold sfrLine
  show outs (List.map Op.out _) = _
  exact outs_map_out _

theorem outs_ctxLine (S : Symbols) (mem : Nat → Nat) (nm : String) (reg f : Nat) :
    outs (ctxLine S mem nm reg f) = printReg S mem (some nm) reg f := outs_map_out _

theorem frameCalls_append (xs ys : List Op) :
    frameCalls (xs ++ ys) = frameCalls xs ++ frameCalls ys := by
  unfold frameCalls
  rw [outs_append, List.filter_append]

theorem frame_printReg (S : Symbols) (mem : Nat → Nat) (nm : Option String) (reg f : Nat) :
    (printReg S mem nm reg f).filter (fun p => isFrameFmt p.fmt) = [] := by
  rw [filter_printReg isFrameFmt (by decide) (by decide) (by decide) (by decide) (by decide)
    (by decide), filter_formatCalls isFrameFmt (by decide) (by decide) (by decide)]
  have h6 : isFrameFmt "   %6d" = false := by decide
  have h5 : isFrameFmt "   %5u" = false := by decide
  split <;> split <;> simp [h6, h5]

theorem frameCalls_map_printReg (S : Symbols) (mem : Nat → Nat) (nm : Option String)
    (reg f : Nat) : frameCalls ((printReg S mem nm reg f).map Op.out) = [] := by
  unfold frameCalls
  rw [outs_map_out, frame_printReg]

theorem frameCalls_sfrLine (S : Symbols) (mem : Nat → Nat) (nm : String) (reg f : Nat) :
    frameCalls (sfrLine S mem nm reg f) = [] := by
  unfold frameCalls
  rw [outs_sfrLine, frame_printReg]

theorem frameCalls_ctxLine (S : Symbols) (mem : Nat → Nat) (nm : String) (reg f : Nat) :
    frameCalls (ctxLine S mem nm reg f) = [] := by
  unfold frameCalls
  rw [outs_ctxLine, frame_printReg]

theorem frame_wLoop (S : Symbols) (mem : Nat → Nat) :
    ∀ fuel i regName, (wLoop S mem fuel i regName).filter (fun p => isFrameFmt p.fmt) = [] := by
  intro fuel
  induction fuel with
  | zero => intro i regName; rfl
  | succ n ih =>
    intro i regName
    unfold wLoop
    split
    · dsimp only
      rw [List.filter_append, frame_printReg, ih]
      rfl
    · rfl

theorem frameCalls_specialLines (H : HandlerSymbols) (mem : Nat → Nat) :
    frameCalls (specialLines H mem) = [] := by
  unfold specialLines
  simp only [frameCalls_append, frameCalls_sfrLine, frameCalls_ctxLine, List.append_nil]
  split
  · rw [List.nil_append]; exact frameCalls_ctxLine _ _ _ _ _
  · rfl

theorem frameCalls_dspSection (H : HandlerSymbols) (mem : Nat → Nat) :
    frameCalls (dspSection H mem) = [] := by
  have h : isFrameFmt "\n  ACCA     0x%04X%04X%04X\n  ACCB     0x%04X%04X%04X\n  DCOUNT   0x%04X (%u)\n  DSTART   0x%06lX\n  DEND     0x%06lX" = false := by
    decide
  unfold dspSection
  split
  · simp [frameCalls, outs, h]
  · rfl

theorem frameCalls_ctxtstatLine (H : HandlerSymbols) (mem : Nat → Nat) :
    frameCalls (ctxtstatLine H mem) = [] := by
  unfold ctxtstatLine
  split
  · exact frameCalls_sfrLine _ _ _ _ _
  · rfl

theorem frame_not_table (s : String) (h : isTableFmt s = true) : isFrameFmt s = false := by
  simp only [isTableFmt, isCellFmt, cellFmts, rowLeads, List.map, List.contains_cons,
    List.contains_nil, Bool.or_false, Bool.or_eq_true, beq_iff_eq] at h
  rcases h with ((h | h | h | h | h | h | h | h) | (h | h | h | h | h)) | h <;> subst h <;> decide

theorem frameCalls_table (S : Symbols) (mem : Nat → Nat) :
    frameCalls (ofEvents (interruptTable S mem)) = [] := by
  unfold frameCalls
  rw [outs_ofEvents, List.filter_eq_nil_iff]
  intro p hp
  have := List.all_eq_true.1 (interruptTable_fmts S mem) p hp
  simp [frame_not_table _ this]

theorem frameCalls_policyStep (H : HandlerSymbols) : frameCalls (policyStep H) = [] := by
  rcases policyStep_cases H with h | h <;> rw [h] <;> decide

theorem mem_outs (l : List Op) (p : Printf) : Op.out p ∈ l ↔ p ∈ outs l := by
  induction l with
  | nil => simp [outs]
  | cons o os ih => cases o <;> simp [outs, ih]

theorem mem_frameCalls (l : List Op) (p : Printf) :
    p ∈ frameCalls l ↔ Op.out p ∈ l ∧ p.fmt = frameFmt := by
  unfold frameCalls
  rw [List.mem_filter, mem_outs]
  simp [isFrameFmt]

theorem clear_bit0_testBit (i : Nat) : (0xFFFFFFFE : Nat).testBit i = decide (1 ≤ i ∧ i < 32) := by
  cases i with
  | zero => decide
  | succ i =>
    rw [Nat.testBit_succ]
    have : (0xFFFFFFFE : Nat) / 2 = 2 ^ 31 - 1 := by decide
    rw [this, Nat.testBit_two_pow_sub_one]
    by_cases h : i < 31 <;> simp [h] <;> omega

/-- The statement `frameRetAddr &= 0xFFFFFFFEu;` on a 32-bit value clears bit 0. -/
theorem clear_bit0 (x : Nat) (hx : x < 4294967296) : x &&& 0xFFFFFFFE = 2 * (x / 2) := by
  apply Nat.eq_of_testBit_eq
  intro i
  rw [Nat.testBit_and, clear_bit0_testBit]
  cases i with
  | zero => simp [Nat.testBit_zero]
  | succ i =>
    rw [Nat.testBit_succ x, Nat.testBit_succ (2 * _)]
    have e : 2 * (x / 2) / 2 = x / 2 := by omega
    rw [e]
    by_cases h : i < 31
    · have : 1 ≤ i + 1 ∧ i + 1 < 32 := by omega
      simp [this]
    · have : ¬ (1 ≤ i + 1 ∧ i + 1 < 32) := by omega
      simp only [this, decide_False, Bool.and_false]
      symm
      apply Nat.testBit_lt_two_pow
      have h2 : (2 : Nat) ^ 31 ≤ 2 ^ i := Nat.pow_le_pow_right (by decide) (by omega)
      have h3 : (2 : Nat) ^ 31 = 2147483648 := by decide
      omega

theorem adjustW15_other (S : Symbols) (mem : Nat → Nat) (a : Nat) (h : a ≠ S.contextRegs + 30) :
    readWord (adjustW15 S mem) a = readWord mem a := by
  unfold adjustW15
  rw [readWord_writeWord, if_neg h]

/-- The block guarded by `if(contextRegs.w[14] && retSFA)`, in terms of the
captured frame pointer and the stacked word. -/
theorem frameLines_eq (S : Symbols) (mem : Nat → Nat) :
    frameLines S (adjustW15 S mem) (stackWord S mem)
      = if readWord mem (S.contextRegs + 28) ≠ 0 ∧ stackWord S mem % 2 = 1 then
          [Op.ramCopy ((readWord mem (S.contextRegs + 28) + 65536 - 6) % 65536) 4,
           Op.out ⟨frameFmt,
             [.long (2 * (EZBL_RAMCopy (adjustW15 S mem)
                ((readWord mem (S.contextRegs + 28) + 65536 - 6) % 65536) / 2))]⟩]
        else [] := by
  have h14 : readWord (adjustW15 S mem) (S.contextRegs + 28) = readWord mem (S.contextRegs + 28) :=
    adjustW15_other S mem _ (by omega)
  have hsfa : retSFA (stackWord S mem) ≠ 0 ↔ stackWord S mem % 2 = 1 := by
    rw [retSFA_eq]; omega
  unfold frameLines
  rw [h14]
  by_cases hc : readWord mem (S.contextRegs + 28) ≠ 0 ∧ stackWord S mem % 2 = 1
  · rw [if_pos hc, if_pos ⟨hc.1, hsfa.2 hc.2⟩]
    dsimp only
    have hx := EZBL_RAMCopy_lt (adjustW15 S mem)
      ((readWord mem (S.contextRegs + 28) + 65536 - 6) % 65536)
    rw [clear_bit0 _ hx, clear_bit0 _ (by omega)]
    have e : 2 * (EZBL_RAMCopy (adjustW15 S mem)
          ((readWord mem (S.contextRegs + 28) + 65536 - 6) % 65536) / 2) / 2
        = EZBL_RAMCopy (adjustW15 S mem)
          ((readWord mem (S.contextRegs + 28) + 65536 - 6) % 65536) / 2 := by omega
    rw [e]
    rfl
  · rw [if_neg hc, if_neg (fun h => hc ⟨h.1, hsfa.1 h.2⟩)]

theorem reportOps_frame (H : HandlerSymbols) (flash : Nat → Nat) (mem : Nat → Nat) :
    ∃ pre post, reportOps H flash mem
      = pre ++ (frameLines H.toSymbols (adjustW15 H.toSymbols mem) (stackWord H.toSymbols mem)
          ++ post)
      ∧ frameCalls pre = [] ∧ frameCalls post = [] := by
  refine ⟨[Op.ramCopy (readWord (adjustW15 H.toSymbols mem) (H.contextRegs + 30)) 4,
        Op.out ⟨"\n\n%s():", [.str "EZBL_TrapHandler"]⟩]
      ++ (wLoop H.toSymbols (adjustW15 H.toSymbols mem) 16 0
            ['w', Char.ofNat 0, Char.ofNat 0, Char.ofNat 0]).map Op.out
      ++ specialLines H (adjustW15 H.toSymbols mem)
      ++ dspSection H (adjustW15 H.toSymbols mem)
      ++ ctxtstatLine H (adjustW15 H.toSymbols mem)
      ++ [Op.out (trapLine (stackWord H.toSymbols mem))]
      ++ opcodeLines flash (stackWord H.toSymbols mem),
    ofEvents (interruptTable H.toSymbols (adjustW15 H.toSymbols mem))
      ++ dumpLines H (adjustW15 H.toSymbols mem)
      ++ [Op.read H.INTCON1,
          Op.write H.INTCON1 (readWord (adjustW15 H.toSymbols mem) H.INTCON1 &&& 0x8700)],
    ?_, ?_, ?_⟩
  · unfold reportOps stackWord
    simp only [List.append_assoc]
  · have hw : frameCalls ((wLoop H.toSymbols (adjustW15 H.toSymbols mem) 16 0
        ['w', Char.ofNat 0, Char.ofNat 0, Char.ofNat 0]).map Op.out) = [] := by
      unfold frameCalls
      rw [outs_map_out, frame_wLoop]
    have h0 : frameCalls [Op.ramCopy (readWord (adjustW15 H.toSymbols mem) (H.contextRegs + 30)) 4,
        Op.out ⟨"\n\n%s():", [.str "EZBL_TrapHandler"]⟩] = [] := by
      have : isFrameFmt "\n\n%s():" = false := by decide
      simp [frameCalls, outs, this]
    have ht : frameCalls [Op.out (trapLine (stackWord H.toSymbols mem))] = [] := by
      have : isFrameFmt
          "\n\nTrap return address: 0x%06lX (SFA = %X, IPL = %X, SR<7:0> = 0x%02X)" = false := by
        decide
      simp [frameCalls, outs, trapLine, this]
    have ho : frameCalls (opcodeLines flash (stackWord H.toSymbols mem)) = [] := by
      have : isFrameFmt ("\n  Preceeding opcode:   %06lX  0x%06lX\n  Trap trigger opcode: %06lX  "
          ++ ANSI_RED ++ "0x%06lX" ++ ANSI_CLR ++ "\n  Trap return opcode:  %06lX  0x%06lX")
          = false := by decide
      unfold opcodeLines
      simp [frameCalls, outs, this]
    simp only [frameCalls_append, hw, h0, ht, ho, frameCalls_specialLines, frameCalls_dspSection,
      frameCalls_ctxtstatLine, List.append_nil]
  · have hd : frameCalls (dumpLines H (adjustW15 H.toSymbols mem)) = [] := by
      have h1 : isFrameFmt "\nRegular RAM:" = false := by decide
      have h2 : isFrameFmt "\nStack RAM:" = false := by decide
      have h3 : isFrameFmt "\nFirst page of flash:" = false := by decide
      simp [dumpLines, frameCalls, outs, h1, h2, h3]
    have hi : frameCalls [Op.read H.INTCON1,
        Op.write H.INTCON1 (readWord (adjustW15 H.toSymbols mem) H.INTCON1 &&& 0x8700)] = [] := by
      rfl
    simp only [frameCalls_append, frameCalls_table, hd, hi, List.append_nil]

/-- The calls of the whole handler that print the stack frame line. -/
theorem frameCalls_handler (H : HandlerSymbols) (flash : Nat → Nat) (mem : Nat → Nat) :
    frameCalls (EZBL_TrapHandler H flash mem).1
      = if readWord mem (H.contextRegs + 28) ≠ 0 ∧ stackWord H.toSymbols mem % 2 = 1 then
          [⟨frameFmt,
             [.long (2 * (EZBL_RAMCopy (adjustW15 H.toSymbols mem)
                ((readWord mem (H.contextRegs + 28) + 65536 - 6) % 65536) / 2))]⟩]
        else [] := by
  obtain ⟨pre, post, hrep, hpre, hpost⟩ := reportOps_frame H flash mem
  rw [handler_trace, hrep, frameCalls_append, frameCalls_append, frameCalls_append, hpre, hpost,
    frameCalls_policyStep, frameLines_eq]
  split
  · simp [frameCalls, outs, isFrameFmt]
  · rfl

/-- C22: the handler prints the stack frame line exactly when the captured
frame pointer `w[14]` is non-zero and bit 0 (SFA) of the stacked return word is
1; the line is then printed once, after a 4-byte copy from (captured w14 - 6),
and its argument is the 32-bit word found there with bit 0 cleared. -/
theorem frame_line (H : HandlerSymbols) (flash : Nat → Nat) (mem : Nat → Nat) :
    frameCalls (EZBL_TrapHandler H flash mem).1
        = (if readWord mem (H.contextRegs + 28) ≠ 0 ∧ stackWord H.toSymbols mem % 2 = 1 then
            [⟨frameFmt,
               [.long (2 * (EZBL_RAMCopy (adjustW15 H.toSymbols mem)
                  ((readWord mem (H.contextRegs + 28) + 65536 - 6) % 65536) / 2))]⟩]
          else [])
      ∧ ((∃ p, Op.out p ∈ (EZBL_TrapHandler H flash mem).1 ∧ p.fmt = frameFmt)
          ↔ readWord mem (H.contextRegs + 28) ≠ 0 ∧ stackWord H.toSymbols mem % 2 = 1)
      ∧ (∀ p, Op.out p ∈ (EZBL_TrapHandler H flash mem).1 → p.fmt = frameFmt →
          p.args = [.long (2 * (EZBL_RAMCopy (adjustW15 H.toSymbols mem)
                  ((readWord mem (H.contextRegs + 28) + 65536 - 6) % 65536) / 2))])
      ∧ (readWord mem (H.contextRegs + 28) ≠ 0 ∧ stackWord H.toSymbols mem % 2 = 1 →
          Op.ramCopy ((readWord mem (H.contextRegs + 28) + 65536 - 6) % 65536) 4
            ∈ (EZBL_TrapHandler H flash mem).1)
      ∧ frameFmt = "\n  Stack frame was active. They return to: 0x%06lX"
      ∧ retSFA (stackWord H.toSymbols mem) = stackWord H.toSymbols mem % 2
      ∧ EZBL_RAMCopy (adjustW15 H.toSymbols mem)
            ((readWord mem (H.contextRegs + 28) + 65536 - 6) % 65536) < 4294967296
      ∧ 2 * (EZBL_RAMCopy (adjustW15 H.toSymbols mem)
            ((readWord mem (H.contextRegs + 28) + 65536 - 6) % 65536) / 2)
          = EZBL_RAMCopy (adjustW15 H.toSymbols mem)
              ((readWord mem (H.contextRegs + 28) + 65536 - 6) % 65536)
            - EZBL_RAMCopy (adjustW15 H.toSymbols mem)
              ((readWord mem (H.contextRegs + 28) + 65536 - 6) % 65536) % 2 := by
  have hf := frameCalls_handler H flash mem
  refine ⟨hf, ?_, ?_, ?_, rfl, retSFA_eq _, EZBL_RAMCopy_lt _ _, by omega⟩
  · constructor
    · rintro ⟨p, hp, hfmt⟩
      have hm := (mem_frameCalls _ p).2 ⟨hp, hfmt⟩
      rw [hf] at hm
      by_contra hc
      rw [if_neg hc] at hm
      cases hm
    · intro hc
      have hm : (⟨frameFmt,
               [.long (2 * (EZBL_RAMCopy (adjustW15 H.toSymbols mem)
                  ((readWord mem (H.contextRegs + 28) + 65536 - 6) % 65536) / 2))]⟩ : Printf)
          ∈ frameCalls (EZBL_TrapHandler H flash mem).1 := by
        rw [hf, if_pos hc]
        exact List.mem_singleton_self _
      exact ⟨_, ((mem_frameCalls _ _).1 hm).1, rfl⟩
  · intro p hp hfmt
    have hm := (mem_frameCalls _ p).2 ⟨hp, hfmt⟩
    rw [hf] at hm
    split at hm
    · rw [List.mem_singleton] at hm
      rw [hm]
    · cases hm
  · intro hc
    obtain ⟨pre, post, hrep, _, _⟩ := reportOps_frame H flash mem
    rw [handler_trace, hrep, frameLines_eq, if_pos hc]
    simp

/-- With the frame pointer 0x0810, the word 0x00012345 six bytes below it and
the SFA bit set in the stacked word, the line shows 0x012344. -/
theorem frameCalls_example :
    frameCalls (EZBL_TrapHandler exampleHandler (fun _ => 0) exampleFrame).1
        = [⟨frameFmt, [.long 0x00012344]⟩]
      ∧ frameCalls (EZBL_TrapHandler exampleHandler (fun _ => 0) exampleStack).1 = [] := by
  constructor
  · rw [frameCalls_handler]
    decide
  · rw [frameCalls_handler]
    decide

/-! ## The symbolic suffix and the SR line -/

theorem suffix_bitNamesLoop (tbl : List String) :
    ∀ fuel i v, (bitNamesLoop tbl fuel i v).all (fun p => isSuffixFmt p.fmt) = true := by
  intro fuel
  induction fuel with
  | zero => intro i v; rfl
  | succ n ih =>
    intro i v
    unfold bitNamesLoop
    split
    · split
      · dsimp only
        rw [List.all_cons, ih]
        have : isSuffixFmt "%s%s" = true := by decide
        simp [this]
      · exact ih _ _
    · rfl

theorem suffix_bitNameCalls (S : Symbols) (reg v : Nat) :
    (bitNameCalls S reg v).all (fun p => isSuffixFmt p.fmt) = true := by
  unfold bitNameCalls
  cases regBitNames S reg with
  | none => rfl
  | some tbl =>
    dsimp only
    split
    · rw [List.all_append, List.all_append, suffix_bitNamesLoop]
      decide
    · decide

/-- The calls of `printReg` with a format string of the symbolic suffix are the
calls of the block guarded by `regBitNames`, which the address and the value
determine: the name has no part in it. -/
theorem suffix_printReg (S : Symbols) (mem : Nat → Nat) (nm : Option String) (reg f : Nat) :
    (printReg S mem nm reg f).filter (fun p => isSuffixFmt p.fmt)
      = bitNameCalls S reg (readWord mem reg) := by
  have hh : [headCall nm reg (readWord mem reg)].filter (fun p => isSuffixFmt p.fmt) = [] :=
    filter_headCall isSuffixFmt (by decide) (by decide) nm reg _
  have hf : (formatCalls (readWord mem reg) f).filter (fun p => isSuffixFmt p.fmt) = [] := by
    rw [filter_formatCalls isSuffixFmt (by decide) (by decide) (by decide)]
    have h6 : isSuffixFmt "   %6d" = false := by decide
    have h5 : isSuffixFmt "   %5u" = false := by decide
    split <;> split <;> simp [h6, h5]
  have hb : (bitNameCalls S reg (readWord mem reg)).filter (fun p => isSuffixFmt p.fmt)
      = bitNameCalls S reg (readWord mem reg) := by
    rw [List.filter_eq_self]
    exact fun p hp => List.all_eq_true.1 (suffix_bitNameCalls S reg _) p hp
  have : printReg S mem nm reg f = [headCall nm reg (readWord mem reg)]
      ++ (formatCalls (readWord mem reg) f ++ bitNameCalls S reg (readWord mem reg)) := rfl
  rw [this, List.filter_append, List.filter_append, hh, hf, hb]
  rfl

theorem bitNameCalls_of_absent (S : Symbols) (reg v : Nat) (h : ¬ hasBitNames S reg) :
    bitNameCalls S reg v = [] := by
  unfold bitNameCalls
  rw [(regBitNames_eq_none_iff S reg).2 h]

/-- For an address with a bit-name table the suffix is never empty: it is the
`{none}` call, or it opens with ` {` and closes with `}`. -/
theorem bitNameCalls_of_present (S : Symbols) (reg v : Nat) (h : hasBitNames S reg) :
    bitNameCalls S reg v ≠ []
      ∧ (bitNameCalls S reg v = [⟨" \x7bnone\x7d", []⟩]
          ∨ ((bitNameCalls S reg v).head? = some ⟨" \x7b", []⟩
              ∧ (bitNameCalls S reg v).getLast? = some ⟨"\x7d", []⟩))
      ∧ ∃ rest, (render (bitNameCalls S reg v)).data = ' ' :: '\x7b' :: rest := by
  have hne : bitNameCalls S reg v ≠ [] ∧ (bitNameCalls S reg v = [⟨" \x7bnone\x7d", []⟩]
          ∨ ((bitNameCalls S reg v).head? = some ⟨" \x7b", []⟩
              ∧ (bitNameCalls S reg v).getLast? = some ⟨"\x7d", []⟩)) := by
    unfold bitNameCalls
    cases hr : regBitNames S reg with
    | none => exact absurd h ((regBitNames_eq_none_iff S reg).1 hr)
    | some tbl =>
      dsimp only
      split
      · refine ⟨by simp, Or.inr ⟨rfl, ?_⟩⟩
        exact List.getLast?_concat _
      · exact ⟨by simp, Or.inl rfl⟩
  refine ⟨hne.1, hne.2, ?_⟩
  rcases bitNameCalls_lead S reg v with h0 | h1
  · exact absurd h0 hne.1
  · exact h1

theorem digitChar_plain (d : Nat) : digitChar d ≠ '\x7b' ∧ digitChar d ≠ '\x7d' := by
  unfold digitChar
  by_cases h : d < 16
  · interval_cases d <;> decide
  · have : ['0', '1', '2', '3', '4', '5', '6', '7', '8', '9', 'A', 'B', 'C', 'D', 'E', 'F'].getD d '?'
        = '?' := by
      rw [List.getD_eq_default]
      simp only [List.length_cons, List.length_nil]
      omega
    rw [this]
    decide

theorem digitsAux_plain (base : Nat) :
    ∀ fuel n acc, (∀ c ∈ acc, c ≠ '\x7b' ∧ c ≠ '\x7d') →
      ∀ c ∈ digitsAux base fuel n acc, c ≠ '\x7b' ∧ c ≠ '\x7d' := by
  intro fuel
  induction fuel with
  | zero => intro n acc h c hc; exact h c hc
  | succ k ih =>
    intro n acc h c hc
    unfold digitsAux at hc
    have hcons : ∀ c ∈ digitChar (n % base) :: acc, c ≠ '\x7b' ∧ c ≠ '\x7d' := by
      intro c hc
      rcases List.mem_cons.1 hc with rfl | hc
      · exact digitChar_plain _
      · exact h c hc
    split at hc
    · exact hcons c hc
    · exact ih _ _ hcons c hc

theorem hex4_plain (v : Nat) : ∀ c ∈ hex4 v, c ≠ '\x7b' ∧ c ≠ '\x7d' := by
  intro c hc
  have hd : ∀ c ∈ digits 16 (v % 65536), c ≠ '\x7b' ∧ c ≠ '\x7d' :=
    digitsAux_plain 16 32 _ [] (fun _ h => by cases h)
  unfold hex4 pad at hc
  simp only [Bool.false_eq_true, if_false, if_true] at hc
  split at hc
  · rename_i rest heq
    rcases List.mem_cons.1 hc with rfl | hc
    · decide
    · rcases List.mem_append.1 hc with hc | hc
      · rw [List.mem_replicate] at hc
        rw [hc.2]; decide
      · exact hd c (by rw [heq]; exact List.mem_cons_of_mem _ hc)
  · rcases List.mem_append.1 hc with hc | hc
    · rw [List.mem_replicate] at hc
      rw [hc.2]; decide
    · exact hd c hc

theorem formatCalls_BINARY (v : Nat) :
    formatCalls v BINARY = if v ≠ 0 then ⟨"   ", []⟩ :: binaryLoop v 16 0x8000 else [] := by
  have hb : BINARY &&& BINARY ≠ 0 := by decide
  have hdc : ¬ (BINARY &&& DECIMAL ≠ 0) := by decide
  have hu : ¬ (BINARY &&& UNSIGNED ≠ 0) := by decide
  have h0 : BINARY ≠ 0 := by decide
  unfold formatCalls
  by_cases hv : v ≠ 0
  · rw [if_pos ⟨h0, hv⟩, if_pos hv]
    dsimp only
    rw [if_pos hb, if_neg hdc, if_neg hdc, if_neg hu]
    simp
  · rw [if_neg (fun h => hv h.2), if_neg hv]

theorem binaryDigits_plain (v : Nat) : ∀ c ∈ binaryDigits v, c ≠ '\x7b' ∧ c ≠ '\x7d' := by
  intro c hc
  unfold binaryDigits at hc
  rw [List.mem_map] at hc
  obtain ⟨k, _, rfl⟩ := hc
  unfold bitChar
  split <;> decide

/-- The text of a line printed with `BINARY` for an address without a bit-name
table has no brace in it. -/
theorem binaryLine_plain (S : Symbols) (mem : Nat → Nat) (reg : Nat)
    (h : ¬ hasBitNames S reg) :
    ∀ c ∈ (render (printReg S mem (some "SR") reg BINARY)).data, c ≠ '\x7b' ∧ c ≠ '\x7d' := by
  have hp : printReg S mem (some "SR") reg BINARY
      = headCall (some "SR") reg (readWord mem reg) :: formatCalls (readWord mem reg) BINARY := by
    show headCall (some "SR") reg (readWord mem reg)
      :: (formatCalls (readWord mem reg) BINARY ++ bitNameCalls S reg (readWord mem reg)) = _
    rw [bitNameCalls_of_absent S reg _ h, List.append_nil]
  have hn : ∀ c ∈ nameField (some "SR") reg, c ≠ '\x7b' ∧ c ≠ '\x7d' := by
    have : nameField (some "SR") reg
        = ['\n', ' ', ' ', 'S', 'R', ' ', ' ', ' ', ' ', ' ', ' ', ' '] := by
      unfold nameField; rfl
    rw [this]
    decide
  intro c hc
  rw [hp, render_cons, headCall_text, formatCalls_BINARY, String.data_append] at hc
  rcases List.mem_append.1 hc with hc | hc
  · rcases List.mem_append.1 hc with hc | hc
    · exact hn c hc
    · rcases List.mem_cons.1 hc with rfl | hc
      · decide
      · rcases List.mem_cons.1 hc with rfl | hc
        · decide
        · exact hex4_plain _ c hc
  · split at hc
    · rw [binaryField_text] at hc
      simp only [List.mem_cons, List.mem_append] at hc
      rcases hc with rfl | rfl | rfl | hc | rfl | hc
      · decide
      · decide
      · decide
      · exact binaryDigits_plain _ c (List.mem_of_mem_take hc)
      · decide
      · exact binaryDigits_plain _ c (List.mem_of_mem_drop hc)
    · cases hc

theorem trace_status_lines (H : HandlerSymbols) (flash : Nat → Nat) (mem : Nat → Nat) :
    ∃ pre post, (EZBL_TrapHandler H flash mem).1
      = pre ++ (sfrLine H.toSymbols (adjustW15 H.toSymbols mem) "RCON" H.RCON BINARY
          ++ (sfrLine H.toSymbols (adjustW15 H.toSymbols mem) "INTCON1" H.INTCON1 BINARY
          ++ (ctxLine H.toSymbols (adjustW15 H.toSymbols mem) "SR" (H.contextRegs + 38) BINARY
          ++ post))) := by
  rw [handler_trace]
  unfold reportOps specialLines
  simp only [List.append_assoc]
  exact ⟨[Op.ramCopy (readWord (adjustW15 H.toSymbols mem) (H.contextRegs + 30)) 4,
        Op.out ⟨"\n\n%s():", [.str "EZBL_TrapHandler"]⟩]
      ++ ((wLoop H.toSymbols (adjustW15 H.toSymbols mem) 16 0
            ['w', Char.ofNat 0, Char.ofNat 0, Char.ofNat 0]).map Op.out
      ++ sfrLine H.toSymbols (adjustW15 H.toSymbols mem) "SPLIM" H.SPLIM 0), _,
    by rw [List.append_assoc, List.append_assoc]⟩

/-- C23: `printReg` takes its symbolic suffix from the address and the value
it reads there, whatever the name; the handler prints its SR line from
`contextRegs.sr`, and when that address is none of `&SR`, `&RCON`, `&INTCON1`
the SR line is the name, the hex value and the binary field only: no suffix
call, no brace in its text, for every captured SR value. The RCON and INTCON1
lines, printed from the registers themselves, always end with a suffix, which
is `{none}` or opens with ` {` and closes with `}`. -/
theorem sr_line_no_suffix (H : HandlerSymbols) (flash : Nat → Nat) (mem : Nat → Nat)
    (hsr : ¬ hasBitNames H.toSymbols (H.contextRegs + 38)) :
    (∀ (S : Symbols) (m : Nat → Nat) (nm : Option String) (reg f : Nat),
        (printReg S m nm reg f).filter (fun p => isSuffixFmt p.fmt)
          = bitNameCalls S reg (readWord m reg))
      ∧ (∃ pre post, (EZBL_TrapHandler H flash mem).1
          = pre ++ (sfrLine H.toSymbols (adjustW15 H.toSymbols mem) "RCON" H.RCON BINARY
              ++ (sfrLine H.toSymbols (adjustW15 H.toSymbols mem) "INTCON1" H.INTCON1 BINARY
              ++ (ctxLine H.toSymbols (adjustW15 H.toSymbols mem) "SR" (H.contextRegs + 38)
                    BINARY
              ++ post))))
      ∧ readWord (adjustW15 H.toSymbols mem) (H.contextRegs + 38)
          = readWord mem (H.contextRegs + 38)
      ∧ ctxLine H.toSymbols (adjustW15 H.toSymbols mem) "SR" (H.contextRegs + 38) BINARY
          = (headCall (some "SR") (H.contextRegs + 38) (readWord mem (H.contextRegs + 38))
              :: formatCalls (readWord mem (H.contextRegs + 38)) BINARY).map Op.out
      ∧ (outs (ctxLine H.toSymbols (adjustW15 H.toSymbols mem) "SR" (H.contextRegs + 38)
            BINARY)).filter (fun p => isSuffixFmt p.fmt) = []
      ∧ (∀ c ∈ (render (outs (ctxLine H.toSymbols (adjustW15 H.toSymbols mem) "SR"
            (H.contextRegs + 38) BINARY))).data, c ≠ '\x7b' ∧ c ≠ '\x7d')
      ∧ ((outs (sfrLine H.toSymbols (adjustW15 H.toSymbols mem) "RCON" H.RCON BINARY)).filter
            (fun p => isSuffixFmt p.fmt)
          = bitNameCalls H.toSymbols H.RCON (readWord (adjustW15 H.toSymbols mem) H.RCON)
        ∧ bitNameCalls H.toSymbols H.RCON (readWord (adjustW15 H.toSymbols mem) H.RCON) ≠ []
        ∧ ∃ rest, (render (bitNameCalls H.toSymbols H.RCON
            (readWord (adjustW15 H.toSymbols mem) H.RCON))).data = ' ' :: '\x7b' :: rest)
      ∧ ((outs (sfrLine H.toSymbols (adjustW15 H.toSymbols mem) "INTCON1" H.INTCON1
            BINARY)).filter (fun p => isSuffixFmt p.fmt)
          = bitNameCalls H.toSymbols H.INTCON1 (readWord (adjustW15 H.toSymbols mem) H.INTCON1)
        ∧ bitNameCalls H.toSymbols H.INTCON1 (readWord (adjustW15 H.toSymbols mem) H.INTCON1)
            ≠ []
        ∧ ∃ rest, (render (bitNameCalls H.toSymbols H.INTCON1
            (readWord (adjustW15 H.toSymbols mem) H.INTCON1))).data = ' ' :: '\x7b' :: rest) := by
  have hv : readWord (adjustW15 H.toSymbols mem) (H.contextRegs + 38)
      = readWord mem (H.contextRegs + 38) := adjustW15_other _ _ _ (by omega)
  have hrcon : hasBitNames H.toSymbols H.RCON := Or.inr (Or.inl rfl)
  have hint : hasBitNames H.toSymbols H.INTCON1 := Or.inl rfl
  have h1 := bitNameCalls_of_present H.toSymbols H.RCON
    (readWord (adjustW15 H.toSymbols mem) H.RCON) hrcon
  have h2 := bitNameCalls_of_present H.toSymbols H.INTCON1
    (readWord (adjustW15 H.toSymbols mem) H.INTCON1) hint
  refine ⟨suffix_printReg, trace_status_lines H flash mem, hv, ?_, ?_, ?_,
    ⟨?_, h1.1, h1.2.2⟩, ⟨?_, h2.1, h2.2.2⟩⟩
  · unfold ctxLine
    show List.map Op.out (headCall (some "SR") (H.contextRegs + 38)
        (readWord (adjustW15 H.toSymbols mem) (H.contextRegs + 38))
      :: (formatCalls (readWord (adjustW15 H.toSymbols mem) (H.contextRegs + 38)) BINARY
          ++ bitNameCalls H.toSymbols (H.contextRegs + 38)
            (readWord (adjustW15 H.toSymbols mem) (H.contextRegs + 38)))) = _
    rw [bitNameCalls_of_absent _ _ _ hsr, List.append_nil, hv]
  · rw [outs_ctxLine, suffix_printReg, bitNameCalls_of_absent _ _ _ hsr]
  · rw [outs_ctxLine]
    exact binaryLine_plain _ _ _ hsr
  · rw [outs_sfrLine, suffix_printReg]
  · rw [outs_sfrLine, suffix_printReg]

set_option maxRecDepth 1000000 in
theorem sr_line_no_suffix_witness :
    ¬ hasBitNames exampleHandler.toSymbols (exampleHandler.contextRegs + 38)
      ∧ (outs (ctxLine exampleHandler.toSymbols (adjustW15 exampleHandler.toSymbols exampleStack)
            "SR" (exampleHandler.contextRegs + 38) BINARY)).filter
          (fun p => isSuffixFmt p.fmt) = []
      ∧ render (outs (ctxLine exampleHandler.toSymbols
            (adjustW15 exampleHandler.toSymbols exampleStack) "SR"
            (exampleHandler.contextRegs + 38) BINARY))
          = "\n  SR       0x0044   00000000 01000100"
      ∧ render (outs (sfrLine exampleHandler.toSymbols
            (adjustW15 exampleHandler.toSymbols exampleStack) "INTCON1"
            exampleHandler.INTCON1 BINARY))
          = "\n  INTCON1  0x8712   10000111 00010010 \x7bNSTDIS, OVATE, OVBTE, COVTE, MATHERR, OSCFAIL\x7d" :=
  ⟨by decide,
   (sr_line_no_suffix exampleHandler (fun _ => 0) exampleStack (by decide)).2.2.2.2.1,
   by decide, by decide⟩

/-! ## The number of blocks of the interrupt table -/

theorem opReads_append (xs ys : List Op) : opReads (xs ++ ys) = opReads xs ++ opReads ys := by
  induction xs with
  | nil => rfl
  | cons o os ih => cases o <;> simp [opReads, ih]

theorem opReads_map_out (ps : List Printf) : opReads (ps.map Op.out) = [] := by
  induction ps with
  | nil => rfl
  | cons p ps ih => simpa [opReads] using ih

theorem opReads_ofEvents (es : List Event) : opReads (ofEvents es) = reads es := by
  induction es with
  | nil => rfl
  | cons e es ih => cases e <;> simpa [ofEvents, opReads, reads] using ih

theorem opReads_sfrLine (S : Symbols) (mem : Nat → Nat) (nm : String) (reg f : Nat) :
    opReads (sfrLine S mem nm reg f) = [reg] := by
  unfold sfrLine
  show reg :: opReads (List.map Op.out _) = _
  rw [opReads_map_out]

theorem opReads_ctxLine (S : Symbols) (mem : Nat → Nat) (nm : String) (reg f : Nat) :
    opReads (ctxLine S mem nm reg f) = [] := opReads_map_out _

theorem opReads_specialLines (H : HandlerSymbols) (mem : Nat → Nat) :
    opReads (specialLines H mem)
      = [H.SPLIM, H.RCON, H.INTCON1, H.CORCON, H.DISICNT, H.TBLPAG] := by
  unfold specialLines
  simp only [opReads_append, opReads_sfrLine, opReads_ctxLine, List.append_nil]
  split
  · rw [opReads_ctxLine]; rfl
  · rfl

theorem opReads_dspSection (H : HandlerSymbols) (mem : Nat → Nat) :
    opReads (dspSection H mem)
      = if H.ACCAL ≠ 0 then
          [H.ACCAL + 4, H.ACCAL + 2, H.ACCAL, H.ACCBL + 4, H.ACCBL + 2, H.ACCBL,
           H.DCOUNT, H.DCOUNT, H.DOSTARTL, H.DOSTARTL + 2, H.DOENDL, H.DOENDL + 2]
        else [] := by
  unfold dspSection
  split <;> rfl

theorem opReads_ctxtstatLine (H : HandlerSymbols) (mem : Nat → Nat) :
    opReads (ctxtstatLine H mem) = if H.CTXTSTAT ≠ 0 then [H.CTXTSTAT] else [] := by
  unfold ctxtstatLine
  split
  · exact opReads_sfrLine _ _ _ _ _
  · rfl

theorem opReads_frameLines (S : Symbols) (mem : Nat → Nat) (r : Nat) :
    opReads (frameLines S mem r) = [] := by
  unfold frameLines
  split <;> rfl

theorem opReads_policyStep (H : HandlerSymbols) : opReads (policyStep H) = [] := by
  rcases policyStep_cases H with h | h <;> rw [h] <;> rfl

/-- The special function registers the whole handler reads, in order: the six
of the fixed lines, the DSP registers when ACCAL is linked, CTXTSTAT when it is
linked, the banks of the interrupt table, and INTCON1 for the final mask. -/
theorem opReads_handler (H : HandlerSymbols) (flash : Nat → Nat) (mem : Nat → Nat) :
    opReads (EZBL_TrapHandler H flash mem).1
      = [H.SPLIM, H.RCON, H.INTCON1, H.CORCON, H.DISICNT, H.TBLPAG]
        ++ (if H.ACCAL ≠ 0 then
              [H.ACCAL + 4, H.ACCAL + 2, H.ACCAL, H.ACCBL + 4, H.ACCBL + 2, H.ACCBL,
               H.DCOUNT, H.DCOUNT, H.DOSTARTL, H.DOSTARTL + 2, H.DOENDL, H.DOENDL + 2]
            else [])
        ++ (if H.CTXTSTAT ≠ 0 then [H.CTXTSTAT] else [])
        ++ reads (interruptTable H.toSymbols (adjustW15 H.toSymbols mem))
        ++ [H.INTCON1] := by
  have h0 : ∀ (a : Nat) (p : Printf), opReads [Op.ramCopy a 4, Op.out p] = [] := fun _ _ => rfl
  have h1 : ∀ p : Printf, opReads [Op.out p] = [] := fun _ => rfl
  have h2 : ∀ r, opReads (opcodeLines flash r) = [] := fun _ => rfl
  have h3 : ∀ m, opReads (dumpLines H m) = [] := fun _ => rfl
  have h4 : ∀ a v : Nat, opReads [Op.read a, Op.write a v] = [a] := fun _ _ => rfl
  rw [handler_trace, opReads_append, opReads_policyStep]
  unfold reportOps
  simp only [opReads_append, opReads_map_out, opReads_specialLines, opReads_dspSection,
    opReads_ctxtstatLine, opReads_frameLines, opReads_ofEvents, h0, h1, h2, h3, h4,
    List.append_nil, List.nil_append]

theorem callsOf_append (q : String → Bool) (xs ys : List Op) :
    callsOf q (xs ++ ys) = callsOf q xs ++ callsOf q ys := by
  unfold callsOf
  rw [outs_append, List.filter_append]

theorem callsOf_map_out (q : String → Bool) (ps : List Printf) :
    callsOf q (ps.map Op.out) = ps.filter (fun p => q p.fmt) := by
  unfold callsOf
  rw [outs_map_out]

theorem callsOf_sfrLine (q : String → Bool) (S : Symbols) (mem : Nat → Nat) (nm : String)
    (reg f : Nat) :
    callsOf q (sfrLine S mem nm reg f)
      = (printReg S mem (some nm) reg f).filter (fun p => q p.fmt) := by
  unfold callsOf
  rw [outs_sfrLine]

theorem callsOf_ctxLine (q : String → Bool) (S : Symbols) (mem : Nat → Nat) (nm : String)
    (reg f : Nat) :
    callsOf q (ctxLine S mem nm reg f)
      = (printReg S mem (some nm) reg f).filter (fun p => q p.fmt) := by
  unfold callsOf
  rw [outs_ctxLine]

theorem callsOf_table (q : String → Bool) (htab : ∀ s, isTableFmt s = true → q s = false)
    (S : Symbols) (mem : Nat → Nat) : callsOf q (ofEvents (interruptTable S mem)) = [] := by
  unfold callsOf
  rw [outs_ofEvents, List.filter_eq_nil_iff]
  intro p hp
  have := List.all_eq_true.1 (interruptTable_fmts S mem) p hp
  simp [htab _ this]

theorem callsOf_policyStep (q : String → Bool) (hfix : ∀ s ∈ fixedFmts, q s = false)
    (H : HandlerSymbols) : callsOf q (policyStep H) = [] := by
  have h1 := hfix "\nAttempting to return from trap handler..." (by decide)
  have h2 := hfix "\nOn second thought, you are in debug mode, so let's halt instead."
    (by decide)
  rcases policyStep_cases H with h | h <;> rw [h] <;> simp [callsOf, outs, h1, h2]

/-- The calls of the whole handler with a format string that is none of the
fixed ones and none of the table are those of the register lines, the special
lines, the DSP section and the CTXTSTAT line. -/
theorem callsOf_handler (q : String → Bool) (hfix : ∀ s ∈ fixedFmts, q s = false)
    (htab : ∀ s, isTableFmt s = true → q s = false)
    (H : HandlerSymbols) (flash : Nat → Nat) (mem : Nat → Nat) :
    callsOf q (EZBL_TrapHandler H flash mem).1
      = (registerLines H.toSymbols mem).filter (fun p => q p.fmt)
        ++ callsOf q (specialLines H (adjustW15 H.toSymbols mem))
        ++ callsOf q (dspSection H (adjustW15 H.toSymbols mem))
        ++ callsOf q (ctxtstatLine H (adjustW15 H.toSymbols mem)) := by
  have f1 := hfix "\n\n%s():" (by decide)
  have f2 := hfix "\n\nTrap return address: 0x%06lX (SFA = %X, IPL = %X, SR<7:0> = 0x%02X)"
    (by decide)
  have f3 := hfix ("\n  Preceeding opcode:   %06lX  0x%06lX\n  Trap trigger opcode: %06lX  "
     ++ ANSI_RED ++ "0x%06lX" ++ ANSI_CLR ++ "\n  Trap return opcode:  %06lX  0x%06lX")
    (by decide)
  have f4 := hfix "\n  Stack frame was active. They return to: 0x%06lX" (by decide)
  have f5 := hfix "\nRegular RAM:" (by decide)
  have f6 := hfix "\nStack RAM:" (by decide)
  have f7 := hfix "\nFirst page of flash:" (by decide)
  have h0 : ∀ (a : Nat), callsOf q [Op.ramCopy a 4,
      Op.out ⟨"\n\n%s():", [.str "EZBL_TrapHandler"]⟩] = [] := by
    intro a; simp [callsOf, outs, f1]
  have h1 : ∀ r, callsOf q [Op.out (trapLine r)] = [] := by
    intro r; simp [callsOf, outs, trapLine, f2]
  have h2 : ∀ r, callsOf q (opcodeLines flash r) = [] := by
    intro r; simp [callsOf, outs, opcodeLines, f3]
  have h3 : ∀ S m r, callsOf q (frameLines S m r) = [] := by
    intro S m r
    unfold frameLines
    split
    · simp [callsOf, outs, f4]
    · rfl
  have h4 : ∀ m, callsOf q (dumpLines H m) = [] := by
    intro m; simp [callsOf, outs, dumpLines, f5, f6, f7]
  have h5 : ∀ a v : Nat, callsOf q [Op.read a, Op.write a v] = [] := fun _ _ => rfl
  have hw : callsOf q ((wLoop H.toSymbols (adjustW15 H.toSymbols mem) 16 0
      ['w', Char.ofNat 0, Char.ofNat 0, Char.ofNat 0]).map Op.out)
      = (registerLines H.toSymbols mem).filter (fun p => q p.fmt) := callsOf_map_out q _
  rw [handler_trace, callsOf_append, callsOf_policyStep q hfix]
  unfold reportOps
  simp only [callsOf_append, hw, h0, h1, h2, h3, h4, h5, callsOf_table q htab, List.append_nil,
    List.nil_append]

theorem filter_flatMap_single (l : List Nat) (f : Nat → List Printf) (g : Nat → Printf)
    (q : Printf → Bool) (h : ∀ i, (f i).filter q = [g i]) :
    (l.flatMap f).filter q = l.map g := by
  induction l with
  | nil => rfl
  | cons a as ih => rw [List.flatMap_cons, List.filter_append, h, ih]; rfl

theorem filter_flatMap_nil (l : List Nat) (f : Nat → List Printf) (q : Printf → Bool)
    (h : ∀ i, (f i).filter q = []) : (l.flatMap f).filter q = [] := by
  induction l with
  | nil => rfl
  | cons a as ih => rw [List.flatMap_cons, List.filter_append, h, ih]; rfl

/-- A call of `printReg` with a name makes one name/hex call, the first. -/
theorem name_printReg (S : Symbols) (mem : Nat → Nat) (nm : String) (reg f : Nat) :
    (printReg S mem (some nm) reg f).filter (fun p => isNameFmt p.fmt)
      = [headCall (some nm) reg (readWord mem reg)] := by
  have hf : (formatCalls (readWord mem reg) f).filter (fun p => isNameFmt p.fmt) = [] := by
    rw [filter_formatCalls isNameFmt (by decide) (by decide) (by decide)]
    have h6 : isNameFmt "   %6d" = false := by decide
    have h5 : isNameFmt "   %5u" = false := by decide
    split <;> split <;> simp [h6, h5]
  have hb := filter_bitNameCalls isNameFmt (by decide) (by decide) (by decide) (by decide)
    S reg (readWord mem reg)
  have hh : [headCall (some nm) reg (readWord mem reg)].filter (fun p => isNameFmt p.fmt)
      = [headCall (some nm) reg (readWord mem reg)] := by
    have : isNameFmt "\n  %- 9s0x%04X" = true := by decide
    simp [headCall, this]
  have : printReg S mem (some nm) reg f = [headCall (some nm) reg (readWord mem reg)]
      ++ (formatCalls (readWord mem reg) f ++ bitNameCalls S reg (readWord mem reg)) := rfl
  rw [this, List.filter_append, List.filter_append, hh, hf, hb]
  rfl

/-- No call of `printReg` has a format string other than its own. -/
theorem printReg_filter_nil (q : String → Bool) (h1 : q "\n  %04X     0x%04X" = false)
    (h2 : q "\n  %- 9s0x%04X" = false) (hfield : ∀ s ∈ fieldFmts, q s = false)
    (S : Symbols) (mem : Nat → Nat) (nm : Option String) (reg f : Nat) :
    (printReg S mem nm reg f).filter (fun p => q p.fmt) = [] := by
  rw [filter_printReg q h1 h2 (hfield _ (by decide)) (hfield _ (by decide))
    (hfield _ (by decide)) (hfield _ (by decide)),
    filter_formatCalls q (hfield _ (by decide)) (hfield _ (by decide)) (hfield _ (by decide))]
  have h6 := hfield "   %6d" (by decide)
  have h5 := hfield "   %5u" (by decide)
  split <;> split <;> simp [h6, h5]

theorem name_not_fixed : ∀ s ∈ fixedFmts, isNameFmt s = false := by decide

theorem dsp_not_fixed : ∀ s ∈ fixedFmts, isDspFmt s = false := by decide

theorem dsp_not_field : ∀ s ∈ fieldFmts, isDspFmt s = false := by decide

theorem name_not_table (s : String) (h : isTableFmt s = true) : isNameFmt s = false := by
  simp only [isTableFmt, isCellFmt, cellFmts, rowLeads, List.map, List.contains_cons,
    List.contains_nil, Bool.or_false, Bool.or_eq_true, beq_iff_eq] at h
  rcases h with ((h | h | h | h | h | h | h | h) | (h | h | h | h | h)) | h <;> subst h <;> decide

theorem dsp_not_table (s : String) (h : isTableFmt s = true) : isDspFmt s = false := by
  simp only [isTableFmt, isCellFmt, cellFmts, rowLeads, List.map, List.contains_cons,
    List.contains_nil, Bool.or_false, Bool.or_eq_true, beq_iff_eq] at h
  rcases h with ((h | h | h | h | h | h | h | h) | (h | h | h | h | h)) | h <;> subst h <;> decide

/-- The name/hex calls of the whole handler, one per named register line, in
order: w0 to w15, the nine fixed lines, the DSWPAG line when DSRPAG is linked,
the CTXTSTAT line when CTXTSTAT is linked. -/
theorem nameCalls_handler (H : HandlerSymbols) (flash : Nat → Nat) (mem : Nat → Nat) :
    callsOf isNameFmt (EZBL_TrapHandler H flash mem).1
      = (List.range 16).map (fun i =>
            headCall (some (wName i)) (H.contextRegs + 2 * i)
              (readWord (adjustW15 H.toSymbols mem) (H.contextRegs + 2 * i)))
        ++ [headCall (some "SPLIM") H.SPLIM (readWord (adjustW15 H.toSymbols mem) H.SPLIM),
            headCall (some "RCON") H.RCON (readWord (adjustW15 H.toSymbols mem) H.RCON),
            headCall (some "INTCON1") H.INTCON1
              (readWord (adjustW15 H.toSymbols mem) H.INTCON1),
            headCall (some "SR") (H.contextRegs + 38)
              (readWord (adjustW15 H.toSymbols mem) (H.contextRegs + 38)),
            headCall (some "CORCON") H.CORCON (readWord (adjustW15 H.toSymbols mem) H.CORCON),
            headCall (some "RCOUNT") (H.contextRegs + 32)
              (readWord (adjustW15 H.toSymbols mem) (H.contextRegs + 32)),
            headCall (some "DISICNT") H.DISICNT
              (readWord (adjustW15 H.toSymbols mem) H.DISICNT),
            headCall (some "TBLPAG") H.TBLPAG (readWord (adjustW15 H.toSymbols mem) H.TBLPAG),
            headCall (some (if H.DSRPAG ≠ 0 then "DSRPAG" else "PSVPAG")) (H.contextRegs + 34)
              (readWord (adjustW15 H.toSymbols mem) (H.contextRegs + 34))]
        ++ (if H.DSRPAG ≠ 0 then
              [headCall (some "DSWPAG") (H.contextRegs + 36)
                (readWord (adjustW15 H.toSymbols mem) (H.contextRegs + 36))]
            else [])
        ++ (if H.CTXTSTAT ≠ 0 then
              [headCall (some "CTXTSTAT") H.CTXTSTAT
                (readWord (adjustW15 H.toSymbols mem) H.CTXTSTAT)]
            else []) := by
  have hreg : (registerLines H.toSymbols mem).filter (fun p => isNameFmt p.fmt)
      = (List.range 16).map (fun i =>
            headCall (some (wName i)) (H.contextRegs + 2 * i)
              (readWord (adjustW15 H.toSymbols mem) (H.contextRegs + 2 * i))) := by
    rw [registerLines_unfold]
    exact filter_flatMap_single _ _ _ _ (fun i => name_printReg _ _ _ _ _)
  have hspec : callsOf isNameFmt (specialLines H (adjustW15 H.toSymbols mem))
      = [headCall (some "SPLIM") H.SPLIM (readWord (adjustW15 H.toSymbols mem) H.SPLIM),
            headCall (some "RCON") H.RCON (readWord (adjustW15 H.toSymbols mem) H.RCON),
            headCall (some "INTCON1") H.INTCON1
              (readWord (adjustW15 H.toSymbols mem) H.INTCON1),
            headCall (some "SR") (H.contextRegs + 38)
              (readWord (adjustW15 H.toSymbols mem) (H.contextRegs + 38)),
            headCall (some "CORCON") H.CORCON (readWord (adjustW15 H.toSymbols mem) H.CORCON),
            headCall (some "RCOUNT") (H.contextRegs + 32)
              (readWord (adjustW15 H.toSymbols mem) (H.contextRegs + 32)),
            headCall (some "DISICNT") H.DISICNT
              (readWord (adjustW15 H.toSymbols mem) H.DISICNT),
            headCall (some "TBLPAG") H.TBLPAG (readWord (adjustW15 H.toSymbols mem) H.TBLPAG),
            headCall (some (if H.DSRPAG ≠ 0 then "DSRPAG" else "PSVPAG")) (H.contextRegs + 34)
              (readWord (adjustW15 H.toSymbols mem) (H.contextRegs + 34))]
        ++ (if H.DSRPAG ≠ 0 then
              [headCall (some "DSWPAG") (H.contextRegs + 36)
                (readWord (adjustW15 H.toSymbols mem) (H.contextRegs + 36))]
            else []) := by
    unfold specialLines
    simp only [callsOf_append, callsOf_sfrLine, callsOf_ctxLine, name_printReg]
    split
    · rw [callsOf_ctxLine, name_printReg]; rfl
    · rfl
  have hdsp : callsOf isNameFmt (dspSection H (adjustW15 H.toSymbols mem)) = [] := by
    have : isNameFmt "\n  ACCA     0x%04X%04X%04X\n  ACCB     0x%04X%04X%04X\n  DCOUNT   0x%04X (%u)\n  DSTART   0x%06lX\n  DEND     0x%06lX" = false := by
      decide
    unfold dspSection
    split
    · simp [callsOf, outs, this]
    · rfl
  have hctx : callsOf isNameFmt (ctxtstatLine H (adjustW15 H.toSymbols mem))
      = if H.CTXTSTAT ≠ 0 then
          [headCall (some "CTXTSTAT") H.CTXTSTAT
            (readWord (adjustW15 H.toSymbols mem) H.CTXTSTAT)]
        else [] := by
    unfold ctxtstatLine
    split
    · rw [callsOf_sfrLine, name_printReg]
    · rfl
  rw [callsOf_handler isNameFmt name_not_fixed name_not_table, hreg, hspec, hdsp, hctx]
  simp only [List.append_nil, List.append_assoc]

/-- The call of the DSP section is made exactly when ACCAL is linked, once. -/
theorem dspCalls_handler (H : HandlerSymbols) (flash : Nat → Nat) (mem : Nat → Nat) :
    callsOf isDspFmt (EZBL_TrapHandler H flash mem).1
      = if H.ACCAL ≠ 0 then
          [⟨dspFmt,
            [.int (readWord (adjustW15 H.toSymbols mem) (H.ACCAL + 4)),
             .int (readWord (adjustW15 H.toSymbols mem) (H.ACCAL + 2)),
             .int (readWord (adjustW15 H.toSymbols mem) H.ACCAL),
             .int (readWord (adjustW15 H.toSymbols mem) (H.ACCBL + 4)),
             .int (readWord (adjustW15 H.toSymbols mem) (H.ACCBL + 2)),
             .int (readWord (adjustW15 H.toSymbols mem) H.ACCBL),
             .int (readWord (adjustW15 H.toSymbols mem) H.DCOUNT),
             .int (readWord (adjustW15 H.toSymbols mem) H.DCOUNT),
             .long (readLong (adjustW15 H.toSymbols mem) H.DOSTARTL),
             .long (readLong (adjustW15 H.toSymbols mem) H.DOENDL)]⟩]
        else [] := by
  have hp : ∀ (nm : Option String) (reg f : Nat),
      (printReg H.toSymbols (adjustW15 H.toSymbols mem) nm reg f).filter
        (fun p => isDspFmt p.fmt) = [] :=
    fun nm reg f => printReg_filter_nil isDspFmt (by decide) (by decide) dsp_not_field _ _ _ _ _
  have hreg : (registerLines H.toSymbols mem).filter (fun p => isDspFmt p.fmt) = [] := by
    rw [registerLines_unfold]
    exact filter_flatMap_nil _ _ _ (fun i => hp _ _ _)
  have hspec : callsOf isDspFmt (specialLines H (adjustW15 H.toSymbols mem)) = [] := by
    unfold specialLines
    simp only [callsOf_append, callsOf_sfrLine, callsOf_ctxLine, hp, List.append_nil]
    split
    · rw [callsOf_ctxLine, hp]; rfl
    · rfl
  have hctx : callsOf isDspFmt (ctxtstatLine H (adjustW15 H.toSymbols mem)) = [] := by
    unfold ctxtstatLine
    split
    · rw [callsOf_sfrLine, hp]
    · rfl
  have hdsp : callsOf isDspFmt (dspSection H (adjustW15 H.toSymbols mem))
      = if H.ACCAL ≠ 0 then
          [⟨dspFmt,
            [.int (readWord (adjustW15 H.toSymbols mem) (H.ACCAL + 4)),
             .int (readWord (adjustW15 H.toSymbols mem) (H.ACCAL + 2)),
             .int (readWord (adjustW15 H.toSymbols mem) H.ACCAL),
             .int (readWord (adjustW15 H.toSymbols mem) (H.ACCBL + 4)),
             .int (readWord (adjustW15 H.toSymbols mem) (H.ACCBL + 2)),
             .int (readWord (adjustW15 H.toSymbols mem) H.ACCBL),
             .int (readWord (adjustW15 H.toSymbols mem) H.DCOUNT),
             .int (readWord (adjustW15 H.toSymbols mem) H.DCOUNT),
             .long (readLong (adjustW15 H.toSymbols mem) H.DOSTARTL),
             .long (readLong (adjustW15 H.toSymbols mem) H.DOENDL)]⟩]
        else [] := by
    have : isDspFmt "\n  ACCA     0x%04X%04X%04X\n  ACCB     0x%04X%04X%04X\n  DCOUNT   0x%04X (%u)\n  DSTART   0x%06lX\n  DEND     0x%06lX" = true := by
      decide
    unfold dspSection
    split
    · simp [callsOf, outs, this, dspFmt]
    · rfl
  rw [callsOf_handler isDspFmt dsp_not_fixed dsp_not_table, hreg, hspec, hdsp, hctx,
    List.append_nil, List.nil_append, List.nil_append]

theorem mem_callsOf (q : String → Bool) (l : List Op) (p : Printf) :
    p ∈ callsOf q l ↔ Op.out p ∈ l ∧ q p.fmt = true := by
  unfold callsOf
  rw [List.mem_filter, mem_outs]

theorem wName_ne_DSWPAG (i : Nat) : wName i ≠ "DSWPAG" := by
  intro h
  have := congrArg String.data h
  unfold wName at this
  have h2 : ("DSWPAG" : String).data = ['D', 'S', 'W', 'P', 'A', 'G'] := rfl
  rw [h2] at this
  have := (List.cons.inj this).1
  exact absurd this (by decide)

/-- A DSWPAG line is in the report exactly when DSRPAG is linked. -/
theorem dswpag_line_iff (H : HandlerSymbols) (flash : Nat → Nat) (mem : Nat → Nat) :
    (∃ p, Op.out p ∈ (EZBL_TrapHandler H flash mem).1 ∧ isNameFmt p.fmt = true
        ∧ p.args.head? = some (.str "DSWPAG"))
      ↔ H.DSRPAG ≠ 0 := by
  constructor
  · rintro ⟨p, hp, hf, hn⟩
    have hm := (mem_callsOf isNameFmt _ p).2 ⟨hp, hf⟩
    rw [nameCalls_handler] at hm
    by_cases hc : H.DSRPAG ≠ 0
    · exact hc
    exfalso
    rw [if_neg hc, if_neg hc, List.append_nil] at hm
    have hname : ∀ (nm : String) (reg v : Nat), p = headCall (some nm) reg v → nm = "DSWPAG" := by
      intro nm reg v he
      rw [he] at hn
      simpa [headCall] using hn
    rcases List.mem_append.1 hm with hm | hm
    · rcases List.mem_append.1 hm with hm | hm
      · obtain ⟨i, _, hi⟩ := List.mem_map.1 hm
        exact wName_ne_DSWPAG i (hname _ _ _ hi.symm)
      · simp only [List.mem_cons, List.mem_singleton, List.not_mem_nil, or_false] at hm
        rcases hm with h | h | h | h | h | h | h | h | h
        all_goals exact absurd (hname _ _ _ h) (by decide)
    · split at hm
      · rw [List.mem_singleton] at hm
        exact absurd (hname _ _ _ hm) (by decide)
      · cases hm
  · intro hd
    have hfmt : isNameFmt "\n  %- 9s0x%04X" = true := by decide
    refine ⟨headCall (some "DSWPAG") (H.contextRegs + 36)
      (readWord (adjustW15 H.toSymbols mem) (H.contextRegs + 36)), ?_, hfmt, rfl⟩
    apply ((mem_callsOf isNameFmt _ _).1 _).1
    rw [nameCalls_handler, if_pos hd, if_pos hd]
    exact List.mem_append_left _ (List.mem_append_right _ (List.mem_singleton_self _))

/-- C15, amended: over the whole handler the special function registers read
are the six of the fixed lines, ACCAL, ACCBL, DCOUNT, DOSTARTL and DOENDL when
the one probed symbol ACCAL is linked and not otherwise, CTXTSTAT when
`&CTXTSTAT` is non-null and not otherwise, the banks of the interrupt table and
INTCON1; the DSP call is made exactly when ACCAL is linked; the named register
lines are w0 to w15, the nine fixed ones (the DSRPAG/PSVPAG line always, from
the captured value), the DSWPAG line exactly when DSRPAG is linked, and the
CTXTSTAT line exactly when CTXTSTAT is linked. The capture sequence loads
PSVPAG, DSRPAG and DSWPAG without a probe, a load from an absent symbol
(address 0) being `mov w0, w0`, which changes nothing. -/
theorem optional_sections (H : HandlerSymbols) (flash : Nat → Nat) (mem : Nat → Nat) :
    (∃ pre post, (EZBL_TrapHandler H flash mem).1
        = pre ++ (specialLines H (adjustW15 H.toSymbols mem)
            ++ (dspSection H (adjustW15 H.toSymbols mem)
            ++ (ctxtstatLine H (adjustW15 H.toSymbols mem) ++ post))))
      ∧ (H.ACCAL = 0 → dspSection H (adjustW15 H.toSymbols mem) = [])
      ∧ (H.ACCAL ≠ 0 → opReads (dspSection H (adjustW15 H.toSymbols mem))
          = [H.ACCAL + 4, H.ACCAL + 2, H.ACCAL, H.ACCBL + 4, H.ACCBL + 2, H.ACCBL,
             H.DCOUNT, H.DCOUNT, H.DOSTARTL, H.DOSTARTL + 2, H.DOENDL, H.DOENDL + 2])
      ∧ (H.CTXTSTAT = 0 → ctxtstatLine H (adjustW15 H.toSymbols mem) = [])
      ∧ (H.CTXTSTAT ≠ 0 → ctxtstatLine H (adjustW15 H.toSymbols mem)
          = Op.read H.CTXTSTAT
              :: (printReg H.toSymbols (adjustW15 H.toSymbols mem) (some "CTXTSTAT")
                    H.CTXTSTAT 0).map Op.out)
      ∧ (∃ fixed, specialLines H (adjustW15 H.toSymbols mem)
          = fixed
            ++ ctxLine H.toSymbols (adjustW15 H.toSymbols mem)
                (if H.DSRPAG ≠ 0 then "DSRPAG" else "PSVPAG") (H.contextRegs + 34) 0
            ++ (if H.DSRPAG ≠ 0 then
                  ctxLine H.toSymbols (adjustW15 H.toSymbols mem) "DSWPAG"
                    (H.contextRegs + 36) 0
                else []))
      ∧ Instr.movFW H.PSVPAG 0 ∈ preprologue H.toSymbols
      ∧ Instr.movFW H.DSRPAG 0 ∈ preprologue H.toSymbols
      ∧ Instr.movFW H.DSWPAG 0 ∈ preprologue H.toSymbols
      ∧ (∀ (m : Machine) (x : Nat), (step H.toSymbols (.movFW 0 0) m).read x = m.read x)
      ∧ opReads (EZBL_TrapHandler H flash mem).1
          = [H.SPLIM, H.RCON, H.INTCON1, H.CORCON, H.DISICNT, H.TBLPAG]
            ++ (if H.ACCAL ≠ 0 then
                  [H.ACCAL + 4, H.ACCAL + 2, H.ACCAL, H.ACCBL + 4, H.ACCBL + 2, H.ACCBL,
                   H.DCOUNT, H.DCOUNT, H.DOSTARTL, H.DOSTARTL + 2, H.DOENDL, H.DOENDL + 2]
                else [])
            ++ (if H.CTXTSTAT ≠ 0 then [H.CTXTSTAT] else [])
            ++ reads (interruptTable H.toSymbols (adjustW15 H.toSymbols mem))
            ++ [H.INTCON1]
      ∧ (H.ACCAL = 0 → H.CTXTSTAT = 0 →
          opReads (EZBL_TrapHandler H flash mem).1
            = [H.SPLIM, H.RCON, H.INTCON1, H.CORCON, H.DISICNT, H.TBLPAG]
              ++ reads (interruptTable H.toSymbols (adjustW15 H.toSymbols mem))
              ++ [H.INTCON1])
      ∧ callsOf isDspFmt (EZBL_TrapHandler H flash mem).1
          = (if H.ACCAL ≠ 0 then
              [⟨dspFmt,
                [.int (readWord (adjustW15 H.toSymbols mem) (H.ACCAL + 4)),
                 .int (readWord (adjustW15 H.toSymbols mem) (H.ACCAL + 2)),
                 .int (readWord (adjustW15 H.toSymbols mem) H.ACCAL),
                 .int (readWord (adjustW15 H.toSymbols mem) (H.ACCBL + 4)),
                 .int (readWord (adjustW15 H.toSymbols mem) (H.ACCBL + 2)),
                 .int (readWord (adjustW15 H.toSymbols mem) H.ACCBL),
                 .int (readWord (adjustW15 H.toSymbols mem) H.DCOUNT),
                 .int (readWord (adjustW15 H.toSymbols mem) H.DCOUNT),
                 .long (readLong (adjustW15 H.toSymbols mem) H.DOSTARTL),
                 .long (readLong (adjustW15 H.toSymbols mem) H.DOENDL)]⟩]
            else [])
      ∧ callsOf isNameFmt (EZBL_TrapHandler H flash mem).1
          = (List.range 16).map (fun i =>
                headCall (some (wName i)) (H.contextRegs + 2 * i)
                  (readWord (adjustW15 H.toSymbols mem) (H.contextRegs + 2 * i)))
            ++ [headCall (some "SPLIM") H.SPLIM (readWord (adjustW15 H.toSymbols mem) H.SPLIM),
                headCall (some "RCON") H.RCON (readWord (adjustW15 H.toSymbols mem) H.RCON),
                headCall (some "INTCON1") H.INTCON1
                  (readWord (adjustW15 H.toSymbols mem) H.INTCON1),
                headCall (some "SR") (H.contextRegs + 38)
                  (readWord (adjustW15 H.toSymbols mem) (H.contextRegs + 38)),
                headCall (some "CORCON") H.CORCON
                  (readWord (adjustW15 H.toSymbols mem) H.CORCON),
                headCall (some "RCOUNT") (H.contextRegs + 32)
                  (readWord (adjustW15 H.toSymbols mem) (H.contextRegs + 32)),
                headCall (some "DISICNT") H.DISICNT
                  (readWord (adjustW15 H.toSymbols mem) H.DISICNT),
                headCall (some "TBLPAG") H.TBLPAG
                  (readWord (adjustW15 H.toSymbols mem) H.TBLPAG),
                headCall (some (if H.DSRPAG ≠ 0 then "DSRPAG" else "PSVPAG"))
                  (H.contextRegs + 34)
                  (readWord (adjustW15 H.toSymbols mem) (H.contextRegs + 34))]
            ++ (if H.DSRPAG ≠ 0 then
                  [headCall (some "DSWPAG") (H.contextRegs + 36)
                    (readWord (adjustW15 H.toSymbols mem) (H.contextRegs + 36))]
                else [])
            ++ (if H.CTXTSTAT ≠ 0 then
                  [headCall (some "CTXTSTAT") H.CTXTSTAT
                    (readWord (adjustW15 H.toSymbols mem) H.CTXTSTAT)]
                else [])
      ∧ ((∃ p, Op.out p ∈ (EZBL_TrapHandler H flash mem).1 ∧ isNameFmt p.fmt = true
            ∧ p.args.head? = some (.str "DSWPAG"))
          ↔ H.DSRPAG ≠ 0)
      ∧ readWord (adjustW15 H.toSymbols mem) (H.contextRegs + 34)
          = readWord mem (H.contextRegs + 34)
      ∧ readWord (adjustW15 H.toSymbols mem) (H.contextRegs + 36)
          = readWord mem (H.contextRegs + 36)
      ∧ (∀ s, isNameFmt s = true ↔ s = "\n  %- 9s0x%04X")
      ∧ (∀ s, isDspFmt s = true ↔ s = "\n  ACCA     0x%04X%04X%04X\n  ACCB     0x%04X%04X%04X\n  DCOUNT   0x%04X (%u)\n  DSTART   0x%06lX\n  DEND     0x%06lX") := by
  have hreads := opReads_handler H flash mem
  refine ⟨?_, ?_, ?_, ?_, ?_, ?_, ?_, ?_, ?_, ?_, hreads, ?_, dspCalls_handler H flash mem,
    nameCalls_handler H flash mem, dswpag_line_iff H flash mem,
    adjustW15_other _ _ _ (by omega), adjustW15_other _ _ _ (by omega), ?_, ?_⟩
  · rw [handler_trace]
    simp only [reportOps, List.append_assoc]
    exact ⟨_, _, (List.append_assoc _ _ _).symm⟩
  · intro h; unfold dspSection; rw [if_neg (by simpa using h)]
  · intro h; unfold dspSection; rw [if_pos h]; rfl
  · intro h; unfold ctxtstatLine; rw [if_neg (by simpa using h)]
  · intro h; unfold ctxtstatLine; rw [if_pos h]; rfl
  · unfold specialLines
    exact ⟨_, rfl⟩
  · simp [preprologue]
  · simp [preprologue]
  · simp [preprologue]
  · intro m x
    by_cases hx : x = 2 * 0
    · rw [step_movFW_eq _ _ _ _ _ hx, hx]
    · rw [step_movFW_ne _ _ _ _ _ hx]
  · intro ha hc
    rw [hreads, if_neg (by simpa using ha), if_neg (by simpa using hc), List.append_nil,
      List.append_nil]
  · intro s; simp [isNameFmt]
  · intro s; simp [isDspFmt, dspFmt]

end EZBL
